import Mathlib

/-!
# A shallow embedding of `code/client/snd_openal.c`

The OpenAL sound backend of the engine keeps three fixed tables:

* `knownSfx`   : the decoded-buffer cache, one `alSfx_t` per registered path;
* `srcList`    : the pool of playback channels (`src_t`), `srcCount` of them acquired;
* `entityList` : one `sentity_t` per world entity (looping-sound bookkeeping).

The C code mutates these tables as globals.  Here they are the fields of one
record `ALState` that every operation takes and returns.  What the outside
world answers during a call (the clock, the decoder, the error code of the
playback library, the play state of a source) is passed in as an argument.
Calls into the playback library that only push properties to a source leave no
trace in the record; the calls that start or stop playback, delete a buffer or
run the decoder are appended to the field `log`.

`Com_Error` does not return to its caller: an operation that can reach it
yields `Except.error` together with the tables as they were at that moment.

Conventions.
* `srcList` holds exactly the acquired channels, so `srcCount` is its length.
* `knownSfx` has `MAX_SFX` slots; the table length stands for `MAX_SFX`.
* A C string is the list of its characters up to the terminating NUL, so
  `filename[0] == 0` reads `filename = []`.
* Reading a table at an index outside of it gives a zeroed record and writing
  there is dropped (in C both are undefined).
-/

namespace SndOpenAL

/-! ## Data model -/

/-- Error codes of the playback library, as told apart by `S_AL_ErrorMsg`. -/
inductive ALenum where
  | AL_NO_ERROR
  | AL_INVALID_NAME
  | AL_INVALID_ENUM
  | AL_INVALID_VALUE
  | AL_INVALID_OPERATION
  | AL_OUT_OF_MEMORY
  | AL_UNKNOWN
  deriving DecidableEq, Repr

/-- Modelled from the spec: the enumeration `alSrcPriority_t` is declared in
`snd_local.h`, which is not among the sources at hand.  The spec lists the
priority classes in ascending order (ambient-loop, entity-loop, one-shot-effect,
local-UI-effect, stream/music); the constant names are those used by
`snd_openal.c`. -/
inductive alSrcPriority_t where
  | SRCPRI_AMBIENT
  | SRCPRI_ENTITY
  | SRCPRI_ONESHOT
  | SRCPRI_LOCAL
  | SRCPRI_STREAM
  deriving DecidableEq, Repr

/-- Modelled from the spec: the integer behind a priority class of
`snd_local.h`.  The classes ascend in the order the spec lists them and the
lowest is 0, the value `S_AL_SrcKill` stores as the priority of a free channel. -/
def alSrcPriority_t.toInt : alSrcPriority_t → Int
  | .SRCPRI_AMBIENT => 0
  | .SRCPRI_ENTITY => 1
  | .SRCPRI_ONESHOT => 2
  | .SRCPRI_LOCAL => 3
  | .SRCPRI_STREAM => 4

/-- Handle of a cache entry: an index into `knownSfx`. -/
abbrev sfxHandle_t := Nat

/-- Handle of a channel: an index into `srcList`, or -1 for "none". -/
abbrev srcHandle_t := Int

/-- One slot of the decoded-buffer cache (`alSfx_t`; the unused `next` link is left out). -/
structure alSfx_t where
  filename : List Char := []
  buffer : Nat := 0
  isDefault : Bool := false
  inMemory : Bool := false
  isLocked : Bool := false
  used : Int := 0
  deriving DecidableEq, Repr

/-- One playback channel (`src_t`).  The field `local` is spelled `local_`. -/
structure src_t where
  source : Nat := 0
  sfx : sfxHandle_t := 0
  lastUse : Int := 0
  priority : alSrcPriority_t := .SRCPRI_AMBIENT
  entity : Int := 0
  channel : Int := 0
  isActive : Bool := false
  isLocked : Bool := false
  isLooping : Bool := false
  isTracking : Bool := false
  local_ : Bool := false
  deriving DecidableEq, Repr

/-- Looping-sound bookkeeping of one entity (`sentity_t`); the three
coordinates of `origin` are only stored and copied, never computed with. -/
structure sentity_t where
  origin : Int × Int × Int := (0, 0, 0)
  has_sfx : Bool := false
  sfx : srcHandle_t := 0
  touched : Bool := false
  deriving DecidableEq, Repr

instance : Inhabited alSfx_t := ⟨{}⟩
instance : Inhabited src_t := ⟨{}⟩
instance : Inhabited sentity_t := ⟨{}⟩

/-- Modelled from the spec: a readable decode stream of the codec layer
(`snd_stream_t` of `snd_codec.h`, not among the sources at hand).  The spec
gives the interface "open-stream(path) / read-stream(handle, maxBytes) → bytes
read (0 = end) / close-stream(handle)".  A stream is the path it was opened on
and the sizes of the reads still to come: the chunk `c` stands for a read that
returns `c + 1` bytes, and a read past the last chunk returns 0. -/
structure snd_stream_t where
  path : List Char := []
  chunks : List Nat := []
  deriving DecidableEq, Repr

/-- Calls to the outside world that are recorded in `ALState.log`.
`rawQueue` is the buffer that `S_AL_RawSamples` creates, fills and queues,
`rawUnqueueDelete` the unqueue-and-delete of one buffer in `S_AL_StreamUpdate`,
`genSources i` the call of `qalGenSources` for channel `i`, `deleteSources i`
the call of `qalDeleteSources` for it; the three stream events are the calls
into the codec layer. -/
inductive Event where
  | codecLoad (sfx : sfxHandle_t)
  | sourcePlay (src : srcHandle_t)
  | sourceStop (src : srcHandle_t)
  | deleteBuffers (buffer : Nat)
  | genSources (i : Nat)
  | deleteSources (i : Nat)
  | rawQueue (bytes : Int)
  | rawUnqueueDelete
  | streamOpen (path : List Char)
  | streamRead (path : List Char) (bytes : Nat)
  | streamClose (path : List Char)
  deriving DecidableEq, Repr

/-- The file-scope variables of `snd_openal.c`: the buffer cache, the channel
pool, the entity table, and the bookkeeping of the raw stream and of the
background track.  (`streamSource` and `musicSource` cache the source name of
the channel behind the handle and are left out, as are the buffer names in
`musicBuffers`.) -/
structure ALState where
  knownSfx : List alSfx_t := []
  default_sfx : sfxHandle_t := 0
  alBuffersInitialised : Bool := false
  srcList : List src_t := []
  entityList : List sentity_t := []
  ambientCount : Int := 0
  log : List Event := []
  alSourcesInitialised : Bool := false
  streamSourceHandle : srcHandle_t := -1
  streamPlaying : Bool := false
  musicPlaying : Bool := false
  musicSourceHandle : srcHandle_t := -1
  mus_stream : Option snd_stream_t := none
  s_backgroundLoop : List Char := []
  deriving DecidableEq, Repr

/-- Number of acquired channels (`srcCount`). -/
def srcCount (st : ALState) : Nat := st.srcList.length

/-- The two ways `Com_Error` is raised in this file, the case that the
answers of the outside world given to a call ran out (`noAnswer`), and the
case that the code reads through a null stream pointer, which the program does
not survive (`nullStream`). -/
inductive Abort where
  | ERR_FATAL
  | ERR_DROP
  | noAnswer
  | nullStream
  deriving DecidableEq, Repr

/-- Result of an operation that may end in `Com_Error`: the error carries the
tables as they were when it was raised. -/
abbrev Result (α : Type) := Except (Abort × ALState) α

/-- Sound information returned by the decoder (`snd_info_t`), as far as `S_AL_BufferLoad` reads it. -/
structure snd_info_t where
  rate : Int := 0
  width : Int := 0
  channels : Int := 0
  size : Int := 0
  deriving DecidableEq, Repr

/-- What the outside world answers during one `S_AL_BufferLoad`: the decoder
(`none` is the NULL of `S_CodecLoad`), the name written by `qalGenBuffers`, the
error it leaves, the error left by the first `qalBufferData`, and the errors
left by the uploads that are tried again after an eviction.  A call that tries
again more often than the list has answers ends in `Abort.noAnswer`. -/
structure LoadEnv where
  codec : Option snd_info_t := none
  genName : Nat := 0
  genError : ALenum := .AL_NO_ERROR
  fillError : ALenum := .AL_NO_ERROR
  retryErrors : List ALenum := []
  deriving DecidableEq, Repr

/-- What the outside world answers during one play request: the clock read by
`S_AL_SrcAlloc`, the clock read by `S_AL_SrcSetup`, the clock read by
`S_AL_BufferUse`, and the answers to a buffer load. -/
structure Env where
  allocTime : Int := 0
  setupTime : Int := 0
  useTime : Int := 0
  load : LoadEnv := {}
  deriving DecidableEq, Repr

/-! ## Table access -/

/-- Read `l[i]` for a C `int` index. -/
def readAt {α : Type} [Inhabited α] (l : List α) (i : Int) : α :=
  if 0 ≤ i then l.getD i.toNat default else default

/-- Store `a` at `l[i]` for a C `int` index. -/
def writeAt {α : Type} (l : List α) (i : Int) (a : α) : List α :=
  if 0 ≤ i then l.set i.toNat a else l

/-- Index of the first element satisfying `p`: the loop
`for(i = 0; i < n; i++) if(p(l[i])) return i;`, with `none` when it runs to the end. -/
def firstIdx {α : Type} (p : α → Bool) : List α → Option Nat
  | [] => none
  | a :: l => if p a then some 0 else (firstIdx p l).map (· + 1)

/-! ## C integers and strings -/

/-- The value of an `int` expression of the C code: the mathematical result
kept in 32 bits, two's complement (the products and sums of `int`s in this
file are taken that way by the compilers the engine is built with). -/
def wrapInt (x : Int) : Int := (x + 2 ^ 31) % 2 ^ 32 - 2 ^ 31

/-- The constant `MAX_QPATH`: the size of the array `filename` of a cache slot
and of the array `s_backgroundLoop`.  It is defined in `q_shared.h`, outside
the sources at hand, as 64. -/
def MAX_QPATH : Nat := 64

/-- Byte `i` of a C string in memory that was zeroed before the string was
copied there: the code of its `i`-th character (paths are ASCII), and 0 from
the terminating NUL on. -/
def cByte (s : List Char) (i : Nat) : Nat :=
  match s.get? i with
  | some c => c.toNat % 256
  | none => 0

/-- The 32-bit word that the bytes `off .. off + 3` of a C string make up
(low byte first, as on the processors the engine is built for). -/
def cWord (s : List Char) (off : Nat) : Nat :=
  cByte s off + 256 * cByte s (off + 1) + 65536 * cByte s (off + 2) +
    16777216 * cByte s (off + 3)

/-! ## Buffer cache -/

/-- The slot that `memset(ptr, 0, sizeof(*ptr)); strcpy(ptr->filename, filename)`
leaves.  The copy is not bounded by the size of `filename`: the characters of
a path from index `MAX_QPATH` on, and its terminating NUL, are written over
the fields that follow the array in `alSfx_t`, four bytes each, in the order
of the declaration: `buffer`, `isDefault`, `inMemory`, `isLocked`, `used`.  For
a path shorter than `MAX_QPATH` all of them stay zero.  The field `filename`
of the model holds the whole path, which is what the slot reads as while the
fields behind the array are not written again.  (A path of 84 characters or
more also runs over the unused link `next` and then over the slots that
follow; the model leaves those alone.) -/
def strcpySlot (filename : List Char) : alSfx_t :=
  { filename := filename
    buffer := cWord filename MAX_QPATH
    isDefault := decide (cWord filename (MAX_QPATH + 4) ≠ 0)
    inMemory := decide (cWord filename (MAX_QPATH + 8) ≠ 0)
    isLocked := decide (cWord filename (MAX_QPATH + 12) ≠ 0)
    used := wrapInt (cWord filename (MAX_QPATH + 16)) }

/-- `S_AL_BufferFindFree`: the first slot with an empty filename; a fatal error when there is none. -/
def S_AL_BufferFindFree (st : ALState) : Result sfxHandle_t :=
  match firstIdx (fun e => decide (e.filename = [])) st.knownSfx with
  | some i => .ok i
  | none => .error (.ERR_FATAL, st)

/-- `S_AL_BufferFind`: look the path up, claim a free slot when it is absent:
the slot is zeroed and the path copied into it with `strcpy` (`strcpySlot`).
`Q_stricmp` is defined in `q_shared.c`, outside the sources at hand; it is the
first argument here, and a slot matches when it returns 0. -/
def S_AL_BufferFind (Q_stricmp : List Char → List Char → Int) (st : ALState)
    (filename : List Char) : Result (sfxHandle_t × ALState) :=
  match firstIdx (fun e => decide (Q_stricmp e.filename filename = 0)) st.knownSfx with
  | some i => .ok (i, st)
  | none =>
    match S_AL_BufferFindFree st with
    | .error e => .error e
    | .ok sfx =>
      .ok (sfx, { st with knownSfx := st.knownSfx.set sfx (strcpySlot filename) })

/-- `S_AL_BufferUseDefault`: substitute the fallback buffer; fatal for the fallback itself. -/
def S_AL_BufferUseDefault (st : ALState) (sfx : sfxHandle_t) : Result ALState :=
  if sfx = st.default_sfx then .error (.ERR_FATAL, st)
  else
    let e := st.knownSfx.getD sfx default
    let d := st.knownSfx.getD st.default_sfx default
    .ok { st with knownSfx := st.knownSfx.set sfx { e with isDefault := true, buffer := d.buffer } }

/-- `S_AL_BufferEvict`: the placeholder, it frees nothing. -/
def S_AL_BufferEvict : Bool := false

/-- The `while(error == AL_OUT_OF_MEMORY)` loop of `S_AL_BufferLoad`.  `more`
holds the errors the coming uploads will leave.  `Sum.inl` is a `return` from
inside the loop (after the fallback was substituted), `Sum.inr` is the error
the loop is left with. -/
def S_AL_BufferLoad_retry (sfx : sfxHandle_t) :
    List ALenum → ALenum → ALState → Result (ALState ⊕ ALenum)
  | more, error, st =>
    if error = .AL_OUT_OF_MEMORY then
      if S_AL_BufferEvict = false then
        match S_AL_BufferUseDefault st sfx with
        | .error e => .error e
        | .ok st1 => .ok (.inl st1)
      else
        match more with
        | [] => .error (.noAnswer, st)
        | next :: rest => S_AL_BufferLoad_retry sfx rest next st
    else .ok (.inr error)

/-- `S_AL_BufferLoad`: decode and upload the sound of a slot, or fall back. -/
def S_AL_BufferLoad (st : ALState) (env : LoadEnv) (sfx : sfxHandle_t) : Result ALState :=
  let e := st.knownSfx.getD sfx default
  if e.filename = [] then .ok st
  else if e.filename.head? = some '*' then .ok st
  else if e.inMemory = true ∨ e.isDefault = true then .ok st
  else
    let st0 := { st with log := st.log ++ [.codecLoad sfx] }
    match env.codec with
    | none => S_AL_BufferUseDefault st0 sfx
    | some _ =>
      let st1 := { st0 with knownSfx := st0.knownSfx.set sfx { e with buffer := env.genName } }
      if env.genError ≠ .AL_NO_ERROR then S_AL_BufferUseDefault st1 sfx
      else
        match S_AL_BufferLoad_retry sfx env.retryErrors env.fillError st1 with
        | .error x => .error x
        | .ok (.inl st2) => .ok st2
        | .ok (.inr error) =>
          if error ≠ .AL_NO_ERROR then S_AL_BufferUseDefault st1 sfx
          else
            let e1 := st1.knownSfx.getD sfx default
            .ok { st1 with knownSfx := st1.knownSfx.set sfx { e1 with inMemory := true } }

/-- The early returns of `S_AL_BufferLoad`: an empty slot, a player sound
(`*` as first character), or a slot already loaded or already on the fallback. -/
def loadSkips (e : alSfx_t) : Prop :=
  e.filename = [] ∨ e.filename.head? = some '*' ∨ e.inMemory = true ∨ e.isDefault = true

instance (e : alSfx_t) : Decidable (loadSkips e) := by
  unfold loadSkips; infer_instance

/-- The outside world makes a load fail: the decoder returns no data, or the
buffer cannot be created, or it cannot be filled. -/
def loadFails (env : LoadEnv) : Prop :=
  env.codec = none ∨ env.genError ≠ .AL_NO_ERROR ∨ env.fillError ≠ .AL_NO_ERROR

instance (env : LoadEnv) : Decidable (loadFails env) := by
  unfold loadFails; infer_instance

/-- The tables of `S_AL_BufferLoad` once the decoder has run and, when it gave
data, `qalGenBuffers` has written the buffer name into the slot. -/
def loadTouched (st : ALState) (env : LoadEnv) (sfx : sfxHandle_t) : ALState :=
  match env.codec with
  | none => { st with log := st.log ++ [.codecLoad sfx] }
  | some _ =>
    { st with
      knownSfx := st.knownSfx.set sfx { st.knownSfx.getD sfx default with buffer := env.genName }
      log := st.log ++ [.codecLoad sfx] }

/-- The part of the tables that the buffer cache never writes. -/
def samePool (st st1 : ALState) : Prop :=
  st1.srcList = st.srcList ∧ st1.entityList = st.entityList ∧
  st1.default_sfx = st.default_sfx ∧ st1.ambientCount = st.ambientCount

/-- `S_AL_BufferUse`: load on first use, stamp the time of use (`now` is `Com_Milliseconds()`). -/
def S_AL_BufferUse (st : ALState) (now : Int) (env : LoadEnv) (sfx : sfxHandle_t) :
    Result ALState :=
  let e := st.knownSfx.getD sfx default
  if e.filename = [] then .ok st
  else
    let loaded : Result ALState :=
      if e.inMemory = false ∧ e.isDefault = false then S_AL_BufferLoad st env sfx else .ok st
    match loaded with
    | .error x => .error x
    | .ok st1 =>
      let e1 := st1.knownSfx.getD sfx default
      .ok { st1 with knownSfx := st1.knownSfx.set sfx { e1 with used := now } }

/-- `S_AL_BufferGet`. -/
def S_AL_BufferGet (st : ALState) (sfx : sfxHandle_t) : Nat :=
  (st.knownSfx.getD sfx default).buffer

/-- `S_AL_RegisterSound`: `precache` is `s_alPrecache->integer`, `now` is `Com_Milliseconds()`. -/
def S_AL_RegisterSound (Q_stricmp : List Char → List Char → Int) (st : ALState)
    (precache : Int) (now : Int) (env : LoadEnv) (sample : List Char) :
    Result (sfxHandle_t × ALState) :=
  match S_AL_BufferFind Q_stricmp st sample with
  | .error x => .error x
  | .ok (sfx, st1) =>
    let e := st1.knownSfx.getD sfx default
    let loaded : Result ALState :=
      if precache = 1 ∧ e.inMemory = false ∧ e.isDefault = false then S_AL_BufferLoad st1 env sfx
      else .ok st1
    match loaded with
    | .error x => .error x
    | .ok st2 =>
      let e2 := st2.knownSfx.getD sfx default
      .ok (sfx, { st2 with knownSfx := st2.knownSfx.set sfx { e2 with used := now } })

/-- `S_AL_BufferInit`: clear the table, resolve and load the fallback sound, lock it. -/
def S_AL_BufferInit (Q_stricmp : List Char → List Char → Int) (st : ALState)
    (now : Int) (env : LoadEnv) : Result ALState :=
  if st.alBuffersInitialised = true then .ok st
  else
    let st0 := { st with knownSfx := st.knownSfx.map (fun _ => ({} : alSfx_t)) }
    match S_AL_BufferFind Q_stricmp st0 "sound/feedback/hit.wav".toList with
    | .error x => .error x
    | .ok (d, st1) =>
      match S_AL_BufferUse { st1 with default_sfx := d } now env d with
      | .error x => .error x
      | .ok st2 =>
        let e := st2.knownSfx.getD d default
        .ok { st2 with knownSfx := st2.knownSfx.set d { e with isLocked := true },
                       alBuffersInitialised := true }

/-- Modelled from the spec: `Q_stricmp` of `q_shared.c` is not among the sources
at hand; the spec says that the cache is searched "by exact path string".  This
comparison returns 0 for equal strings and 1 otherwise. -/
def exactCompare (a b : List Char) : Int := if a = b then 0 else 1

/-- A comparison whose "returns 0" is an equivalence of strings. -/
def comparesAsEquality (cmp : List Char → List Char → Int) : Prop :=
  (∀ a, cmp a a = 0) ∧ (∀ a b, cmp a b = 0 → cmp b a = 0) ∧
  (∀ a b c, cmp a b = 0 → cmp b c = 0 → cmp a c = 0)

/-- One call into the buffer cache from outside, with what the outside world
answers during it: `S_AL_BufferUse` or `S_AL_RegisterSound`. -/
inductive CacheCall where
  | use (sfx : sfxHandle_t) (now : Int) (env : LoadEnv)
  | register (sample : List Char) (precache : Int) (now : Int) (env : LoadEnv)

/-- The tables an operation ends with, whether it returned or ended in `Com_Error`. -/
def finalState {α : Type} (st : α → ALState) : Result α → ALState
  | .ok a => st a
  | .error x => x.2

/-- Run one cache call. -/
def runCall (Q_stricmp : List Char → List Char → Int) (st : ALState) : CacheCall → Result ALState
  | .use sfx now env => S_AL_BufferUse st now env sfx
  | .register sample precache now env =>
    match S_AL_RegisterSound Q_stricmp st precache now env sample with
    | .error x => .error x
    | .ok r => .ok r.2

/-- Run a sequence of cache calls; the first `Com_Error` ends the run. -/
def runCalls (Q_stricmp : List Char → List Char → Int) : ALState → List CacheCall → Result ALState
  | st, [] => .ok st
  | st, call :: rest =>
    match runCall Q_stricmp st call with
    | .error x => .error x
    | .ok st1 => runCalls Q_stricmp st1 rest

/-- How often the decoder was run for handle `h` so far. -/
def decoderRuns (st : ALState) (h : sfxHandle_t) : Nat := st.log.count (.codecLoad h)

/-- Handle `h` is on the fallback sound, its slot holds a path, and the decoder
has run `n` times for it. -/
def onFallback (h : sfxHandle_t) (n : Nat) (st : ALState) : Prop :=
  (st.knownSfx.getD h default).isDefault = true ∧ (st.knownSfx.getD h default).filename ≠ [] ∧
  decoderRuns st h = n

/-- A cache of three slots before `S_AL_BufferInit`. -/
def cacheZero : ALState := { knownSfx := List.replicate 3 {} }

/-- The cache of three slots right after `S_AL_BufferInit`: the fallback sound
is loaded and locked in slot 0, slots 1 and 2 are free. -/
def cacheFresh : ALState :=
  { knownSfx :=
      [ { filename := "sound/feedback/hit.wav".toList, buffer := 7, inMemory := true,
          isLocked := true, used := 10 },
        {}, {} ]
    default_sfx := 0
    alBuffersInitialised := true
    log := [.codecLoad 0] }

/-- `cacheFresh` after a first new path was resolved: it sits in slot 1. -/
def cacheOne : ALState :=
  { cacheFresh with
    knownSfx := cacheFresh.knownSfx.set 1 { filename := "sound/misc/menu1.wav".toList } }

/-- `cacheOne` after a second new path was resolved: it sits in slot 2. -/
def cacheTwo : ALState :=
  { cacheOne with
    knownSfx := cacheOne.knownSfx.set 2 { filename := "sound/misc/menu2.wav".toList } }

/-- Answers of the outside world for a load in which the decoder finds no file. -/
def envNoFile : LoadEnv := { codec := none }

/-! ## Channel pool -/

/-- `S_AL_SrcKill`: nothing for a locked channel; otherwise stop it, detach the
entity loop and reset the channel to the free state. -/
def S_AL_SrcKill (st : ALState) (src : srcHandle_t) : ALState :=
  let s := readAt st.srcList src
  if s.isLocked = true then st
  else
    let log1 := if s.isActive = true then st.log ++ [.sourceStop src] else st.log
    let ents :=
      if s.isLooping = true ∧ s.entity ≠ -1 then
        writeAt st.entityList s.entity
          { readAt st.entityList s.entity with has_sfx := false, sfx := -1, touched := false }
      else st.entityList
    { st with
      srcList := writeAt st.srcList src
        { s with sfx := 0, lastUse := 0, priority := .SRCPRI_AMBIENT, entity := -1,
                 channel := -1, isActive := false, isLocked := false, isLooping := false,
                 isTracking := false }
      entityList := ents
      log := log1 }

/-- The local variables of `S_AL_SrcAlloc`. -/
structure AllocVars where
  empty : Int := -1
  weakest : Int := -1
  weakest_time : Int
  weakest_pri : Int := 999
  deriving DecidableEq, Repr

/-- The first part of the loop body of `S_AL_SrcAlloc` for a channel that is
not locked: note the first free channel, else flag a weaker candidate. -/
def S_AL_SrcAlloc_step (priority : alSrcPriority_t) (i : Nat) (s : src_t) (v : AllocVars) :
    AllocVars :=
  if s.isActive = false ∧ v.empty = -1 then { v with empty := i }
  else if s.priority.toInt < priority.toInt then
    if s.priority.toInt < v.weakest_pri ∨ s.lastUse < v.weakest_time then
      { v with weakest_pri := s.priority.toInt, weakest_time := s.lastUse, weakest := i }
    else v
  else v

/-- The test "exact match, and not on channel 0" of `S_AL_SrcAlloc`. -/
def exactMatch (s : src_t) (entnum channel : Int) : Prop :=
  s.entity = entnum ∧ s.channel = channel ∧ channel ≠ 0

instance (s : src_t) (entnum channel : Int) : Decidable (exactMatch s entnum channel) := by
  unfold exactMatch; infer_instance

/-- The `for` loop of `S_AL_SrcAlloc` over the channels from index `i` on.
`Sum.inl i` is the `return i` from inside the loop (exact match at `i`, which
the caller kills), `Sum.inr v` are the locals when the loop runs to the end. -/
def S_AL_SrcAlloc_loop (priority : alSrcPriority_t) (entnum channel : Int) :
    List src_t → Nat → AllocVars → Nat ⊕ AllocVars
  | [], _, v => .inr v
  | s :: rest, i, v =>
    if s.isLocked = true then S_AL_SrcAlloc_loop priority entnum channel rest (i + 1) v
    else
      let v1 := S_AL_SrcAlloc_step priority i s v
      if exactMatch s entnum channel then .inl i
      else S_AL_SrcAlloc_loop priority entnum channel rest (i + 1) v1

/-- `S_AL_SrcAlloc`: the channel for a request (`now` is `Sys_Milliseconds()`);
returns the handle, -1 when the request is dropped, and the tables. -/
def S_AL_SrcAlloc (st : ALState) (now : Int) (priority : alSrcPriority_t)
    (entnum channel : Int) : srcHandle_t × ALState :=
  match S_AL_SrcAlloc_loop priority entnum channel st.srcList 0 { weakest_time := now } with
  | .inl i => (i, S_AL_SrcKill st i)
  | .inr v =>
    if v.empty ≠ -1 then (v.empty, st)
    else if v.weakest ≠ -1 then (v.weakest, S_AL_SrcKill st v.weakest)
    else (-1, st)

/-- The locals of `S_AL_SrcAlloc` after its loop has gone over the channels of
the list (from index `i` on) without meeting an exact match. -/
def S_AL_SrcAlloc_vars (priority : alSrcPriority_t) : List src_t → Nat → AllocVars → AllocVars
  | [], _, v => v
  | s :: rest, i, v =>
    if s.isLocked = true then S_AL_SrcAlloc_vars priority rest (i + 1) v
    else S_AL_SrcAlloc_vars priority rest (i + 1) (S_AL_SrcAlloc_step priority i s v)

/-- A channel that a request at priority `p` may preempt: not locked and of
strictly lower priority. -/
def preemptable (p : alSrcPriority_t) (s : src_t) : Prop :=
  s.isLocked = false ∧ s.priority.toInt < p.toInt

instance (p : alSrcPriority_t) (s : src_t) : Decidable (preemptable p s) := by
  unfold preemptable; infer_instance

/-- Channel `i` of the pool (`srcList[i]`). -/
def chan (st : ALState) (i : Int) : src_t := readAt st.srcList i

/-- Entry `e` of the entity table (`entityList[e]`). -/
def ent (st : ALState) (e : Int) : sentity_t := readAt st.entityList e

/-- The free state of a channel, as `S_AL_SrcKill` leaves it: every field but
the source name and the `local` flag is reset. -/
def isFree (s : src_t) : Prop :=
  s.sfx = 0 ∧ s.lastUse = 0 ∧ s.priority = .SRCPRI_AMBIENT ∧ s.entity = -1 ∧ s.channel = -1 ∧
  s.isActive = false ∧ s.isLocked = false ∧ s.isLooping = false ∧ s.isTracking = false

instance (s : src_t) : Decidable (isFree s) := by
  unfold isFree; infer_instance

/-- `S_AL_SrcSetup`: mark the sound used and bind it to the channel. -/
def S_AL_SrcSetup (st : ALState) (env : Env) (src : srcHandle_t) (sfx : sfxHandle_t)
    (priority : alSrcPriority_t) (entity channel : Int) (local_ : Bool) : Result ALState :=
  match S_AL_BufferUse st env.useTime env.load sfx with
  | .error x => .error x
  | .ok st1 =>
    .ok { st1 with
          srcList := writeAt st1.srcList src
            { readAt st1.srcList src with
              lastUse := env.setupTime, sfx := sfx, priority := priority, entity := entity,
              channel := channel, isActive := true, isLocked := false, isLooping := false,
              isTracking := false, local_ := local_ } }

/-- `S_AL_SrcFind`: the first active channel with the given entity and channel numbers. -/
def S_AL_SrcFind (st : ALState) (entnum channel : Int) : srcHandle_t :=
  match firstIdx (fun s => decide (s.isActive = true ∧ s.entity = entnum ∧ s.channel = channel))
      st.srcList with
  | some i => i
  | none => -1

/-- `S_AL_SrcLock`. -/
def S_AL_SrcLock (st : ALState) (src : srcHandle_t) : ALState :=
  { st with srcList := writeAt st.srcList src { readAt st.srcList src with isLocked := true } }

/-- `S_AL_SrcUnlock`. -/
def S_AL_SrcUnlock (st : ALState) (src : srcHandle_t) : ALState :=
  { st with srcList := writeAt st.srcList src { readAt st.srcList src with isLocked := false } }

/-- `S_AL_StartLocalSound`; the result also carries the local `src`. -/
def S_AL_StartLocalSound (st : ALState) (env : Env) (sfx : sfxHandle_t) (channel : Int) :
    Result (srcHandle_t × ALState) :=
  match S_AL_SrcAlloc st env.allocTime .SRCPRI_LOCAL (-1) channel with
  | (src, st1) =>
    if src = -1 then .ok (src, st1)
    else
      match S_AL_SrcSetup st1 env src sfx .SRCPRI_LOCAL (-1) channel true with
      | .error x => .error x
      | .ok st2 => .ok (src, { st2 with log := st2.log ++ [.sourcePlay src] })

/-- `S_AL_StartSound`: play a one-shot; `originNull` says that `origin == NULL`.
The result also carries the local `src` (-1 when the request was dropped). -/
def S_AL_StartSound (st : ALState) (env : Env) (originNull : Bool) (entnum entchannel : Int)
    (sfx : sfxHandle_t) : Result (srcHandle_t × ALState) :=
  match S_AL_SrcAlloc st env.allocTime .SRCPRI_ONESHOT entnum entchannel with
  | (src, st1) =>
    if src = -1 then .ok (src, st1)
    else
      match S_AL_SrcSetup st1 env src sfx .SRCPRI_ONESHOT entnum entchannel false with
      | .error x => .error x
      | .ok st2 =>
        let st3 :=
          if originNull = true then
            { st2 with srcList := writeAt st2.srcList src
                        { readAt st2.srcList src with isTracking := true } }
          else st2
        .ok (src, { st3 with log := st3.log ++ [.sourcePlay src] })

/-- The loop body of `S_AL_ClearLoopingSounds` for one channel, on the entity table. -/
def S_AL_ClearLoopingSounds_step (ents : List sentity_t) (s : src_t) : List sentity_t :=
  if s.isLooping = true ∧ s.entity ≠ -1 then
    writeAt ents s.entity { readAt ents s.entity with touched := false }
  else ents

/-- `S_AL_ClearLoopingSounds`: clear the touched flag of every entity that owns
a looping channel (the argument `killall` is not read). -/
def S_AL_ClearLoopingSounds (st : ALState) : ALState :=
  { st with entityList := st.srcList.foldl S_AL_ClearLoopingSounds_step st.entityList }

/-- `S_AL_SrcLoop`: start, restart or keep the looping sound of an entity.
The code indexes `entityList` with `entnum` unchecked; the statements about
reachable pools are made for entity numbers that index the table. -/
def S_AL_SrcLoop (st : ALState) (env : Env) (priority : alSrcPriority_t) (sfx : sfxHandle_t)
    (entnum : Int) : Result ALState :=
  let play (st0 : ALState) (src : srcHandle_t) : Result ALState :=
    match S_AL_SrcSetup st0 env src sfx priority entnum (-1) false with
    | .error x => .error x
    | .ok st1 =>
      let st2 := { st1 with
        srcList := writeAt st1.srcList src { readAt st1.srcList src with isLooping := true }
        entityList := writeAt st1.entityList entnum
          { readAt st1.entityList entnum with has_sfx := true, sfx := src } }
      .ok { st2 with
            entityList := writeAt st2.entityList entnum
              { readAt st2.entityList entnum with touched := true }
            log := st2.log ++ [.sourcePlay src] }
  if (readAt st.entityList entnum).has_sfx = false then
    match S_AL_SrcAlloc { st with ambientCount := st.ambientCount + 1 } env.allocTime priority
        entnum (-1) with
    | (src, st1) => if src = -1 then .ok st1 else play st1 src
  else if (readAt st.srcList (readAt st.entityList entnum).sfx).sfx ≠ sfx then
    let src := (readAt st.entityList entnum).sfx
    play (S_AL_SrcKill st src) src
  else
    .ok { st with
          entityList := writeAt st.entityList entnum
            { readAt st.entityList entnum with touched := true } }

/-- `S_AL_StopLoopingSound`. -/
def S_AL_StopLoopingSound (st : ALState) (entityNum : Int) : ALState :=
  if (readAt st.entityList entityNum).has_sfx = true then
    S_AL_SrcKill st (readAt st.entityList entityNum).sfx
  else st

/-- One pass of the loop body of `S_AL_SrcUpdate` for channel `i`; `stopped i`
says that the playback library reports the source of channel `i` as
`AL_STOPPED`. -/
def S_AL_SrcUpdate_step (stopped : Nat → Bool) (i : Nat) (st : ALState) : ALState :=
  let s := readAt st.srcList i
  if s.isLocked = true then st
  else if s.isActive = false then st
  else if stopped i = true then S_AL_SrcKill st i
  else if s.isLooping = true then
    if (readAt st.entityList s.entity).touched = false then
      S_AL_SrcKill { st with ambientCount := st.ambientCount - 1 } i
    else st
  else st

/-- The `for` loop of `S_AL_SrcUpdate`: `n` channels are left, starting at `i`. -/
def S_AL_SrcUpdate_loop (stopped : Nat → Bool) : Nat → Nat → ALState → ALState
  | 0, _, st => st
  | n + 1, i, st => S_AL_SrcUpdate_loop stopped n (i + 1) (S_AL_SrcUpdate_step stopped i st)

/-- `S_AL_SrcUpdate`: the per-frame sweep over all channels. -/
def S_AL_SrcUpdate (st : ALState) (stopped : Nat → Bool) : ALState :=
  S_AL_SrcUpdate_loop stopped (srcCount st) 0 st

/-- `S_AL_SrcShutup`: kill every channel. -/
def S_AL_SrcShutup (st : ALState) : ALState :=
  (List.range (srcCount st)).foldl (fun s i => S_AL_SrcKill s i) st

/-- `S_AL_UpdateEntityPosition`: store the origin of an entity.  The entity
table is declared as `entityList[MAX_GENTITIES]`, so its length stands for
`MAX_GENTITIES`. -/
def S_AL_UpdateEntityPosition (st : ALState) (entityNum : Int) (origin : Int × Int × Int) :
    Result ALState :=
  if entityNum < 0 ∨ entityNum > (st.entityList.length : Int) then .error (.ERR_DROP, st)
  else
    .ok { st with
          entityList := writeAt st.entityList entityNum
            { readAt st.entityList entityNum with origin := origin } }

/-- The constant `MAX_SRC`. -/
def MAX_SRC : Nat := 128

/-- The number of channels `S_AL_SrcInit` sets out to acquire: `s_alSources`
capped to `MAX_SRC` and raised to 16. -/
def S_AL_SrcInit_limit (s_alSources : Int) : Int :=
  if s_alSources > (MAX_SRC : Int) then (MAX_SRC : Int)
  else if s_alSources < 16 then 16
  else s_alSources

/-- The `for` loop of `S_AL_SrcInit`: `n` channels are still to be tried,
starting at `i`.  `gen i` is what `qalGenSources` answers for channel `i`: the
source name and the error it leaves. -/
def S_AL_SrcInit_loop (gen : Nat → Nat × ALenum) : Nat → Nat → ALState → ALState
  | 0, _, st => st
  | n + 1, i, st =>
    let st1 := { st with log := st.log ++ [.genSources i] }
    if (gen i).2 ≠ .AL_NO_ERROR then st1
    else
      S_AL_SrcInit_loop gen n (i + 1)
        { st1 with srcList := st1.srcList ++ [{ source := (gen i).1 }] }

/-- `S_AL_SrcInit`: clear the pool and acquire channels until the limit is
reached or the playback library fails (`s_alSources` is `s_alSources->integer`). -/
def S_AL_SrcInit (st : ALState) (s_alSources : Int) (gen : Nat → Nat × ALenum) : ALState :=
  { S_AL_SrcInit_loop gen (S_AL_SrcInit_limit s_alSources).toNat 0 { st with srcList := [] } with
    alSourcesInitialised := true }

/-! ## Raw stream -/

/-- `S_AL_AllocateStreamChannel`: take a channel at stream priority and lock it. -/
def S_AL_AllocateStreamChannel (st : ALState) (now : Int) : ALState :=
  match S_AL_SrcAlloc st now .SRCPRI_STREAM (-2) 0 with
  | (h, st1) =>
    if h = -1 then { st1 with streamSourceHandle := h }
    else S_AL_SrcLock { st1 with streamSourceHandle := h } h

/-- `S_AL_FreeStreamChannel`: unlock the stream channel and forget it. -/
def S_AL_FreeStreamChannel (st : ALState) : ALState :=
  { S_AL_SrcUnlock st st.streamSourceHandle with streamSourceHandle := -1 }

/-- `S_AL_StreamDie`. -/
def S_AL_StreamDie (st : ALState) : ALState :=
  if st.streamSourceHandle = -1 then st
  else
    S_AL_FreeStreamChannel
      { st with streamPlaying := false, log := st.log ++ [.sourceStop st.streamSourceHandle] }

/-! ## Background track -/

/-- Modelled from the spec: `S_CodecOpenStream` of the codec layer,
"open-stream(path)".  `files` is the outside world: the sizes of the reads a
stream opened on a path will return, or `none` when the path cannot be opened. -/
def S_CodecOpenStream (files : List Char → Option (List Nat)) (path : List Char) :
    Option snd_stream_t :=
  match files path with
  | none => none
  | some chunks => some { path := path, chunks := chunks }

/-- Modelled from the spec: `S_CodecReadStream` of the codec layer,
"read-stream(handle, maxBytes) → bytes read (0 = end)": the number of bytes
read and the stream after the read. -/
def S_CodecReadStream (s : snd_stream_t) : Nat × snd_stream_t :=
  match s.chunks with
  | [] => (0, s)
  | c :: rest => (c + 1, { s with chunks := rest })

/-- `S_AL_MusicSourceGet`: take a channel at stream priority and lock it. -/
def S_AL_MusicSourceGet (st : ALState) (now : Int) : ALState :=
  match S_AL_SrcAlloc st now .SRCPRI_STREAM (-2) 0 with
  | (h, st1) =>
    if h = -1 then { st1 with musicSourceHandle := h }
    else S_AL_SrcLock { st1 with musicSourceHandle := h } h

/-- `S_AL_MusicSourceFree`. -/
def S_AL_MusicSourceFree (st : ALState) : ALState :=
  { S_AL_SrcUnlock st st.musicSourceHandle with musicSourceHandle := -1 }

/-- `S_AL_StopBackgroundTrack`: stop the music source, release its channel and
close the stream (the music buffers it unqueues and deletes have no name in
the model and leave no trace in the log). -/
def S_AL_StopBackgroundTrack (st : ALState) : ALState :=
  if st.musicPlaying = false then st
  else
    let st1 := S_AL_MusicSourceFree { st with log := st.log ++ [.sourceStop st.musicSourceHandle] }
    let st2 :=
      match st1.mus_stream with
      | some s => { st1 with log := st1.log ++ [Event.streamClose s.path] }
      | none => st1
    { st2 with mus_stream := none, musicPlaying := false }

/-- The C string that `S_CodecOpenStream(s_backgroundLoop)` reads.  The array
holds `MAX_QPATH` characters; when `strncpy` filled it without a terminating
NUL, the string goes on through whatever follows the array in memory, up to
the first NUL there: `behind`, an answer of the outside world. -/
def loopPath (st : ALState) (behind : List Char) : List Char :=
  if st.s_backgroundLoop.length < MAX_QPATH then st.s_backgroundLoop
  else st.s_backgroundLoop ++ behind

/-- `S_AL_MusicProcess`: decode the next piece of the track into a buffer; at
the end of the stream, close it and go on with the loop file.  Without an open
stream the read goes through a null pointer (`Abort.nullStream`).  `behind` is
what follows the array `s_backgroundLoop` in memory (see `loopPath`). -/
def S_AL_MusicProcess (files : List Char → Option (List Nat)) (behind : List Char)
    (st : ALState) : Result ALState :=
  match st.mus_stream with
  | none => .error (.nullStream, st)
  | some s =>
    let st1 := { st with mus_stream := some (S_CodecReadStream s).2,
                         log := st.log ++ [Event.streamRead s.path (S_CodecReadStream s).1] }
    if (S_CodecReadStream s).1 = 0 then
      let st2 := { st1 with
        log := st1.log ++ [Event.streamClose s.path, Event.streamOpen (loopPath st1 behind)] }
      match S_CodecOpenStream files (loopPath st2 behind) with
      | none => .ok (S_AL_StopBackgroundTrack { st2 with mus_stream := none })
      | some s2 =>
        .ok { st2 with mus_stream := some (S_CodecReadStream s2).2,
                       log := st2.log ++ [Event.streamRead s2.path (S_CodecReadStream s2).1] }
    else .ok st1

/-- The four calls of `S_AL_MusicProcess` that fill the music buffers, and the
loop of `S_AL_MusicUpdate` over the processed buffers. -/
def S_AL_MusicProcess_times (files : List Char → Option (List Nat)) (behind : List Char) :
    Nat → ALState → Result ALState
  | 0, st => .ok st
  | n + 1, st =>
    match S_AL_MusicProcess files behind st with
    | .error x => .error x
    | .ok st1 => S_AL_MusicProcess_times files behind n st1

/-- The constant `NUM_MUSIC_BUFFERS`. -/
def NUM_MUSIC_BUFFERS : Nat := 4

/-- A string argument that is `NULL` or empty (`!s || !s[0]`). -/
def isBlank (s : Option (List Char)) : Prop := s = none ∨ s = some []

instance (s : Option (List Char)) : Decidable (isBlank s) := by
  unfold isBlank; infer_instance

/-- `S_AL_StartBackgroundTrack`.  `strncpy` copies at most `MAX_QPATH`
characters of the loop path into `s_backgroundLoop` (and no terminating NUL
when the path has that many).  `now` is the clock read by `S_AL_SrcAlloc`. -/
def S_AL_StartBackgroundTrack (files : List Char → Option (List Nat)) (behind : List Char)
    (st : ALState) (now : Int) (intro loop : Option (List Char)) : Result ALState :=
  let st0 := S_AL_StopBackgroundTrack st
  let intro1 := if isBlank intro then loop else intro
  let loop1 := if isBlank loop then intro1 else loop
  if isBlank intro1 ∧ isBlank intro1 then .ok st0
  else
    let st1 := { st0 with s_backgroundLoop := (loop1.getD []).take MAX_QPATH }
    let st2 := { st1 with mus_stream := S_CodecOpenStream files (intro1.getD []),
                          log := st1.log ++ [.streamOpen (intro1.getD [])] }
    if st2.mus_stream = none then .ok st2
    else
      let st3 := S_AL_MusicSourceGet st2 now
      if st3.musicSourceHandle = -1 then .ok st3
      else
        match S_AL_MusicProcess_times files behind NUM_MUSIC_BUFFERS st3 with
        | .error x => .error x
        | .ok st4 =>
          .ok { st4 with log := st4.log ++ [.sourcePlay st4.musicSourceHandle],
                         musicPlaying := true }

/-- `S_AL_MusicUpdate`: `processed` is the number of processed buffers the
playback library reports, `stopped` says that it reports the source stopped. -/
def S_AL_MusicUpdate (files : List Char → Option (List Nat)) (behind : List Char)
    (st : ALState) (processed : Nat) (stopped : Bool) : Result ALState :=
  if st.musicPlaying = false then .ok st
  else
    match S_AL_MusicProcess_times files behind processed st with
    | .error x => .error x
    | .ok st1 =>
      if stopped = true then .ok { st1 with log := st1.log ++ [.sourcePlay st1.musicSourceHandle] }
      else .ok st1

/-- A sequence of `S_AL_MusicUpdate` passes, each with what the playback
library reports to it. -/
def musicUpdates (files : List Char → Option (List Nat)) (behind : List Char) :
    ALState → List (Nat × Bool) → Result ALState
  | st, [] => .ok st
  | st, u :: rest =>
    match S_AL_MusicUpdate files behind st u.1 u.2 with
    | .error x => .error x
    | .ok st1 => musicUpdates files behind st1 rest

/-- `S_AL_BufferUnload`: delete the buffer of a slot that holds a path and is
in memory (the error that `qalDeleteBuffers` may leave is only printed). -/
def S_AL_BufferUnload (st : ALState) (sfx : sfxHandle_t) : ALState :=
  let e := st.knownSfx.getD sfx default
  if e.filename = [] then st
  else if e.inMemory = false then st
  else
    { st with
      knownSfx := st.knownSfx.set sfx { e with inMemory := false }
      log := st.log ++ [.deleteBuffers e.buffer] }

/-- `S_AL_BufferShutdown`: unlock the fallback sound, unload every slot, clear the table. -/
def S_AL_BufferShutdown (st : ALState) : ALState :=
  if st.alBuffersInitialised = false then st
  else
    let st1 := { st with
      knownSfx := st.knownSfx.set st.default_sfx
        { st.knownSfx.getD st.default_sfx default with isLocked := false } }
    let st2 := (List.range st1.knownSfx.length).foldl (fun s i => S_AL_BufferUnload s i) st1
    { st2 with knownSfx := st2.knownSfx.map (fun _ => ({} : alSfx_t)),
               alBuffersInitialised := false }

/-- `S_AL_SrcShutdown`: stop and delete the source of every acquired channel
and zero the pool.  `srcCount` keeps its value (the zeroed channels stay in the
list) and the entity table is not written. -/
def S_AL_SrcShutdown (st : ALState) : ALState :=
  if st.alSourcesInitialised = false then st
  else
    { st with
      srcList := st.srcList.map (fun _ => ({} : src_t))
      log := st.log ++
        (List.range (srcCount st)).flatMap (fun i => [Event.sourceStop i, Event.deleteSources i])
      alSourcesInitialised := false }

/-- `S_AL_Shutdown`: end the raw stream and the background track, shut the
pool and the cache down (the context and the device of the playback library
are closed afterwards; they are not part of the tables). -/
def S_AL_Shutdown (st : ALState) : ALState :=
  S_AL_BufferShutdown (S_AL_SrcShutdown (S_AL_StopBackgroundTrack (S_AL_StreamDie st)))

/-- Entity `e` has the looping channel `c` attached: the entity table says so
(`has_sfx`, `sfx = c`), channel `c` is in the pool, playing, looping, not locked
and owned by `e`, and no other channel is a loop of `e`. -/
def attachedLoop (st : ALState) (e : Int) (c : Nat) : Prop :=
  (ent st e).has_sfx = true ∧ (ent st e).sfx = (c : Int) ∧ c < srcCount st ∧
  (chan st c).isActive = true ∧ (chan st c).isLooping = true ∧
  (chan st c).isLocked = false ∧ (chan st c).entity = e ∧
  ∀ j : Nat, j < srcCount st → j ≠ c → (chan st j).isLooping = true → (chan st j).entity ≠ e

instance (st : ALState) (e : Int) (c : Nat) : Decidable (attachedLoop st e c) := by
  unfold attachedLoop; infer_instance

/-- The entity table and the channel pool agree on the looping sounds: an
entity flagged `has_sfx` names a looping channel that it owns, and a looping
channel is playing, not locked, and named by the entity that owns it.  (An
index outside a table reads as the zero entry, which is neither flagged nor
looping.) -/
def attachmentConsistent (st : ALState) : Prop :=
  (∀ e : Int, (ent st e).has_sfx = true →
    (chan st (ent st e).sfx).isLooping = true ∧ (chan st (ent st e).sfx).entity = e) ∧
  (∀ c : Int, (chan st c).isLooping = true →
    (chan st c).isActive = true ∧ (chan st c).isLocked = false ∧
    (ent st (chan st c).entity).has_sfx = true ∧ (ent st (chan st c).entity).sfx = c)

/-- The states the pool can be in after the first initialisation: `init` is
`S_AL_SrcInit` run on the entity table as the program starts with it (`n`
zeroed entries, the file-scope array `entityList`; the other variables are
arbitrary), and every other constructor is an operation on the pool returning
from such a state.  An operation that indexes the entity table with an entity
number (`S_AL_SrcLoop`, `S_AL_StopLoopingSound`, `S_AL_StartSound` without an
origin) is called with an index of the table.  The stream and music channels
are taken while the handle is -1 and released while it is not, as their callers
do.  A second `S_AL_SrcInit` (after `S_AL_Shutdown`) is not among the steps.
(An operation that ends in `Com_Error` ends fatally here, so no state comes
after it.) -/
inductive PoolReachable : ALState → Prop where
  | init (st : ALState) (n : Nat) (s_alSources : Int) (gen : Nat → Nat × ALenum) :
      PoolReachable (S_AL_SrcInit { st with entityList := List.replicate n {} } s_alSources gen)
  | startSound (st st1 : ALState) (env : Env) (originNull : Bool) (entnum entchannel : Int)
      (sfx : sfxHandle_t) (src : srcHandle_t) :
      PoolReachable st →
      (originNull = true → 0 ≤ entnum ∧ entnum < (st.entityList.length : Int)) →
      S_AL_StartSound st env originNull entnum entchannel sfx = .ok (src, st1) →
      PoolReachable st1
  | startLocalSound (st st1 : ALState) (env : Env) (sfx : sfxHandle_t) (channel : Int)
      (src : srcHandle_t) :
      PoolReachable st → S_AL_StartLocalSound st env sfx channel = .ok (src, st1) →
      PoolReachable st1
  | srcLoop (st st1 : ALState) (env : Env) (priority : alSrcPriority_t) (sfx : sfxHandle_t)
      (entnum : Int) :
      PoolReachable st → 0 ≤ entnum → entnum < (st.entityList.length : Int) →
      S_AL_SrcLoop st env priority sfx entnum = .ok st1 → PoolReachable st1
  | stopLoopingSound (st : ALState) (entityNum : Int) :
      PoolReachable st → 0 ≤ entityNum → entityNum < (st.entityList.length : Int) →
      PoolReachable (S_AL_StopLoopingSound st entityNum)
  | clearLoopingSounds (st : ALState) :
      PoolReachable st → PoolReachable (S_AL_ClearLoopingSounds st)
  | srcUpdate (st : ALState) (stopped : Nat → Bool) :
      PoolReachable st → PoolReachable (S_AL_SrcUpdate st stopped)
  | srcShutup (st : ALState) : PoolReachable st → PoolReachable (S_AL_SrcShutup st)
  | allocateStreamChannel (st : ALState) (now : Int) :
      PoolReachable st → st.streamSourceHandle = -1 → PoolReachable (S_AL_AllocateStreamChannel st now)
  | freeStreamChannel (st : ALState) :
      PoolReachable st → st.streamSourceHandle ≠ -1 → PoolReachable (S_AL_FreeStreamChannel st)
  | musicSourceGet (st : ALState) (now : Int) :
      PoolReachable st → st.musicSourceHandle = -1 → PoolReachable (S_AL_MusicSourceGet st now)
  | musicSourceFree (st : ALState) :
      PoolReachable st → st.musicSourceHandle ≠ -1 → PoolReachable (S_AL_MusicSourceFree st)

/-- The bookkeeping of the pool that keeps identities apart: a channel that is
not playing carries the pair of a fresh channel (0, 0) or of a killed one
(-1, -1); a locked channel is not playing; a looping channel is playing, on
logical channel -1; two playing channels with the same entity and the same
logical channel other than 0 are one channel; and an entity flagged `has_sfx`
names a looping channel that it owns. -/
def poolTidy (st : ALState) : Prop :=
  (∀ k : Int, (chan st k).isActive = false →
    ((chan st k).entity = 0 ∧ (chan st k).channel = 0) ∨
    ((chan st k).entity = -1 ∧ (chan st k).channel = -1)) ∧
  (∀ k : Int, (chan st k).isLocked = true → (chan st k).isActive = false) ∧
  (∀ k : Int, (chan st k).isLooping = true →
    (chan st k).isActive = true ∧ (chan st k).channel = -1) ∧
  (∀ i j : Int, (chan st i).isActive = true → (chan st j).isActive = true →
    (chan st i).entity = (chan st j).entity → (chan st i).channel = (chan st j).channel →
    (chan st i).channel ≠ 0 → i = j) ∧
  (∀ e : Int, (ent st e).has_sfx = true →
    (chan st (ent st e).sfx).isLooping = true ∧ (chan st (ent st e).sfx).entity = e)

/-- The states the pool can be in after the first initialisation when no
request carries the pair of a killed channel, entity -1 with logical channel
-1: the steps are those of `PoolReachable` (first `S_AL_SrcInit` on the zeroed
entity table of the program start, entity numbers that index the table, stream
and music channels taken and released as their callers do), with that one pair
left out of `S_AL_StartSound` and `S_AL_StartLocalSound`. -/
inductive PlayReachable : ALState → Prop where
  | init (st : ALState) (n : Nat) (s_alSources : Int) (gen : Nat → Nat × ALenum) :
      PlayReachable (S_AL_SrcInit { st with entityList := List.replicate n {} } s_alSources gen)
  | startSound (st st1 : ALState) (env : Env) (originNull : Bool) (entnum entchannel : Int)
      (sfx : sfxHandle_t) (src : srcHandle_t) :
      PlayReachable st → ¬ (entnum = -1 ∧ entchannel = -1) →
      (originNull = true → 0 ≤ entnum ∧ entnum < (st.entityList.length : Int)) →
      S_AL_StartSound st env originNull entnum entchannel sfx = .ok (src, st1) →
      PlayReachable st1
  | startLocalSound (st st1 : ALState) (env : Env) (sfx : sfxHandle_t) (channel : Int)
      (src : srcHandle_t) :
      PlayReachable st → channel ≠ -1 →
      S_AL_StartLocalSound st env sfx channel = .ok (src, st1) → PlayReachable st1
  | srcLoop (st st1 : ALState) (env : Env) (priority : alSrcPriority_t) (sfx : sfxHandle_t)
      (entnum : Int) :
      PlayReachable st → 0 ≤ entnum → entnum < (st.entityList.length : Int) →
      S_AL_SrcLoop st env priority sfx entnum = .ok st1 → PlayReachable st1
  | stopLoopingSound (st : ALState) (entityNum : Int) :
      PlayReachable st → 0 ≤ entityNum → entityNum < (st.entityList.length : Int) →
      PlayReachable (S_AL_StopLoopingSound st entityNum)
  | clearLoopingSounds (st : ALState) :
      PlayReachable st → PlayReachable (S_AL_ClearLoopingSounds st)
  | srcUpdate (st : ALState) (stopped : Nat → Bool) :
      PlayReachable st → PlayReachable (S_AL_SrcUpdate st stopped)
  | srcShutup (st : ALState) : PlayReachable st → PlayReachable (S_AL_SrcShutup st)
  | allocateStreamChannel (st : ALState) (now : Int) :
      PlayReachable st → st.streamSourceHandle = -1 → PlayReachable (S_AL_AllocateStreamChannel st now)
  | freeStreamChannel (st : ALState) :
      PlayReachable st → st.streamSourceHandle ≠ -1 → PlayReachable (S_AL_FreeStreamChannel st)
  | musicSourceGet (st : ALState) (now : Int) :
      PlayReachable st → st.musicSourceHandle = -1 → PlayReachable (S_AL_MusicSourceGet st now)
  | musicSourceFree (st : ALState) :
      PlayReachable st → st.musicSourceHandle ≠ -1 → PlayReachable (S_AL_MusicSourceFree st)

/-! ## The victim as the spec words it, and example states -/

/-- The victim of a preemption in the words of the spec: among the non-locked
channels of priority below `p`, channel `w` has the lowest priority, and among
those of that priority the earliest `lastUse`. -/
def specWeakest (st : ALState) (p : alSrcPriority_t) (w : Int) : Prop :=
  preemptable p (chan st w) ∧
  ∀ s ∈ st.srcList, preemptable p s →
    (chan st w).priority.toInt ≤ s.priority.toInt ∧
    (s.priority = (chan st w).priority → (chan st w).lastUse ≤ s.lastUse)

instance (st : ALState) (p : alSrcPriority_t) (w : Int) : Decidable (specWeakest st p w) := by
  unfold specWeakest; infer_instance

/-- A pool of 16 channels, all playing at priority `P`: channel `k` plays for
entity `k` on logical channel 1 since time `100 + k`. -/
def pool16 (P : alSrcPriority_t) : ALState :=
  { srcList := (List.range 16).map fun k =>
      { source := k + 1, sfx := 1, lastUse := 100 + k, priority := P, entity := k, channel := 1,
        isActive := true }
    entityList := List.replicate 32 {} }

/-- Two playing channels: channel 0 is the ambient loop of entity 1, started
at time 100; channel 1 is the entity loop of entity 2, of higher priority and
started earlier, at time 50. -/
def poolOlderHigher : ALState :=
  { srcList :=
      [ { source := 1, sfx := 1, lastUse := 100, priority := .SRCPRI_AMBIENT, entity := 1,
          channel := -1, isActive := true, isLooping := true },
        { source := 2, sfx := 1, lastUse := 50, priority := .SRCPRI_ENTITY, entity := 2,
          channel := -1, isActive := true, isLooping := true } ]
    entityList :=
      [ {}, { has_sfx := true, sfx := 0, touched := true },
        { has_sfx := true, sfx := 1, touched := true }, {} ] }

/-- Four channels: channel 0 is locked (a stream), channel 1 plays a one-shot,
channel 2 is free, channel 3 plays the ambient loop of entity 4.  The cache
holds the fallback sound in slot 0, a loaded sound in slot 1, a registered and
not yet loaded sound in slot 2, and a free slot. -/
def poolMixed : ALState :=
  { knownSfx :=
      [ { filename := "sound/feedback/hit.wav".toList, buffer := 1, inMemory := true,
          isLocked := true },
        { filename := "sound/weapons/rocket.wav".toList, buffer := 2, inMemory := true },
        { filename := "sound/weapons/plasma.wav".toList },
        {} ]
    default_sfx := 0
    alBuffersInitialised := true
    srcList :=
      [ { source := 1, isLocked := true, entity := -2, priority := .SRCPRI_AMBIENT },
        { source := 2, sfx := 1, lastUse := 70, priority := .SRCPRI_ONESHOT, entity := 3,
          channel := 2, isActive := true },
        { source := 3, entity := -1, channel := -1 },
        { source := 4, sfx := 1, lastUse := 60, priority := .SRCPRI_AMBIENT, entity := 4,
          channel := -1, isActive := true, isLooping := true } ]
    entityList := (List.replicate 8 {}).set 4 { has_sfx := true, sfx := 3, touched := true } }

/-- Answers of the outside world for a play request whose sound loads fine. -/
def envLoads : Env :=
  { allocTime := 500, setupTime := 501, useTime := 502,
    load := { codec := some { rate := 22050, width := 2, channels := 1, size := 4096 },
              genName := 7 } }

/-- The tables after a one-shot of sound 2 was started in `poolMixed` for
entity 5 on logical channel 3. -/
def poolPlayed : ALState :=
  match S_AL_StartSound poolMixed envLoads false 5 3 2 with
  | .ok r => r.2
  | .error x => x.2

/-- The event is a call into the stream interface of the codec layer. -/
def Event.isStream : Event → Bool
  | .streamOpen _ => true
  | .streamRead _ _ => true
  | .streamClose _ => true
  | _ => false

/-- The arguments of one call of `S_AL_RawSamples`, with the clock it reads. -/
structure RawCall where
  now : Int := 0
  samples : Int := 0
  rate : Int := 0
  width : Int := 0
  channels : Int := 0
  deriving DecidableEq, Repr

/-- The number of bytes of a call of `S_AL_RawSamples`: the size it hands to `qalBufferData`. -/
def RawCall.bytes (c : RawCall) : Int := wrapInt (c.samples * c.width * c.channels)

/-- Where the background track stands between two events of its stream, in
the words of the spec: `reading cur rest` — the stream opened on `cur` is
being read and `rest` are the reads it still has to give; `gotZero cur` — a
read returned 0 bytes, the close of that stream comes next; `closed` — the
reopen of the loop file comes next; `reopened` — the first read of the
reopened loop file comes next; `bad` — the events did not follow this order. -/
inductive MusicPhase where
  | reading (cur : List Char) (rest : List Nat)
  | gotZero (cur : List Char)
  | closed
  | reopened
  | bad
  deriving DecidableEq, Repr

/-- One event of the stream of a track whose loop file is `b`, with the reads
`cb` from its beginning: reads come from the current stream, in its order; a
read of 0 bytes is followed by the close of the current stream, the open of `b`
and the first read of `b`, after which `b` is the current stream; nothing else
is in order. -/
def musicStep (b : List Char) (cb : List Nat) : MusicPhase → Event → MusicPhase
  | .reading cur rest, .streamRead q k =>
    if q = cur ∧ k = (S_CodecReadStream { path := cur, chunks := rest }).1 then
      (if k = 0 then .gotZero cur else .reading cur rest.tail)
    else .bad
  | .gotZero cur, .streamClose q => if q = cur then .closed else .bad
  | .closed, .streamOpen o => if o = b then .reopened else .bad
  | .reopened, .streamRead q k =>
    if q = b ∧ k = (S_CodecReadStream { path := b, chunks := cb }).1 then .reading b cb.tail
    else .bad
  | _, _ => .bad

/-- Run a sequence of stream events from a phase. -/
def musicRun (b : List Char) (cb : List Nat) (ph : MusicPhase) (tr : List Event) : MusicPhase :=
  tr.foldl (musicStep b cb) ph

/-- The stream that is read after one decode of the stream on `cur` with the
reads `rest` still to come, for a track whose loop file is `b` (reads `cb`):
the same stream one read further, or, when it was at its end, the loop file
one read after its beginning. -/
def musicNext (b : List Char) (cb : List Nat) (cur : List Char) (rest : List Nat) :
    List Char × List Nat :=
  match rest with
  | _ :: r => (cur, r)
  | [] => (b, cb.tail)

/-- The calls into the codec layer that one decode makes, as the spec words
it: one read of the current stream; and when that read returns 0 bytes, the
close of the current stream, the open of the loop file `b` and the first read
of `b`. -/
def musicEvents (b : List Char) (cb : List Nat) (cur : List Char) (rest : List Nat) :
    List Event :=
  match rest with
  | c :: _ => [.streamRead cur (c + 1)]
  | [] =>
    [.streamRead cur 0, .streamClose cur, .streamOpen b,
     .streamRead b (S_CodecReadStream { path := b, chunks := cb }).1]

/-- The stream that is read, and the reads it still has to give, after `n`
decodes that started on `cur` with the reads `rest`. -/
def musicPos (b : List Char) (cb : List Nat) : Nat → List Char → List Nat → List Char × List Nat
  | 0, cur, rest => (cur, rest)
  | n + 1, cur, rest =>
    musicPos b cb n (musicNext b cb cur rest).1 (musicNext b cb cur rest).2

/-- The calls into the codec layer that `n` decodes make, starting on the
stream of `cur` with the reads `rest`. -/
def musicTrace (b : List Char) (cb : List Nat) : Nat → List Char → List Nat → List Event
  | 0, _, _ => []
  | n + 1, cur, rest =>
    musicEvents b cb cur rest ++
      musicTrace b cb n (musicNext b cb cur rest).1 (musicNext b cb cur rest).2

/-- The track with intro `a` (reads `ca`) and loop file `b` (reads `cb`) stands
after `n` decodes: the loop path is stored, the stream events logged since
`base` are the open of `a` followed by those of `n` decodes, and the open
stream is the one these decodes end on, at the place where they end. -/
def trackAt (a b : List Char) (ca cb : List Nat) (base : List Event) (st : ALState)
    (n : Nat) : Prop :=
  st.s_backgroundLoop = b ∧
  st.log.filter Event.isStream = base ++ Event.streamOpen a :: musicTrace b cb n a ca ∧
  st.mus_stream =
    some { path := (musicPos b cb n a ca).1, chunks := (musicPos b cb n a ca).2 }

/-- The number of decodes of a sequence of update passes: the buffers reported processed. -/
def processedTotal (updates : List (Nat × Bool)) : Nat := (updates.map Prod.fst).sum

/-- The outside world for the example track: the intro file gives two reads (of
100 and of 50 bytes), the loop file one read of 80 bytes; no other file opens. -/
def filesIntroLoop (path : List Char) : Option (List Nat) :=
  if path = "music/intro.wav".toList then some [99, 49]
  else if path = "music/loop.wav".toList then some [79]
  else none

/-- The tables at program start: no channel acquired yet, eight zeroed entities. -/
def poolStart : ALState := { entityList := List.replicate 8 {} }

/-- Answers of `qalGenSources` that never fail: channel `i` gets the source name `i + 1`. -/
def genAll (i : Nat) : Nat × ALenum := (i + 1, .AL_NO_ERROR)

/-- The pool of 16 channels that `S_AL_SrcInit` acquires at program start, after
an ambient loop of sound 1 was started for entity 4. -/
def poolLooping : ALState :=
  match S_AL_SrcLoop (S_AL_SrcInit poolStart 16 genAll) envLoads .SRCPRI_AMBIENT 1 4 with
  | .ok st => st
  | .error x => x.2

/-- A loop path of 68 characters, more than the `MAX_QPATH` that `s_backgroundLoop` holds. -/
def longLoop : List Char :=
  "music/the_long_intermission_theme_of_the_open_arena_championship.wav".toList

/-- The outside world for the track with the long loop path: the intro file
gives five reads, the loop file one; no other path opens. -/
def filesLongLoop (path : List Char) : Option (List Nat) :=
  if path = "music/intro.wav".toList then some [99, 99, 99, 99, 49]
  else if path = longLoop then some [79]
  else none

/-- What follows the array `s_backgroundLoop` in memory in the example runs, up
to the first NUL there: two bytes of another variable. -/
def behindLoop : List Char := "@@".toList

/-- The track with the long loop path started in `poolMixed`, after an update
pass in which two buffers were processed. -/
def trackLong : ALState :=
  finalState id
    (S_AL_MusicUpdate filesLongLoop behindLoop
      (finalState id
        (S_AL_StartBackgroundTrack filesLongLoop behindLoop poolMixed 500
          (some "music/intro.wav".toList) (some longLoop))) 2 false)

/-- The loop file of the example track started in `poolMixed` as intro and loop at once. -/
def trackSame : ALState :=
  finalState id
    (S_AL_StartBackgroundTrack filesIntroLoop behindLoop poolMixed 500
      (some "music/loop.wav".toList) (some "music/loop.wav".toList))

/-- The fresh pool of 16 channels after a one-shot of sound 1 was started for
entity 5 on logical channel 1: it plays on channel 0. -/
def poolOne : ALState :=
  finalState Prod.snd (S_AL_StartSound (S_AL_SrcInit poolStart 16 genAll) envLoads false 5 1 1)

/-- `poolOne` after a local sound was started on logical channel -1: it plays on channel 1. -/
def poolLocal : ALState :=
  finalState Prod.snd (S_AL_StartLocalSound poolOne envLoads 1 (-1))

/-- `poolLocal` after a sweep in which channel 0 is reported stopped: channel 0 is killed. -/
def poolSwept : ALState := S_AL_SrcUpdate poolLocal (fun i => decide (i = 0))

/-- `poolSwept` after a second local sound was started on logical channel -1. -/
def poolTwice : ALState :=
  finalState Prod.snd (S_AL_StartLocalSound poolSwept envLoads 1 (-1))

/-- The pool of `poolLooping` after the sound system was shut down
(`S_AL_Shutdown`) and the pool initialised again (`S_AL_SrcInit`, as `S_AL_Init`
does after a restart of the sound system). -/
def poolRestarted : ALState := S_AL_SrcInit (S_AL_Shutdown poolLooping) 16 genAll

/-- `poolRestarted` after a one-shot of sound 1 for entity 7 on logical channel
1 (it plays on channel 0) and a one-shot of sound 1 for entity 4 on logical
channel -1 (it plays on channel 1). -/
def poolRestartedPlayed : ALState :=
  finalState Prod.snd (S_AL_StartSound
    (finalState Prod.snd (S_AL_StartSound poolRestarted envLoads false 7 1 1))
    envLoads false 4 (-1) 1)

/-- `poolRestartedPlayed` after an ambient loop of sound 2 was requested for entity 4. -/
def poolRestartedLooped : ALState :=
  finalState id (S_AL_SrcLoop poolRestartedPlayed envLoads .SRCPRI_AMBIENT 2 4)

/-- The playback library hands out a buffer name that no slot in memory holds. -/
def freshName (st : ALState) (env : LoadEnv) : Prop :=
  ∀ e ∈ st.knownSfx, e.inMemory = true → e.buffer ≠ env.genName

instance (st : ALState) (env : LoadEnv) : Decidable (freshName st env) := by
  unfold freshName; infer_instance

/-- The buffer names of the slots that hold a path and are in memory, in the
order of the table. -/
def loadedBuffers (st : ALState) : List Nat :=
  (st.knownSfx.filter (fun e => decide (e.filename ≠ []) && e.inMemory)).map (·.buffer)

/-- The bookkeeping of the buffer cache: it is initialised; no slot is both in
memory and on the fallback; a slot on the fallback holds the buffer name of the
fallback slot; the fallback slot holds a path and is in memory; and, when the
buffer names handed out are fresh (`D`), two slots in memory hold different
buffer names. -/
def cacheInv (D : Prop) (st : ALState) : Prop :=
  st.alBuffersInitialised = true ∧
  (∀ i : Nat, ¬ ((st.knownSfx.getD i default).inMemory = true ∧
    (st.knownSfx.getD i default).isDefault = true)) ∧
  (∀ i : Nat, (st.knownSfx.getD i default).isDefault = true →
    (st.knownSfx.getD i default).buffer = (st.knownSfx.getD st.default_sfx default).buffer) ∧
  ((st.knownSfx.getD st.default_sfx default).inMemory = true ∧
    (st.knownSfx.getD st.default_sfx default).filename ≠ []) ∧
  (D → ∀ i j : Nat, i ≠ j → (st.knownSfx.getD i default).inMemory = true →
    (st.knownSfx.getD j default).inMemory = true →
    (st.knownSfx.getD i default).buffer ≠ (st.knownSfx.getD j default).buffer)

/-- The states the buffer cache can be in: the state `S_AL_BufferInit` returns
in when it finds the cache not initialised, and every state that
`S_AL_BufferFind`, `S_AL_RegisterSound` or `S_AL_BufferUse` (of a handle of the
table) returns in from such a state.  `answers st env` is a condition on what
the outside world answers to a load in state `st`, and `paths P` a condition on
the paths that are looked up.  (An operation that ends in `Com_Error` ends
fatally here, so no state comes after it.) -/
inductive CacheReachable (Q_stricmp : List Char → List Char → Int)
    (answers : ALState → LoadEnv → Prop) (paths : List Char → Prop) : ALState → Prop where
  | init (st st1 : ALState) (now : Int) (env : LoadEnv) :
      st.alBuffersInitialised = false → S_AL_BufferInit Q_stricmp st now env = .ok st1 →
      CacheReachable Q_stricmp answers paths st1
  | find (st st1 : ALState) (filename : List Char) (sfx : sfxHandle_t) :
      CacheReachable Q_stricmp answers paths st → paths filename →
      S_AL_BufferFind Q_stricmp st filename = .ok (sfx, st1) →
      CacheReachable Q_stricmp answers paths st1
  | register (st st1 : ALState) (precache now : Int) (env : LoadEnv) (sample : List Char)
      (sfx : sfxHandle_t) :
      CacheReachable Q_stricmp answers paths st → answers st env → paths sample →
      S_AL_RegisterSound Q_stricmp st precache now env sample = .ok (sfx, st1) →
      CacheReachable Q_stricmp answers paths st1
  | use (st st1 : ALState) (now : Int) (env : LoadEnv) (sfx : sfxHandle_t) :
      CacheReachable Q_stricmp answers paths st → answers st env → sfx < st.knownSfx.length →
      S_AL_BufferUse st now env sfx = .ok st1 →
      CacheReachable Q_stricmp answers paths st1

/-- The path fits the array `filename` of a cache slot, with its terminating NUL. -/
def fitsQPath (P : List Char) : Prop := P.length < MAX_QPATH

instance (P : List Char) : Decidable (fitsQPath P) := by
  unfold fitsQPath; infer_instance

/-- Any path at all. -/
def anyPath (_ : List Char) : Prop := True

instance (P : List Char) : Decidable (anyPath P) := by
  unfold anyPath; infer_instance

/-- A sound path of 74 characters. -/
def longPath : List Char :=
  "sound/player/announcer/the_quite_long_name_of_a_custom_taunt_sound_001.wav".toList

/-- The cache of three slots that `S_AL_BufferInit` returns in at program start:
the fallback sound sits in slot 0 with the buffer name 7. -/
def cacheBoot : ALState :=
  finalState id (S_AL_BufferInit exactCompare cacheZero 10 envLoads.load)

/-- `cacheBoot` after a sound whose file is missing was registered with
precaching on: it sits in slot 1, on the fallback. -/
def cacheFallen : ALState :=
  finalState Prod.snd
    (S_AL_RegisterSound exactCompare cacheBoot 1 20 envNoFile "sound/misc/menu1.wav".toList)

/-- `cacheFallen` after a sound that loads was registered with precaching on:
it sits in slot 2, in memory, with the buffer name 8. -/
def cacheLoaded : ALState :=
  finalState Prod.snd
    (S_AL_RegisterSound exactCompare cacheFallen 1 30 { envLoads.load with genName := 8 }
      "sound/misc/menu2.wav".toList)

/-- `cacheBoot` after `longPath` was looked up: it was copied into slot 1. -/
def cacheLongFound : ALState :=
  finalState Prod.snd (S_AL_BufferFind exactCompare cacheBoot longPath)

/-- A cache of three slots that all hold a path. -/
def cacheFull : ALState :=
  { knownSfx :=
      [ { filename := "sound/feedback/hit.wav".toList, buffer := 7, inMemory := true,
          isLocked := true, used := 10 },
        { filename := "sound/misc/menu1.wav".toList },
        { filename := "sound/misc/menu2.wav".toList } ]
    default_sfx := 0
    alBuffersInitialised := true
    log := [.codecLoad 0] }

/-- Answers of the outside world for a load whose upload runs out of memory. -/
def envOutOfMemory : LoadEnv :=
  { codec := some { rate := 22050, width := 2, channels := 1, size := 4096 }, genName := 9,
    fillError := .AL_OUT_OF_MEMORY }

/-! ## Table access: basic facts -/

theorem readAt_natCast {α : Type} [Inhabited α] (l : List α) (n : Nat) :
    readAt l (n : Int) = l.getD n default := by
  simp [readAt]

theorem writeAt_natCast {α : Type} (l : List α) (n : Nat) (a : α) :
    writeAt l (n : Int) a = l.set n a := by
  simp [writeAt]

theorem length_writeAt {α : Type} (l : List α) (i : Int) (a : α) :
    (writeAt l i a).length = l.length := by
  unfold writeAt; split <;> simp

theorem readAt_writeAt_ne {α : Type} [Inhabited α] (l : List α) (i j : Int) (a : α)
    (h : i ≠ j) : readAt (writeAt l i a) j = readAt l j := by
  unfold readAt writeAt
  by_cases hi : 0 ≤ i
  · by_cases hj : 0 ≤ j
    · have hne : i.toNat ≠ j.toNat := by omega
      simp [hi, hj, List.getD_eq_getElem?_getD, List.getElem?_set_ne hne]
    · simp [hj]
  · simp [hi]

theorem readAt_writeAt_self {α : Type} [Inhabited α] (l : List α) (i : Int) (a : α)
    (h0 : 0 ≤ i) (h1 : i.toNat < l.length) : readAt (writeAt l i a) i = a := by
  simp [readAt, writeAt, h0, List.getD_eq_getElem?_getD, h1]

theorem readAt_out_of_range {α : Type} [Inhabited α] (l : List α) (i : Int)
    (h : i < 0 ∨ l.length ≤ i.toNat) : readAt l i = default := by
  unfold readAt
  by_cases hi : 0 ≤ i
  · have h1 : l.length ≤ i.toNat := by omega
    simp [hi, List.getD_eq_getElem?_getD, List.getElem?_eq_none h1]
  · simp [hi]

theorem writeAt_out_of_range {α : Type} (l : List α) (i : Int) (a : α)
    (h : i < 0 ∨ l.length ≤ i.toNat) : writeAt l i a = l := by
  unfold writeAt
  by_cases hi : 0 ≤ i
  · have h1 : l.length ≤ i.toNat := by omega
    simp [hi, List.set_eq_of_length_le h1]
  · simp [hi]

theorem getD_mem {α : Type} (l : List α) (n : Nat) (d : α) (h : n < l.length) :
    l.getD n d ∈ l := by
  rw [List.getD_eq_getElem?_getD, List.getElem?_eq_getElem h]
  simp

theorem readAt_mem {α : Type} [Inhabited α] (l : List α) (i : Int)
    (h0 : 0 ≤ i) (h1 : i.toNat < l.length) : readAt l i ∈ l := by
  simp only [readAt, h0, if_true]
  exact getD_mem l _ _ h1

theorem priority_lt_999 (p : alSrcPriority_t) : p.toInt < 999 := by
  cases p <;> decide

/-! ## `S_AL_SrcKill`: basic facts -/

theorem kill_length (st : ALState) (src : Int) :
    (S_AL_SrcKill st src).srcList.length = st.srcList.length := by
  unfold S_AL_SrcKill
  by_cases h : (readAt st.srcList src).isLocked = true
  · simp [h]
  · simp [h, length_writeAt]

theorem kill_of_locked (st : ALState) (src : Int) (h : (chan st src).isLocked = true) :
    S_AL_SrcKill st src = st := by
  unfold chan at h
  simp [S_AL_SrcKill, h]

theorem kill_chan_ne (st : ALState) (src j : Int) (h : src ≠ j) :
    chan (S_AL_SrcKill st src) j = chan st j := by
  unfold chan S_AL_SrcKill
  by_cases hl : (readAt st.srcList src).isLocked = true
  · simp [hl]
  · simp [hl, readAt_writeAt_ne _ _ _ _ h]

theorem kill_chan_locked (st : ALState) (src j : Int) (h : (chan st j).isLocked = true) :
    chan (S_AL_SrcKill st src) j = chan st j := by
  by_cases hj : src = j
  · subst hj; rw [kill_of_locked st src h]
  · exact kill_chan_ne st src j hj

theorem kill_chan_self (st : ALState) (src : Int) (h0 : 0 ≤ src)
    (h1 : src.toNat < st.srcList.length) (hl : (chan st src).isLocked = false) :
    isFree (chan (S_AL_SrcKill st src) src) := by
  unfold chan at hl
  unfold chan S_AL_SrcKill
  simp [hl, readAt_writeAt_self _ _ _ h0 h1, isFree]

/-! ## The loop of `S_AL_SrcAlloc` -/

theorem step_active (p : alSrcPriority_t) (i : Nat) (s : src_t) (v : AllocVars)
    (h : s.isActive = true) :
    S_AL_SrcAlloc_step p i s v =
      if s.priority.toInt < p.toInt ∧
          (s.priority.toInt < v.weakest_pri ∨ s.lastUse < v.weakest_time) then
        { v with weakest_pri := s.priority.toInt, weakest_time := s.lastUse, weakest := i }
      else v := by
  unfold S_AL_SrcAlloc_step
  by_cases h1 : s.priority.toInt < p.toInt
  · by_cases h2 : s.priority.toInt < v.weakest_pri ∨ s.lastUse < v.weakest_time
    · simp [h, h1, h2]
    · simp [h, h1, h2]
  · simp [h, h1]

theorem loop_eq_vars (p : alSrcPriority_t) (e c : Int) (l : List src_t) :
    ∀ (i : Nat) (v : AllocVars),
      (∀ s ∈ l, s.isLocked = false → ¬ exactMatch s e c) →
      S_AL_SrcAlloc_loop p e c l i v = .inr (S_AL_SrcAlloc_vars p l i v) := by
  induction l with
  | nil => intro i v _; rfl
  | cons s rest ih =>
    intro i v h
    have hrest : ∀ t ∈ rest, t.isLocked = false → ¬ exactMatch t e c :=
      fun t ht => h t (List.mem_cons_of_mem _ ht)
    by_cases hl : s.isLocked = true
    · simp [S_AL_SrcAlloc_loop, S_AL_SrcAlloc_vars, hl, ih (i + 1) v hrest]
    · have hm : ¬ exactMatch s e c := h s (List.mem_cons_self _ _) (by simpa using hl)
      simp [S_AL_SrcAlloc_loop, S_AL_SrcAlloc_vars, hl, hm, ih (i + 1) _ hrest]

theorem loop_inr (p : alSrcPriority_t) (e c : Int) (l : List src_t) :
    ∀ (i : Nat) (v r : AllocVars), S_AL_SrcAlloc_loop p e c l i v = .inr r →
      (∀ s ∈ l, s.isLocked = false → ¬ exactMatch s e c) := by
  induction l with
  | nil => intro i v r _ s hs; simp at hs
  | cons s rest ih =>
    intro i v r h t ht htl
    by_cases hl : s.isLocked = true
    · simp only [S_AL_SrcAlloc_loop, hl, if_true] at h
      rcases List.mem_cons.mp ht with rfl | ht1
      · simp [hl] at htl
      · exact ih (i + 1) v r h t ht1 htl
    · by_cases hm : exactMatch s e c
      · simp [S_AL_SrcAlloc_loop, hl, hm] at h
      · simp only [S_AL_SrcAlloc_loop, hl, hm, Bool.false_eq_true, if_false] at h
        rcases List.mem_cons.mp ht with rfl | ht1
        · exact hm
        · exact ih (i + 1) _ r h t ht1 htl

theorem loop_inl (p : alSrcPriority_t) (e c : Int) (l : List src_t) :
    ∀ (i : Nat) (v : AllocVars) (k : Nat), S_AL_SrcAlloc_loop p e c l i v = .inl k →
      ∃ j, k = i + j ∧ j < l.length ∧ (l.getD j default).isLocked = false ∧
        exactMatch (l.getD j default) e c ∧
        ∀ m, m < j → (l.getD m default).isLocked = true ∨ ¬ exactMatch (l.getD m default) e c := by
  induction l with
  | nil => intro i v k h; simp [S_AL_SrcAlloc_loop] at h
  | cons s rest ih =>
    intro i v k h
    have shift : (∃ j, k = (i + 1) + j ∧ j < rest.length ∧ (rest.getD j default).isLocked = false ∧
        exactMatch (rest.getD j default) e c ∧
        ∀ m, m < j → (rest.getD m default).isLocked = true ∨
          ¬ exactMatch (rest.getD m default) e c) →
        (s.isLocked = true ∨ ¬ exactMatch s e c) →
        ∃ j, k = i + j ∧ j < (s :: rest).length ∧ ((s :: rest).getD j default).isLocked = false ∧
          exactMatch ((s :: rest).getD j default) e c ∧
          ∀ m, m < j → ((s :: rest).getD m default).isLocked = true ∨
            ¬ exactMatch ((s :: rest).getD m default) e c := by
      rintro ⟨j, hk, hj, h1, h2, h3⟩ hs
      refine ⟨j + 1, by omega, by simp [hj], by simpa using h1, by simpa using h2, ?_⟩
      intro m hm
      cases m with
      | zero => simpa using hs
      | succ m => simpa using h3 m (by omega)
    by_cases hl : s.isLocked = true
    · simp only [S_AL_SrcAlloc_loop, hl, if_true] at h
      exact shift (ih (i + 1) v k h) (Or.inl hl)
    · by_cases hm : exactMatch s e c
      · simp only [S_AL_SrcAlloc_loop, hl, hm, Bool.false_eq_true, if_true, if_false] at h
        have hk : i = k := by simpa using h
        refine ⟨0, by omega, by simp, by simpa using hl, by simpa using hm, ?_⟩
        intro m hm0; omega
      · simp only [S_AL_SrcAlloc_loop, hl, hm, Bool.false_eq_true, if_false] at h
        exact shift (ih (i + 1) _ k h) (Or.inr hm)

theorem loop_first_match (p : alSrcPriority_t) (e c : Int) (l : List src_t) :
    ∀ (i : Nat) (v : AllocVars) (j : Nat), j < l.length →
      (l.getD j default).isLocked = false → exactMatch (l.getD j default) e c →
      (∀ m, m < j → (l.getD m default).isLocked = true ∨ ¬ exactMatch (l.getD m default) e c) →
      S_AL_SrcAlloc_loop p e c l i v = .inl (i + j) := by
  induction l with
  | nil => intro i v j hj; simp at hj
  | cons s rest ih =>
    intro i v j hj h1 h2 h3
    cases j with
    | zero =>
      have hl : ¬ s.isLocked = true := by simpa using h1
      have hm : exactMatch s e c := by simpa using h2
      simp [S_AL_SrcAlloc_loop, hl, hm]
    | succ j =>
      have hj1 : j < rest.length := by simpa using hj
      have h1r : (rest.getD j default).isLocked = false := by simpa using h1
      have h2r : exactMatch (rest.getD j default) e c := by simpa using h2
      have h3r : ∀ m, m < j → (rest.getD m default).isLocked = true ∨
          ¬ exactMatch (rest.getD m default) e c := by
        intro m hm
        simpa using h3 (m + 1) (by omega)
      have h0 := h3 0 (by omega)
      simp only [List.getD_cons_zero] at h0
      have e1 : i + (j + 1) = (i + 1) + j := by omega
      by_cases hl : s.isLocked = true
      · simp only [S_AL_SrcAlloc_loop, hl, if_true]
        rw [e1]; exact ih (i + 1) v j hj1 h1r h2r h3r
      · have hm : ¬ exactMatch s e c := by
          rcases h0 with h0 | h0
          · exact absurd h0 hl
          · exact h0
        simp only [S_AL_SrcAlloc_loop, hl, hm, Bool.false_eq_true, if_false]
        rw [e1]; exact ih (i + 1) _ j hj1 h1r h2r h3r

theorem exists_first {α : Type} [Inhabited α] (q : α → Prop) (l : List α)
    (h : ∃ s ∈ l, q s) :
    ∃ j, j < l.length ∧ q (l.getD j default) ∧ ∀ m, m < j → ¬ q (l.getD m default) := by
  induction l with
  | nil => obtain ⟨s, hs, _⟩ := h; simp at hs
  | cons a rest ih =>
    by_cases ha : q a
    · exact ⟨0, by simp, by simpa using ha, fun m hm => by omega⟩
    · obtain ⟨s, hs, hq⟩ := h
      have hr : ∃ s ∈ rest, q s := by
        rcases List.mem_cons.mp hs with rfl | hs1
        · exact absurd hq ha
        · exact ⟨s, hs1, hq⟩
      obtain ⟨j, hj, hqj, hmin⟩ := ih hr
      refine ⟨j + 1, by simp [hj], by simpa using hqj, ?_⟩
      intro m hm
      cases m with
      | zero => simpa using ha
      | succ m => simpa using hmin m (by omega)

theorem step_empty_keep (p : alSrcPriority_t) (i : Nat) (s : src_t) (v : AllocVars)
    (h : v.empty ≠ -1 ∨ s.isActive = true) : (S_AL_SrcAlloc_step p i s v).empty = v.empty := by
  have hc : ¬ (s.isActive = false ∧ v.empty = -1) := by
    rintro ⟨h1, h2⟩
    rcases h with h | h
    · exact h h2
    · simp [h1] at h
  unfold S_AL_SrcAlloc_step
  rw [if_neg hc]
  split_ifs <;> rfl

theorem step_empty_set (p : alSrcPriority_t) (i : Nat) (s : src_t) (v : AllocVars)
    (h1 : s.isActive = false) (h2 : v.empty = -1) :
    (S_AL_SrcAlloc_step p i s v).empty = i := by
  simp [S_AL_SrcAlloc_step, h1, h2]

theorem vars_empty_keep (p : alSrcPriority_t) (l : List src_t) :
    ∀ (i : Nat) (v : AllocVars), v.empty ≠ -1 → (S_AL_SrcAlloc_vars p l i v).empty = v.empty := by
  induction l with
  | nil => intro i v _; rfl
  | cons s rest ih =>
    intro i v h
    by_cases hl : s.isLocked = true
    · simp only [S_AL_SrcAlloc_vars, hl, if_true]; exact ih (i + 1) v h
    · simp only [S_AL_SrcAlloc_vars, hl, Bool.false_eq_true, if_false]
      have h1 := step_empty_keep p i s v (Or.inl h)
      rw [ih (i + 1) _ (by rw [h1]; exact h), h1]

theorem vars_empty_none (p : alSrcPriority_t) (l : List src_t) :
    ∀ (i : Nat) (v : AllocVars), (∀ s ∈ l, s.isLocked = false → s.isActive = true) →
      (S_AL_SrcAlloc_vars p l i v).empty = v.empty := by
  induction l with
  | nil => intro i v _; rfl
  | cons s rest ih =>
    intro i v h
    have hrest : ∀ t ∈ rest, t.isLocked = false → t.isActive = true :=
      fun t ht => h t (List.mem_cons_of_mem _ ht)
    by_cases hl : s.isLocked = true
    · simp only [S_AL_SrcAlloc_vars, hl, if_true]; exact ih (i + 1) v hrest
    · simp only [S_AL_SrcAlloc_vars, hl, Bool.false_eq_true, if_false]
      have ha : s.isActive = true := h s (List.mem_cons_self _ _) (by simpa using hl)
      rw [ih (i + 1) _ hrest, step_empty_keep p i s v (Or.inr ha)]

theorem vars_empty_first (p : alSrcPriority_t) (l : List src_t) :
    ∀ (i : Nat) (v : AllocVars) (j : Nat), v.empty = -1 → j < l.length →
      (l.getD j default).isLocked = false → (l.getD j default).isActive = false →
      (∀ m, m < j → ¬ ((l.getD m default).isLocked = false ∧ (l.getD m default).isActive = false)) →
      (S_AL_SrcAlloc_vars p l i v).empty = ((i + j : Nat) : Int) := by
  induction l with
  | nil => intro i v j _ hj; simp at hj
  | cons s rest ih =>
    intro i v j hv hj h1 h2 h3
    cases j with
    | zero =>
      have hl : ¬ s.isLocked = true := by simpa using h1
      have ha : s.isActive = false := by simpa using h2
      simp only [S_AL_SrcAlloc_vars, hl, Bool.false_eq_true, if_false]
      have hs := step_empty_set p i s v ha hv
      rw [vars_empty_keep p rest (i + 1) _ (by rw [hs]; omega), hs]
      simp
    | succ j =>
      have hj1 : j < rest.length := by simpa using hj
      have h1r : (rest.getD j default).isLocked = false := by simpa using h1
      have h2r : (rest.getD j default).isActive = false := by simpa using h2
      have h3r : ∀ m, m < j → ¬ ((rest.getD m default).isLocked = false ∧
          (rest.getD m default).isActive = false) := by
        intro m hm
        simpa using h3 (m + 1) (by omega)
      have h0 := h3 0 (by omega)
      simp only [List.getD_cons_zero] at h0
      have e1 : i + (j + 1) = (i + 1) + j := by omega
      by_cases hl : s.isLocked = true
      · simp only [S_AL_SrcAlloc_vars, hl, if_true]
        rw [e1]; exact ih (i + 1) v j hv hj1 h1r h2r h3r
      · have ha : s.isActive = true := by
          cases hact : s.isActive
          · exact absurd ⟨by simpa using hl, hact⟩ h0
          · rfl
        simp only [S_AL_SrcAlloc_vars, hl, Bool.false_eq_true, if_false]
        rw [e1]
        exact ih (i + 1) _ j (by rw [step_empty_keep p i s v (Or.inr ha)]; exact hv) hj1 h1r h2r h3r

theorem step_weakest (p : alSrcPriority_t) (i : Nat) (s : src_t) (v : AllocVars) :
    (S_AL_SrcAlloc_step p i s v).weakest = v.weakest ∨ (S_AL_SrcAlloc_step p i s v).weakest = i := by
  unfold S_AL_SrcAlloc_step
  split_ifs <;> simp

theorem vars_weakest_range (p : alSrcPriority_t) (l : List src_t) :
    ∀ (i : Nat) (v : AllocVars),
      (S_AL_SrcAlloc_vars p l i v).weakest = v.weakest ∨
      ∃ j, j < l.length ∧ (S_AL_SrcAlloc_vars p l i v).weakest = ((i + j : Nat) : Int) ∧
        (l.getD j default).isLocked = false := by
  induction l with
  | nil => intro i v; left; rfl
  | cons s rest ih =>
    intro i v
    have shift : ∀ w : Int, (∃ j, j < rest.length ∧ w = ((i + 1 + j : Nat) : Int) ∧
        (rest.getD j default).isLocked = false) →
        ∃ j, j < (s :: rest).length ∧ w = ((i + j : Nat) : Int) ∧
          ((s :: rest).getD j default).isLocked = false := by
      rintro w ⟨j, hj, hw, hl⟩
      exact ⟨j + 1, by simp [hj], by rw [hw]; congr 1; omega, by simpa using hl⟩
    by_cases hl : s.isLocked = true
    · simp only [S_AL_SrcAlloc_vars, hl, if_true]
      rcases ih (i + 1) v with h | h
      · left; exact h
      · right; exact shift _ h
    · simp only [S_AL_SrcAlloc_vars, hl, Bool.false_eq_true, if_false]
      rcases ih (i + 1) (S_AL_SrcAlloc_step p i s v) with h | h
      · rcases step_weakest p i s v with h1 | h1
        · left; rw [h, h1]
        · right
          exact ⟨0, by simp, by rw [h, h1]; simp, by simpa using hl⟩
      · right; exact shift _ h

theorem vars_cons_locked (p : alSrcPriority_t) (s : src_t) (rest : List src_t) (i : Nat)
    (v : AllocVars) (h : s.isLocked = true) :
    S_AL_SrcAlloc_vars p (s :: rest) i v = S_AL_SrcAlloc_vars p rest (i + 1) v := by
  simp [S_AL_SrcAlloc_vars, h]

theorem vars_cons_active (p : alSrcPriority_t) (s : src_t) (rest : List src_t) (i : Nat)
    (v : AllocVars) (h : s.isLocked = false) (ha : s.isActive = true) :
    S_AL_SrcAlloc_vars p (s :: rest) i v =
      S_AL_SrcAlloc_vars p rest (i + 1)
        (if s.priority.toInt < p.toInt ∧
            (s.priority.toInt < v.weakest_pri ∨ s.lastUse < v.weakest_time) then
          { v with weakest_pri := s.priority.toInt, weakest_time := s.lastUse, weakest := i }
        else v) := by
  simp [S_AL_SrcAlloc_vars, h, step_active p i s v ha]

/-- When every non-locked channel is active, the loop either leaves the
weakest candidate as it was (and then no preemptable channel goes below the
priority and the time it started with), or ends on a preemptable channel `j`
that no preemptable channel after it undercuts in priority or in time. -/
theorem vars_weakest_spec (p : alSrcPriority_t) (l : List src_t) :
    ∀ (i : Nat) (v : AllocVars), (∀ s ∈ l, s.isLocked = false → s.isActive = true) →
      ((S_AL_SrcAlloc_vars p l i v).weakest = v.weakest ∧
        (S_AL_SrcAlloc_vars p l i v).weakest_pri = v.weakest_pri ∧
        (S_AL_SrcAlloc_vars p l i v).weakest_time = v.weakest_time ∧
        ∀ t ∈ l, preemptable p t → v.weakest_pri ≤ t.priority.toInt ∧ v.weakest_time ≤ t.lastUse) ∨
      (∃ j, j < l.length ∧ (S_AL_SrcAlloc_vars p l i v).weakest = ((i + j : Nat) : Int) ∧
        preemptable p (l.getD j default) ∧
        (S_AL_SrcAlloc_vars p l i v).weakest_pri = (l.getD j default).priority.toInt ∧
        (S_AL_SrcAlloc_vars p l i v).weakest_time = (l.getD j default).lastUse ∧
        ∀ m, j < m → m < l.length → preemptable p (l.getD m default) →
          (l.getD j default).priority.toInt ≤ (l.getD m default).priority.toInt ∧
          (l.getD j default).lastUse ≤ (l.getD m default).lastUse) := by
  induction l with
  | nil => intro i v _; left; exact ⟨rfl, rfl, rfl, fun t ht => by simp at ht⟩
  | cons s rest ih =>
    intro i v h
    have hrest : ∀ t ∈ rest, t.isLocked = false → t.isActive = true :=
      fun t ht => h t (List.mem_cons_of_mem _ ht)
    have shift : ∀ r : AllocVars,
        (∃ j, j < rest.length ∧ r.weakest = ((i + 1 + j : Nat) : Int) ∧
          preemptable p (rest.getD j default) ∧
          r.weakest_pri = (rest.getD j default).priority.toInt ∧
          r.weakest_time = (rest.getD j default).lastUse ∧
          ∀ m, j < m → m < rest.length → preemptable p (rest.getD m default) →
            (rest.getD j default).priority.toInt ≤ (rest.getD m default).priority.toInt ∧
            (rest.getD j default).lastUse ≤ (rest.getD m default).lastUse) →
        ∃ j, j < (s :: rest).length ∧ r.weakest = ((i + j : Nat) : Int) ∧
          preemptable p ((s :: rest).getD j default) ∧
          r.weakest_pri = ((s :: rest).getD j default).priority.toInt ∧
          r.weakest_time = ((s :: rest).getD j default).lastUse ∧
          ∀ m, j < m → m < (s :: rest).length → preemptable p ((s :: rest).getD m default) →
            ((s :: rest).getD j default).priority.toInt ≤
              ((s :: rest).getD m default).priority.toInt ∧
            ((s :: rest).getD j default).lastUse ≤ ((s :: rest).getD m default).lastUse := by
      rintro r ⟨j, hj, hw, hp, hpri, htime, hlater⟩
      refine ⟨j + 1, by simp [hj], by rw [hw]; congr 1; omega, by simpa using hp,
        by simpa using hpri, by simpa using htime, ?_⟩
      intro m hm hml hmp
      cases m with
      | zero => omega
      | succ m =>
        simp only [List.getD_cons_succ] at hmp ⊢
        exact hlater m (by omega) (by simpa using hml) hmp
    by_cases hl : s.isLocked = true
    · rw [vars_cons_locked p s rest i v hl]
      rcases ih (i + 1) v hrest with ⟨h1, h2, h3, h4⟩ | h5
      · left
        refine ⟨h1, h2, h3, ?_⟩
        intro t ht htp
        rcases List.mem_cons.mp ht with rfl | ht1
        · have := htp.1; simp [hl] at this
        · exact h4 t ht1 htp
      · right; exact shift _ h5
    · have hl0 : s.isLocked = false := by simpa using hl
      have ha : s.isActive = true := h s (List.mem_cons_self _ _) hl0
      rw [vars_cons_active p s rest i v hl0 ha]
      by_cases hc : s.priority.toInt < p.toInt ∧
          (s.priority.toInt < v.weakest_pri ∨ s.lastUse < v.weakest_time)
      · rw [if_pos hc]
        rcases ih (i + 1)
          { v with weakest_pri := s.priority.toInt, weakest_time := s.lastUse, weakest := i }
          hrest with ⟨h1, h2, h3, h4⟩ | h5
        · right
          refine ⟨0, by simp, by rw [h1]; simp, ⟨hl0, hc.1⟩, by rw [h2]; simp,
            by rw [h3]; simp, ?_⟩
          intro m hm hml hmp
          cases m with
          | zero => omega
          | succ m =>
            simp only [List.getD_cons_succ, List.getD_cons_zero] at hmp ⊢
            have hmem : rest.getD m default ∈ rest :=
              getD_mem rest m default (by simpa using hml)
            exact h4 _ hmem hmp
        · right; exact shift _ h5
      · rw [if_neg hc]
        rcases ih (i + 1) v hrest with ⟨h1, h2, h3, h4⟩ | h5
        · left
          refine ⟨h1, h2, h3, ?_⟩
          intro t ht htp
          rcases List.mem_cons.mp ht with rfl | ht1
          · have hp := htp.2
            constructor
            · by_contra hcon
              exact hc ⟨hp, Or.inl (by omega)⟩
            · by_contra hcon
              exact hc ⟨hp, Or.inr (by omega)⟩
          · exact h4 t ht1 htp
        · right; exact shift _ h5

/-- When every non-locked channel is active and all preemptable channels have
the same priority `q`, a loop that changes the weakest candidate ends on the
preemptable channel with the earliest `lastUse`, the first such in index order. -/
theorem vars_weakest_same_pri (p : alSrcPriority_t) (q : Int) (l : List src_t) :
    ∀ (i : Nat) (v : AllocVars), (∀ s ∈ l, s.isLocked = false → s.isActive = true) →
      (∀ t ∈ l, preemptable p t → t.priority.toInt = q) →
      ((S_AL_SrcAlloc_vars p l i v).weakest = v.weakest ∧
        ∀ t ∈ l, preemptable p t → v.weakest_pri ≤ q ∧ v.weakest_time ≤ t.lastUse) ∨
      (∃ j, j < l.length ∧ (S_AL_SrcAlloc_vars p l i v).weakest = ((i + j : Nat) : Int) ∧
        preemptable p (l.getD j default) ∧
        (q < v.weakest_pri ∨ (l.getD j default).lastUse < v.weakest_time) ∧
        ∀ m, m < l.length → preemptable p (l.getD m default) →
          (l.getD j default).lastUse ≤ (l.getD m default).lastUse ∧
          (m < j → (l.getD j default).lastUse < (l.getD m default).lastUse)) := by
  induction l with
  | nil => intro i v _ _; left; exact ⟨rfl, fun t ht => by simp at ht⟩
  | cons s rest ih =>
    intro i v h hq
    have hrest : ∀ t ∈ rest, t.isLocked = false → t.isActive = true :=
      fun t ht => h t (List.mem_cons_of_mem _ ht)
    have hqrest : ∀ t ∈ rest, preemptable p t → t.priority.toInt = q :=
      fun t ht => hq t (List.mem_cons_of_mem _ ht)
    have shift : ∀ (r : AllocVars) (v0 : AllocVars) (j : Nat), j < rest.length →
        r.weakest = ((i + 1 + j : Nat) : Int) → preemptable p (rest.getD j default) →
        (q < v0.weakest_pri ∨ (rest.getD j default).lastUse < v0.weakest_time) →
        (∀ m, m < rest.length → preemptable p (rest.getD m default) →
            (rest.getD j default).lastUse ≤ (rest.getD m default).lastUse ∧
            (m < j → (rest.getD j default).lastUse < (rest.getD m default).lastUse)) →
        (preemptable p s → (rest.getD j default).lastUse < s.lastUse) →
        ∃ j, j < (s :: rest).length ∧ r.weakest = ((i + j : Nat) : Int) ∧
          preemptable p ((s :: rest).getD j default) ∧
          (q < v0.weakest_pri ∨ ((s :: rest).getD j default).lastUse < v0.weakest_time) ∧
          ∀ m, m < (s :: rest).length → preemptable p ((s :: rest).getD m default) →
            ((s :: rest).getD j default).lastUse ≤ ((s :: rest).getD m default).lastUse ∧
            (m < j →
              ((s :: rest).getD j default).lastUse < ((s :: rest).getD m default).lastUse) := by
      intro r v0 j hj hw hp hv hall hs
      refine ⟨j + 1, by simp [hj], by rw [hw]; congr 1; omega, by simpa using hp,
        by simpa using hv, ?_⟩
      intro m hml hmp
      cases m with
      | zero =>
        simp only [List.getD_cons_succ, List.getD_cons_zero] at hmp ⊢
        have := hs hmp
        exact ⟨by omega, fun _ => this⟩
      | succ m =>
        simp only [List.getD_cons_succ] at hmp ⊢
        have := hall m (by simpa using hml) hmp
        exact ⟨this.1, fun hlt => this.2 (by omega)⟩
    by_cases hl : s.isLocked = true
    · rw [vars_cons_locked p s rest i v hl]
      rcases ih (i + 1) v hrest hqrest with ⟨h1, h4⟩ | ⟨j, hj, hw, hp, hv, hall⟩
      · left
        refine ⟨h1, ?_⟩
        intro t ht htp
        rcases List.mem_cons.mp ht with rfl | ht1
        · have := htp.1; simp [hl] at this
        · exact h4 t ht1 htp
      · right
        refine shift _ v j hj hw hp hv hall ?_
        intro hsp; have := hsp.1; simp [hl] at this
    · have hl0 : s.isLocked = false := by simpa using hl
      have ha : s.isActive = true := h s (List.mem_cons_self _ _) hl0
      rw [vars_cons_active p s rest i v hl0 ha]
      by_cases hc : s.priority.toInt < p.toInt ∧
          (s.priority.toInt < v.weakest_pri ∨ s.lastUse < v.weakest_time)
      · rw [if_pos hc]
        have hsq : s.priority.toInt = q := hq s (List.mem_cons_self _ _) ⟨hl0, hc.1⟩
        rcases ih (i + 1)
          { v with weakest_pri := s.priority.toInt, weakest_time := s.lastUse, weakest := i }
          hrest hqrest with ⟨h1, h4⟩ | ⟨j, hj, hw, hp, hv, hall⟩
        · right
          refine ⟨0, by simp, by rw [h1]; simp, ⟨hl0, hc.1⟩, ?_, ?_⟩
          · simp only [List.getD_cons_zero]
            rcases hc.2 with h2 | h2
            · left; omega
            · right; exact h2
          · intro m hml hmp
            cases m with
            | zero => simp
            | succ m =>
              simp only [List.getD_cons_succ, List.getD_cons_zero] at hmp ⊢
              have hmem : rest.getD m default ∈ rest :=
                getD_mem rest m default (by simpa using hml)
              have := (h4 _ hmem hmp).2
              simp only at this
              exact ⟨this, fun hlt => by omega⟩
        · right
          simp only at hv
          have hlt : (rest.getD j default).lastUse < s.lastUse := by
            rcases hv with hv | hv
            · omega
            · exact hv
          refine shift _ v j hj hw hp ?_ hall (fun _ => hlt)
          rcases hc.2 with h2 | h2
          · left; omega
          · right; omega
      · rw [if_neg hc]
        rcases ih (i + 1) v hrest hqrest with ⟨h1, h4⟩ | ⟨j, hj, hw, hp, hv, hall⟩
        · left
          refine ⟨h1, ?_⟩
          intro t ht htp
          rcases List.mem_cons.mp ht with rfl | ht1
          · have hp := htp.2
            have hsq : t.priority.toInt = q := hq t (List.mem_cons_self _ _) htp
            constructor
            · by_contra hcon
              exact hc ⟨hp, Or.inl (by omega)⟩
            · by_contra hcon
              exact hc ⟨hp, Or.inr (by omega)⟩
          · exact h4 t ht1 htp
        · right
          refine shift _ v j hj hw hp hv hall ?_
          intro hsp
          have hsq : s.priority.toInt = q := hq s (List.mem_cons_self _ _) hsp
          have h1 : ¬ s.priority.toInt < v.weakest_pri := fun hh => hc ⟨hsp.2, Or.inl hh⟩
          have h2 : ¬ s.lastUse < v.weakest_time := fun hh => hc ⟨hsp.2, Or.inr hh⟩
          rcases hv with hv | hv
          · omega
          · omega

theorem step_empty (p : alSrcPriority_t) (i : Nat) (s : src_t) (v : AllocVars) :
    (S_AL_SrcAlloc_step p i s v).empty = v.empty ∨
      ((S_AL_SrcAlloc_step p i s v).empty = i ∧ s.isActive = false) := by
  unfold S_AL_SrcAlloc_step
  split_ifs with h1 h2 h3
  · right; exact ⟨rfl, h1.1⟩
  · left; rfl
  · left; rfl
  · left; rfl

theorem vars_empty_range (p : alSrcPriority_t) (l : List src_t) :
    ∀ (i : Nat) (v : AllocVars),
      (S_AL_SrcAlloc_vars p l i v).empty = v.empty ∨
      ∃ j, j < l.length ∧ (S_AL_SrcAlloc_vars p l i v).empty = ((i + j : Nat) : Int) ∧
        (l.getD j default).isLocked = false := by
  induction l with
  | nil => intro i v; left; rfl
  | cons s rest ih =>
    intro i v
    have shift : ∀ w : Int, (∃ j, j < rest.length ∧ w = ((i + 1 + j : Nat) : Int) ∧
        (rest.getD j default).isLocked = false) →
        ∃ j, j < (s :: rest).length ∧ w = ((i + j : Nat) : Int) ∧
          ((s :: rest).getD j default).isLocked = false := by
      rintro w ⟨j, hj, hw, hl⟩
      exact ⟨j + 1, by simp [hj], by rw [hw]; congr 1; omega, by simpa using hl⟩
    by_cases hl : s.isLocked = true
    · rw [vars_cons_locked p s rest i v hl]
      rcases ih (i + 1) v with h | h
      · left; exact h
      · right; exact shift _ h
    · have hv : S_AL_SrcAlloc_vars p (s :: rest) i v =
          S_AL_SrcAlloc_vars p rest (i + 1) (S_AL_SrcAlloc_step p i s v) := by
        simp [S_AL_SrcAlloc_vars, hl]
      rw [hv]
      rcases ih (i + 1) (S_AL_SrcAlloc_step p i s v) with h | h
      · rcases step_empty p i s v with h1 | h1
        · left; rw [h, h1]
        · right
          exact ⟨0, by simp, by rw [h, h1.1]; simp, by simpa using hl⟩
      · right; exact shift _ h

/-! ## `S_AL_SrcAlloc` -/

theorem chan_natCast (st : ALState) (j : Nat) : chan st (j : Int) = st.srcList.getD j default := by
  unfold chan; exact readAt_natCast _ _

theorem chan_mem (st : ALState) (j : Nat) (h : j < st.srcList.length) :
    chan st (j : Int) ∈ st.srcList := by
  rw [chan_natCast]; exact getD_mem _ _ _ h

theorem alloc_no_match (st : ALState) (now : Int) (p : alSrcPriority_t) (e c : Int)
    (hno : ∀ s ∈ st.srcList, s.isLocked = false → ¬ exactMatch s e c) :
    S_AL_SrcAlloc st now p e c =
      if (S_AL_SrcAlloc_vars p st.srcList 0 { weakest_time := now }).empty ≠ -1 then
        ((S_AL_SrcAlloc_vars p st.srcList 0 { weakest_time := now }).empty, st)
      else if (S_AL_SrcAlloc_vars p st.srcList 0 { weakest_time := now }).weakest ≠ -1 then
        ((S_AL_SrcAlloc_vars p st.srcList 0 { weakest_time := now }).weakest,
          S_AL_SrcKill st (S_AL_SrcAlloc_vars p st.srcList 0 { weakest_time := now }).weakest)
      else (-1, st) := by
  unfold S_AL_SrcAlloc
  rw [loop_eq_vars p e c st.srcList 0 _ hno]

/-- With every non-locked channel active and no exact match, `S_AL_SrcAlloc`
either finds nothing to preempt and returns -1 with the tables untouched, or
kills and returns a preemptable channel `j` that no preemptable channel after
it undercuts in priority or in time. -/
theorem alloc_all_active (st : ALState) (now : Int) (p : alSrcPriority_t) (e c : Int)
    (hact : ∀ s ∈ st.srcList, s.isLocked = false → s.isActive = true)
    (hno : ∀ s ∈ st.srcList, s.isLocked = false → ¬ exactMatch s e c) :
    ((∀ t ∈ st.srcList, ¬ preemptable p t) ∧ S_AL_SrcAlloc st now p e c = (-1, st)) ∨
    (∃ j : Nat, j < st.srcList.length ∧
      S_AL_SrcAlloc st now p e c = ((j : Int), S_AL_SrcKill st j) ∧
      (S_AL_SrcAlloc_vars p st.srcList 0 { weakest_time := now }).weakest = (j : Int) ∧
      preemptable p (chan st j) ∧
      ∀ m : Nat, j < m → m < st.srcList.length → preemptable p (chan st m) →
        (chan st j).priority.toInt ≤ (chan st m).priority.toInt ∧
        (chan st j).lastUse ≤ (chan st m).lastUse) := by
  rw [alloc_no_match st now p e c hno]
  have hempty := vars_empty_none p st.srcList 0 { weakest_time := now } hact
  rcases vars_weakest_spec p st.srcList 0 { weakest_time := now } hact with
    ⟨h1, _, _, h4⟩ | ⟨j, hj, hw, hp, _, _, hlater⟩
  · left
    constructor
    · intro t ht htp
      have := (h4 t ht htp).1
      have h999 := priority_lt_999 t.priority
      simp only at this
      omega
    · rw [hempty, h1]; simp
  · right
    have hw0 : (S_AL_SrcAlloc_vars p st.srcList 0 { weakest_time := now }).weakest = (j : Int) := by
      rw [hw]; simp
    refine ⟨j, hj, ?_, hw0, by rw [chan_natCast]; exact hp, ?_⟩
    · rw [hempty, hw0]
      have : ((j : Int) ≠ -1) := by omega
      simp [this]
    · intro m hm hml hmp
      rw [chan_natCast] at hmp ⊢
      rw [chan_natCast]
      exact hlater m hm hml hmp

/-- Whatever the pool, `S_AL_SrcAlloc` returns -1 with the tables untouched, or
a channel `k` of the pool that is not locked; the tables are then as before or
as after `S_AL_SrcKill k`, and no non-locked channel before `k` is an exact match. -/
theorem alloc_result (st : ALState) (now : Int) (p : alSrcPriority_t) (e c : Int) :
    S_AL_SrcAlloc st now p e c = (-1, st) ∨
    ∃ k : Nat, k < st.srcList.length ∧ (chan st k).isLocked = false ∧
      (S_AL_SrcAlloc st now p e c = ((k : Int), st) ∨
        S_AL_SrcAlloc st now p e c = ((k : Int), S_AL_SrcKill st k)) ∧
      ∀ m : Nat, m < k → (chan st m).isLocked = true ∨ ¬ exactMatch (chan st m) e c := by
  cases hres : S_AL_SrcAlloc_loop p e c st.srcList 0 { weakest_time := now } with
  | inl k =>
    right
    obtain ⟨j, hk, hj, hl, _, hbefore⟩ := loop_inl p e c st.srcList 0 _ k hres
    have hkj : k = j := by omega
    subst hkj
    refine ⟨k, hj, by rw [chan_natCast]; exact hl, Or.inr ?_, ?_⟩
    · simp [S_AL_SrcAlloc, hres]
    · intro m hm; rw [chan_natCast]; exact hbefore m hm
  | inr v =>
    have hno := loop_inr p e c st.srcList 0 _ v hres
    have hnone : ∀ m : Nat, (chan st m).isLocked = true ∨ ¬ exactMatch (chan st m) e c := by
      intro m
      by_cases hm : m < st.srcList.length
      · by_cases hl : (chan st m).isLocked = true
        · left; exact hl
        · right; exact hno _ (chan_mem st m hm) (by simpa using hl)
      · right
        have hd : chan st m = default := by
          unfold chan
          exact readAt_out_of_range _ _ (Or.inr (by simpa using hm))
        rw [hd]
        rintro ⟨_, h2, h3⟩
        exact h3 h2.symm
    rw [alloc_no_match st now p e c hno]
    by_cases h1 : (S_AL_SrcAlloc_vars p st.srcList 0 { weakest_time := now }).empty ≠ -1
    · rw [if_pos h1]
      right
      rcases vars_empty_range p st.srcList 0 { weakest_time := now } with h | ⟨j, hj, hw, hl⟩
      · exact absurd h h1
      · refine ⟨j, hj, by rw [chan_natCast]; exact hl, Or.inl ?_, fun m _ => hnone m⟩
        rw [hw]; simp
    · rw [if_neg h1]
      by_cases h2 : (S_AL_SrcAlloc_vars p st.srcList 0 { weakest_time := now }).weakest ≠ -1
      · rw [if_pos h2]
        right
        rcases vars_weakest_range p st.srcList 0 { weakest_time := now } with h | ⟨j, hj, hw, hl⟩
        · exact absurd h h2
        · refine ⟨j, hj, by rw [chan_natCast]; exact hl, Or.inr ?_, fun m _ => hnone m⟩
          rw [hw]; simp
      · rw [if_neg h2]; left; rfl

theorem update_step_chan_locked (stopped : Nat → Bool) (k : Nat) (st : ALState) (i : Int)
    (h : (chan st i).isLocked = true) :
    chan (S_AL_SrcUpdate_step stopped k st) i = chan st i := by
  unfold S_AL_SrcUpdate_step
  simp only
  split_ifs
  · rfl
  · rfl
  · exact kill_chan_locked st k i h
  · exact kill_chan_locked { st with ambientCount := st.ambientCount - 1 } k i h
  · rfl
  · rfl

theorem update_loop_chan_locked (stopped : Nat → Bool) (i : Int) :
    ∀ (n k : Nat) (st : ALState), (chan st i).isLocked = true →
      chan (S_AL_SrcUpdate_loop stopped n k st) i = chan st i := by
  intro n
  induction n with
  | zero => intro k st _; rfl
  | succ n ih =>
    intro k st h
    have hs := update_step_chan_locked stopped k st i h
    simp only [S_AL_SrcUpdate_loop]
    rw [ih (k + 1) _ (by rw [hs]; exact h), hs]

/-! ## The buffer cache leaves the channel pool alone -/

theorem retry_eq (sfx : sfxHandle_t) (more : List ALenum) (error : ALenum) (st : ALState) :
    S_AL_BufferLoad_retry sfx more error st =
      if error = .AL_OUT_OF_MEMORY then
        match S_AL_BufferUseDefault st sfx with
        | .error e => .error e
        | .ok st1 => .ok (.inl st1)
      else .ok (.inr error) := by
  cases more <;> rfl

theorem samePool_refl (st : ALState) : samePool st st := ⟨rfl, rfl, rfl, rfl⟩

theorem samePool_trans {a b c : ALState} (h1 : samePool a b) (h2 : samePool b c) :
    samePool a c :=
  ⟨h2.1.trans h1.1, h2.2.1.trans h1.2.1, h2.2.2.1.trans h1.2.2.1, h2.2.2.2.trans h1.2.2.2⟩

theorem useDefault_samePool (st st1 : ALState) (sfx : sfxHandle_t)
    (h : S_AL_BufferUseDefault st sfx = .ok st1) : samePool st st1 := by
  unfold S_AL_BufferUseDefault at h
  split_ifs at h
  simp only [Except.ok.injEq] at h
  subst h
  exact ⟨rfl, rfl, rfl, rfl⟩

theorem load_of_skip (st : ALState) (env : LoadEnv) (sfx : sfxHandle_t)
    (h : loadSkips (st.knownSfx.getD sfx default)) : S_AL_BufferLoad st env sfx = .ok st := by
  unfold S_AL_BufferLoad
  simp only
  by_cases h1 : (st.knownSfx.getD sfx default).filename = []
  · rw [if_pos h1]
  · rw [if_neg h1]
    by_cases h2 : (st.knownSfx.getD sfx default).filename.head? = some '*'
    · rw [if_pos h2]
    · rw [if_neg h2]
      have h3 : (st.knownSfx.getD sfx default).inMemory = true ∨
          (st.knownSfx.getD sfx default).isDefault = true := by
        rcases h with h | h | h | h
        · exact absurd h h1
        · exact absurd h h2
        · exact Or.inl h
        · exact Or.inr h
      rw [if_pos h3]

theorem load_of_fail (st : ALState) (env : LoadEnv) (sfx : sfxHandle_t)
    (hs : ¬ loadSkips (st.knownSfx.getD sfx default)) (hf : loadFails env) :
    S_AL_BufferLoad st env sfx = S_AL_BufferUseDefault (loadTouched st env sfx) sfx := by
  have h1 : ¬ (st.knownSfx.getD sfx default).filename = [] := fun h => hs (Or.inl h)
  have h2 : ¬ (st.knownSfx.getD sfx default).filename.head? = some '*' :=
    fun h => hs (Or.inr (Or.inl h))
  have h3 : ¬ ((st.knownSfx.getD sfx default).inMemory = true ∨
      (st.knownSfx.getD sfx default).isDefault = true) := by
    rintro (h | h)
    · exact hs (Or.inr (Or.inr (Or.inl h)))
    · exact hs (Or.inr (Or.inr (Or.inr h)))
  unfold S_AL_BufferLoad loadTouched
  simp only
  rw [if_neg h1, if_neg h2, if_neg h3]
  cases hc : env.codec with
  | none => rfl
  | some info =>
    simp only
    by_cases hg : env.genError ≠ .AL_NO_ERROR
    · rw [if_pos hg]
    · rw [if_neg hg, retry_eq]
      have hfill : env.fillError ≠ .AL_NO_ERROR := by
        rcases hf with hf | hf | hf
        · rw [hc] at hf; exact absurd hf (by simp)
        · exact absurd hf hg
        · exact hf
      by_cases ho : env.fillError = .AL_OUT_OF_MEMORY
      · rw [if_pos ho]
        cases S_AL_BufferUseDefault _ sfx <;> rfl
      · rw [if_neg ho]
        simp only
        rw [if_pos hfill]

theorem load_of_success (st : ALState) (env : LoadEnv) (sfx : sfxHandle_t)
    (hs : ¬ loadSkips (st.knownSfx.getD sfx default)) (hf : ¬ loadFails env) :
    S_AL_BufferLoad st env sfx =
      .ok { loadTouched st env sfx with
            knownSfx := (loadTouched st env sfx).knownSfx.set sfx
              { (loadTouched st env sfx).knownSfx.getD sfx default with inMemory := true } } := by
  have h1 : ¬ (st.knownSfx.getD sfx default).filename = [] := fun h => hs (Or.inl h)
  have h2 : ¬ (st.knownSfx.getD sfx default).filename.head? = some '*' :=
    fun h => hs (Or.inr (Or.inl h))
  have h3 : ¬ ((st.knownSfx.getD sfx default).inMemory = true ∨
      (st.knownSfx.getD sfx default).isDefault = true) := by
    rintro (h | h)
    · exact hs (Or.inr (Or.inr (Or.inl h)))
    · exact hs (Or.inr (Or.inr (Or.inr h)))
  unfold S_AL_BufferLoad loadTouched
  simp only
  rw [if_neg h1, if_neg h2, if_neg h3]
  cases hc : env.codec with
  | none => exact absurd (Or.inl hc) hf
  | some info =>
    simp only
    have hg : ¬ env.genError ≠ .AL_NO_ERROR := fun h => hf (Or.inr (Or.inl h))
    have hfill : ¬ env.fillError ≠ .AL_NO_ERROR := fun h => hf (Or.inr (Or.inr h))
    have hfill2 : env.fillError = .AL_NO_ERROR := by simpa using hfill
    have ho : ¬ env.fillError = .AL_OUT_OF_MEMORY := by rw [hfill2]; decide
    rw [if_neg hg, retry_eq, if_neg ho]
    simp only
    rw [if_neg hfill]

theorem loadTouched_samePool (st : ALState) (env : LoadEnv) (sfx : sfxHandle_t) :
    samePool st (loadTouched st env sfx) := by
  unfold loadTouched
  cases env.codec <;> exact ⟨rfl, rfl, rfl, rfl⟩

theorem load_samePool (st st1 : ALState) (env : LoadEnv) (sfx : sfxHandle_t)
    (h : S_AL_BufferLoad st env sfx = .ok st1) : samePool st st1 := by
  by_cases hs : loadSkips (st.knownSfx.getD sfx default)
  · rw [load_of_skip st env sfx hs] at h
    simp only [Except.ok.injEq] at h; subst h; exact samePool_refl _
  · by_cases hf : loadFails env
    · rw [load_of_fail st env sfx hs hf] at h
      exact samePool_trans (loadTouched_samePool st env sfx) (useDefault_samePool _ _ _ h)
    · rw [load_of_success st env sfx hs hf] at h
      simp only [Except.ok.injEq] at h; subst h
      exact samePool_trans (loadTouched_samePool st env sfx) ⟨rfl, rfl, rfl, rfl⟩

theorem use_samePool (st st1 : ALState) (now : Int) (env : LoadEnv) (sfx : sfxHandle_t)
    (h : S_AL_BufferUse st now env sfx = .ok st1) : samePool st st1 := by
  unfold S_AL_BufferUse at h
  simp only at h
  split_ifs at h with h1 h2
  · simp only [Except.ok.injEq] at h; subst h; exact samePool_refl _
  · cases hl : S_AL_BufferLoad st env sfx with
    | error x => rw [hl] at h; simp at h
    | ok st2 =>
      rw [hl] at h
      simp only [Except.ok.injEq] at h; subst h
      exact samePool_trans (load_samePool _ _ _ _ hl) ⟨rfl, rfl, rfl, rfl⟩
  · simp only [Except.ok.injEq] at h; subst h; exact ⟨rfl, rfl, rfl, rfl⟩

/-! ## Setting a channel up -/

theorem setup_ok (st st2 : ALState) (env : Env) (src : Int) (sfx : sfxHandle_t)
    (p : alSrcPriority_t) (e c : Int) (l : Bool)
    (h : S_AL_SrcSetup st env src sfx p e c l = .ok st2) :
    st2.entityList = st.entityList ∧
    st2.srcList = writeAt st.srcList src
      { readAt st.srcList src with
        lastUse := env.setupTime, sfx := sfx, priority := p, entity := e, channel := c,
        isActive := true, isLocked := false, isLooping := false, isTracking := false,
        local_ := l } := by
  unfold S_AL_SrcSetup at h
  cases hu : S_AL_BufferUse st env.useTime env.load sfx with
  | error x => rw [hu] at h; simp at h
  | ok st1 =>
    rw [hu] at h
    simp only [Except.ok.injEq] at h
    subst h
    have hp := use_samePool _ _ _ _ _ hu
    exact ⟨hp.2.1, by rw [hp.1]⟩

theorem alloc_exact_match (st : ALState) (now : Int) (p : alSrcPriority_t) (e c : Int) (k : Nat)
    (hk : k < st.srcList.length) (hl : (chan st k).isLocked = false)
    (hm : exactMatch (chan st k) e c)
    (hbefore : ∀ m : Nat, m < k → (chan st m).isLocked = true ∨ ¬ exactMatch (chan st m) e c) :
    S_AL_SrcAlloc st now p e c = ((k : Int), S_AL_SrcKill st k) := by
  have h := loop_first_match p e c st.srcList 0 { weakest_time := now } k hk
    (by rw [← chan_natCast]; exact hl) (by rw [← chan_natCast]; exact hm)
    (fun m hmk => by rw [← chan_natCast]; exact hbefore m hmk)
  unfold S_AL_SrcAlloc
  rw [h]
  simp

/-- A play request that succeeds: the channel `k` it returns is in the pool,
carries the requested identity, is active and not locked; the other channels
are as they were, and no non-locked channel before `k` matched the identity. -/
theorem startSound_ok (st st1 : ALState) (env : Env) (originNull : Bool) (e c : Int)
    (sfx : sfxHandle_t) (i : Int)
    (h : S_AL_StartSound st env originNull e c sfx = .ok (i, st1)) (hi : i ≠ -1) :
    ∃ k : Nat, i = (k : Int) ∧ k < st.srcList.length ∧ st1.srcList.length = st.srcList.length ∧
      (chan st1 k).entity = e ∧ (chan st1 k).channel = c ∧ (chan st1 k).isLocked = false ∧
      (chan st1 k).isActive = true ∧
      (∀ m : Int, m ≠ (k : Int) → chan st1 m = chan st m) ∧
      ∀ m : Nat, m < k → (chan st m).isLocked = true ∨ ¬ exactMatch (chan st m) e c := by
  unfold S_AL_StartSound at h
  rcases alloc_result st env.allocTime .SRCPRI_ONESHOT e c with h1 | ⟨k, hk, _, h2, hbefore⟩
  · rw [h1] at h
    simp only [if_true, Except.ok.injEq, Prod.mk.injEq] at h
    exact absurd h.1.symm hi
  · have hne : ¬ ((k : Int) = -1) := by omega
    have key : ∀ stA : ALState, stA.srcList.length = st.srcList.length →
        (∀ m : Int, m ≠ (k : Int) → chan stA m = chan st m) →
        S_AL_SrcAlloc st env.allocTime .SRCPRI_ONESHOT e c = ((k : Int), stA) →
        ∃ k : Nat, i = (k : Int) ∧ k < st.srcList.length ∧
          st1.srcList.length = st.srcList.length ∧
          (chan st1 k).entity = e ∧ (chan st1 k).channel = c ∧ (chan st1 k).isLocked = false ∧
          (chan st1 k).isActive = true ∧
          (∀ m : Int, m ≠ (k : Int) → chan st1 m = chan st m) ∧
          ∀ m : Nat, m < k → (chan st m).isLocked = true ∨ ¬ exactMatch (chan st m) e c := by
      intro stA hlen hother hA
      rw [hA] at h
      simp only [if_neg hne] at h
      cases hs : S_AL_SrcSetup stA env (k : Int) sfx .SRCPRI_ONESHOT e c false with
      | error x => rw [hs] at h; simp at h
      | ok st2 =>
        rw [hs] at h
        simp only [Except.ok.injEq, Prod.mk.injEq] at h
        obtain ⟨hik, hst⟩ := h
        obtain ⟨_, hsl⟩ := setup_ok _ _ _ _ _ _ _ _ _ hs
        have hkA : (k : Int).toNat < stA.srcList.length := by simpa [hlen] using hk
        have hk0 : (0 : Int) ≤ (k : Int) := by omega
        refine ⟨k, hik.symm, hk, ?_, ?_⟩
        · subst hst
          cases originNull <;> simp [hsl, length_writeAt, hlen]
        · subst hst
          cases originNull
          · simp only [Bool.false_eq_true, if_false, chan]
            rw [hsl, readAt_writeAt_self _ _ _ hk0 hkA]
            refine ⟨rfl, rfl, rfl, rfl, ?_, hbefore⟩
            intro m hm
            rw [readAt_writeAt_ne _ _ _ _ (fun hh => hm hh.symm)]
            exact hother m hm
          · have hkA2 : (k : Int).toNat < st2.srcList.length := by
              rw [hsl, length_writeAt]; exact hkA
            simp only [if_true, chan]
            rw [readAt_writeAt_self _ _ _ hk0 hkA2, hsl, readAt_writeAt_self _ _ _ hk0 hkA]
            refine ⟨rfl, rfl, rfl, rfl, ?_, hbefore⟩
            intro m hm
            rw [readAt_writeAt_ne _ _ _ _ (fun hh => hm hh.symm),
              readAt_writeAt_ne _ _ _ _ (fun hh => hm hh.symm)]
            exact hother m hm
    rcases h2 with h2 | h2
    · exact key st rfl (fun _ _ => rfl) h2
    · exact key (S_AL_SrcKill st k) (kill_length st k)
        (fun m hm => kill_chan_ne st k m (fun hh => hm hh.symm)) h2

/-! ## Entities, looping sounds and the sweep -/

theorem readAt_writeAt {α : Type} [Inhabited α] (l : List α) (i j : Int) (a : α) :
    readAt (writeAt l i a) j =
      if i = j ∧ 0 ≤ i ∧ i.toNat < l.length then a else readAt l j := by
  by_cases hij : i = j
  · subst hij
    by_cases hr : 0 ≤ i ∧ i.toNat < l.length
    · rw [if_pos ⟨rfl, hr⟩]; exact readAt_writeAt_self l i a hr.1 hr.2
    · rw [if_neg (fun h => hr h.2)]
      rw [writeAt_out_of_range l i a (by omega)]
  · rw [if_neg (fun h => hij h.1)]
    exact readAt_writeAt_ne l i j a hij

theorem kill_entityList (st : ALState) (src : Int) :
    (S_AL_SrcKill st src).entityList =
      if (chan st src).isLocked = false ∧ (chan st src).isLooping = true ∧
          (chan st src).entity ≠ -1 then
        writeAt st.entityList (chan st src).entity
          { readAt st.entityList (chan st src).entity with
            has_sfx := false, sfx := -1, touched := false }
      else st.entityList := by
  unfold S_AL_SrcKill chan
  by_cases h1 : (readAt st.srcList src).isLocked = true
  · simp [h1]
  · by_cases h2 : (readAt st.srcList src).isLooping = true ∧ (readAt st.srcList src).entity ≠ -1
    · simp [h1, h2]
    · simp [h1, h2]

theorem kill_entityList_length (st : ALState) (src : Int) :
    (S_AL_SrcKill st src).entityList.length = st.entityList.length := by
  rw [kill_entityList]
  split_ifs <;> simp [length_writeAt]

/-- A kill leaves an entity as it was or clears its attachment. -/
theorem kill_ent_cases (st : ALState) (src x : Int) :
    ent (S_AL_SrcKill st src) x = ent st x ∨
    ((ent (S_AL_SrcKill st src) x).has_sfx = false ∧
      (ent (S_AL_SrcKill st src) x).touched = false) := by
  unfold ent
  rw [kill_entityList]
  split_ifs with h1
  · rw [readAt_writeAt]
    split_ifs
    · right; exact ⟨rfl, rfl⟩
    · left; rfl
  · left; rfl

theorem kill_ent_ne (st : ALState) (src x : Int)
    (h : (chan st src).isLooping = true → (chan st src).entity ≠ x) :
    ent (S_AL_SrcKill st src) x = ent st x := by
  unfold ent
  rw [kill_entityList]
  split_ifs with h1
  · rw [readAt_writeAt, if_neg (fun hh => h h1.2.1 hh.1)]
  · rfl

theorem kill_ent_self (st : ALState) (src e : Int)
    (hl : (chan st src).isLocked = false) (hloop : (chan st src).isLooping = true)
    (he : (chan st src).entity = e) : (ent (S_AL_SrcKill st src) e).has_sfx = false := by
  unfold ent
  rw [kill_entityList, he]
  by_cases hr : e ≠ -1 ∧ 0 ≤ e ∧ e.toNat < st.entityList.length
  · rw [if_pos ⟨hl, hloop, hr.1⟩, readAt_writeAt, if_pos ⟨rfl, hr.2⟩]
  · have hout : e < 0 ∨ st.entityList.length ≤ e.toNat := by omega
    have hd : ∀ l : List sentity_t, l.length = st.entityList.length →
        (readAt l e).has_sfx = false := by
      intro l hlen
      rw [readAt_out_of_range l e (by rw [hlen]; exact hout)]
      rfl
    split_ifs
    · exact hd _ (length_writeAt _ _ _)
    · exact hd _ rfl

theorem update_step_length (stopped : Nat → Bool) (k : Nat) (st : ALState) :
    (S_AL_SrcUpdate_step stopped k st).srcList.length = st.srcList.length := by
  unfold S_AL_SrcUpdate_step
  simp only
  split_ifs
  · rfl
  · rfl
  · exact kill_length st k
  · exact kill_length { st with ambientCount := st.ambientCount - 1 } k
  · rfl
  · rfl

theorem update_step_chan_ne (stopped : Nat → Bool) (k : Nat) (st : ALState) (c : Int)
    (h : (k : Int) ≠ c) : chan (S_AL_SrcUpdate_step stopped k st) c = chan st c := by
  unfold S_AL_SrcUpdate_step
  simp only
  split_ifs
  · rfl
  · rfl
  · exact kill_chan_ne st k c h
  · exact kill_chan_ne { st with ambientCount := st.ambientCount - 1 } k c h
  · rfl
  · rfl

theorem update_step_ent_cases (stopped : Nat → Bool) (k : Nat) (st : ALState) (x : Int) :
    ent (S_AL_SrcUpdate_step stopped k st) x = ent st x ∨
    ((ent (S_AL_SrcUpdate_step stopped k st) x).has_sfx = false ∧
      (ent (S_AL_SrcUpdate_step stopped k st) x).touched = false) := by
  unfold S_AL_SrcUpdate_step
  simp only
  split_ifs
  · left; rfl
  · left; rfl
  · exact kill_ent_cases st k x
  · exact kill_ent_cases { st with ambientCount := st.ambientCount - 1 } k x
  · left; rfl
  · left; rfl

theorem update_step_ent_ne (stopped : Nat → Bool) (k : Nat) (st : ALState) (x : Int)
    (h : (chan st k).isLooping = true → (chan st k).entity ≠ x) :
    ent (S_AL_SrcUpdate_step stopped k st) x = ent st x := by
  unfold S_AL_SrcUpdate_step
  simp only
  split_ifs
  · rfl
  · rfl
  · exact kill_ent_ne st k x h
  · exact kill_ent_ne { st with ambientCount := st.ambientCount - 1 } k x h
  · rfl
  · rfl

/-- The sweep reaches a playing, looping, non-locked channel `c` whose entity
is not touched: it kills the channel, whether or not playback has stopped. -/
theorem update_step_kills (stopped : Nat → Bool) (c : Nat) (st : ALState) (e : Int)
    (hc : c < st.srcList.length)
    (hl : (chan st c).isLocked = false) (ha : (chan st c).isActive = true)
    (hloop : (chan st c).isLooping = true) (he : (chan st c).entity = e)
    (ht : (ent st e).touched = false) :
    isFree (chan (S_AL_SrcUpdate_step stopped c st) c) ∧
    (ent (S_AL_SrcUpdate_step stopped c st) e).has_sfx = false := by
  have hl1 : ¬ (readAt st.srcList (c : Int)).isLocked = true := by
    unfold chan at hl; rw [hl]; decide
  have ha1 : ¬ (readAt st.srcList (c : Int)).isActive = false := by
    unfold chan at ha; rw [ha]; decide
  have ht1 : (readAt st.srcList (c : Int)).isLooping = true := hloop
  have ht2 : (readAt st.entityList (readAt st.srcList (c : Int)).entity).touched = false := by
    unfold chan at he; rw [he]; exact ht
  unfold S_AL_SrcUpdate_step
  simp only
  rw [if_neg hl1, if_neg ha1]
  by_cases hs : stopped c = true
  · rw [if_pos hs]
    exact ⟨kill_chan_self st c (by omega) (by simpa using hc) hl, kill_ent_self st c e hl hloop he⟩
  · rw [if_neg hs, if_pos ht1, if_pos ht2]
    exact ⟨kill_chan_self { st with ambientCount := st.ambientCount - 1 } c (by omega)
        (by simpa using hc) hl,
      kill_ent_self { st with ambientCount := st.ambientCount - 1 } c e hl hloop he⟩

theorem kill_chan_self_cases (st : ALState) (k : Int) :
    chan (S_AL_SrcKill st k) k = chan st k ∨ (chan (S_AL_SrcKill st k) k).isLooping = false := by
  by_cases hl : (chan st k).isLocked = true
  · left; rw [kill_of_locked st k hl]
  · right
    by_cases hr : 0 ≤ k ∧ k.toNat < st.srcList.length
    · exact (kill_chan_self st k hr.1 hr.2 (by simpa using hl)).2.2.2.2.2.2.2.1
    · unfold chan
      rw [readAt_out_of_range _ _ (by rw [kill_length]; omega)]
      rfl

theorem update_step_chan_cases (stopped : Nat → Bool) (k : Nat) (st : ALState) (j : Int) :
    chan (S_AL_SrcUpdate_step stopped k st) j = chan st j ∨
    (chan (S_AL_SrcUpdate_step stopped k st) j).isLooping = false := by
  by_cases hjk : (k : Int) = j
  · subst hjk
    unfold S_AL_SrcUpdate_step
    simp only
    split_ifs
    · left; rfl
    · left; rfl
    · exact kill_chan_self_cases st k
    · exact kill_chan_self_cases { st with ambientCount := st.ambientCount - 1 } k
    · left; rfl
    · left; rfl
  · left; exact update_step_chan_ne stopped k st j hjk

theorem update_step_keeps (stopped : Nat → Bool) (c : Nat) (st : ALState)
    (hs : stopped c = false) (hloop : (chan st c).isLooping = true)
    (ht : (ent st (chan st c).entity).touched = true) :
    S_AL_SrcUpdate_step stopped c st = st := by
  unfold chan ent at *
  unfold S_AL_SrcUpdate_step
  simp only
  by_cases h1 : (readAt st.srcList (c : Int)).isLocked = true
  · rw [if_pos h1]
  · rw [if_neg h1]
    by_cases h2 : (readAt st.srcList (c : Int)).isActive = false
    · rw [if_pos h2]
    · rw [if_neg h2, if_neg (by rw [hs]; decide), if_pos hloop, if_neg (by rw [ht]; decide)]

theorem update_loop_kills (stopped : Nat → Bool) (e : Int) (c : Nat) :
    ∀ (n k : Nat) (st : ALState),
      (k ≤ c → c < k + n ∧ c < st.srcList.length ∧ (chan st c).isLocked = false ∧
        (chan st c).isActive = true ∧ (chan st c).isLooping = true ∧ (chan st c).entity = e ∧
        (ent st e).touched = false) →
      (c < k → isFree (chan st c) ∧ (ent st e).has_sfx = false) →
      isFree (chan (S_AL_SrcUpdate_loop stopped n k st) c) ∧
      (ent (S_AL_SrcUpdate_loop stopped n k st) e).has_sfx = false := by
  intro n
  induction n with
  | zero =>
    intro k st h1 h2
    by_cases hk : k ≤ c
    · have := (h1 hk).1; omega
    · exact h2 (by omega)
  | succ n ih =>
    intro k st h1 h2
    simp only [S_AL_SrcUpdate_loop]
    apply ih (k + 1) (S_AL_SrcUpdate_step stopped k st)
    · intro hk
      obtain ⟨hb, hlen, hl, ha, hloop, he, ht⟩ := h1 (by omega)
      have hne : (k : Int) ≠ (c : Int) := by omega
      rw [update_step_chan_ne stopped k st c hne, update_step_length]
      refine ⟨by omega, hlen, hl, ha, hloop, he, ?_⟩
      rcases update_step_ent_cases stopped k st e with h | h
      · rw [h]; exact ht
      · exact h.2
    · intro hk
      by_cases hkc : k = c
      · subst hkc
        obtain ⟨_, hlen, hl, ha, hloop, he, ht⟩ := h1 (le_refl _)
        exact update_step_kills stopped k st e hlen hl ha hloop he ht
      · obtain ⟨hf, hh⟩ := h2 (by omega)
        have hne : (k : Int) ≠ (c : Int) := by omega
        rw [update_step_chan_ne stopped k st c hne]
        refine ⟨hf, ?_⟩
        rcases update_step_ent_cases stopped k st e with h | h
        · rw [h]; exact hh
        · exact h.1

theorem update_loop_keeps (stopped : Nat → Bool) (e : Int) (c : Nat) (hs : stopped c = false) :
    ∀ (n k : Nat) (st : ALState),
      (chan st c).isLooping = true → (chan st c).entity = e → (ent st e).touched = true →
      (∀ j : Nat, j ≠ c → (chan st j).isLooping = true → (chan st j).entity ≠ e) →
      chan (S_AL_SrcUpdate_loop stopped n k st) c = chan st c ∧
      ent (S_AL_SrcUpdate_loop stopped n k st) e = ent st e := by
  intro n
  induction n with
  | zero => intro k st _ _ _ _; exact ⟨rfl, rfl⟩
  | succ n ih =>
    intro k st hloop he ht huniq
    simp only [S_AL_SrcUpdate_loop]
    by_cases hkc : k = c
    · subst hkc
      rw [update_step_keeps stopped k st hs hloop (by rw [he]; exact ht)]
      exact ih (k + 1) st hloop he ht huniq
    · have hne : (k : Int) ≠ (c : Int) := by omega
      have hc := update_step_chan_ne stopped k st c hne
      have hent := update_step_ent_ne stopped k st e (huniq k hkc)
      have := ih (k + 1) (S_AL_SrcUpdate_step stopped k st) (by rw [hc]; exact hloop)
        (by rw [hc]; exact he) (by rw [hent]; exact ht)
        (by
          intro j hj hjl
          rcases update_step_chan_cases stopped k st j with h | h
          · rw [h] at hjl ⊢; exact huniq j hj hjl
          · rw [h] at hjl; exact absurd hjl (by decide))
      rw [this.1, this.2, hc, hent]
      exact ⟨rfl, rfl⟩

theorem ent_in_range (st : ALState) (e : Int) (h : (ent st e).has_sfx = true) :
    0 ≤ e ∧ e.toNat < st.entityList.length := by
  by_contra hcon
  have hd : ent st e = default := by
    unfold ent
    exact readAt_out_of_range _ _ (by omega)
  rw [hd] at h
  exact absurd h (by decide)

theorem clear_step_spec (ents : List sentity_t) (s : src_t) (x : Int) :
    (readAt (S_AL_ClearLoopingSounds_step ents s) x).has_sfx = (readAt ents x).has_sfx ∧
    (readAt (S_AL_ClearLoopingSounds_step ents s) x).sfx = (readAt ents x).sfx ∧
    ((readAt ents x).touched = false →
      (readAt (S_AL_ClearLoopingSounds_step ents s) x).touched = false) ∧
    (s.isLooping = true ∧ s.entity = x ∧ x ≠ -1 →
      (readAt (S_AL_ClearLoopingSounds_step ents s) x).touched = false) := by
  unfold S_AL_ClearLoopingSounds_step
  by_cases h : s.isLooping = true ∧ s.entity ≠ -1
  · rw [if_pos h, readAt_writeAt]
    by_cases h2 : s.entity = x ∧ 0 ≤ s.entity ∧ s.entity.toNat < ents.length
    · rw [if_pos h2]
      obtain ⟨hx, _, _⟩ := h2
      subst hx
      exact ⟨rfl, rfl, fun _ => rfl, fun _ => rfl⟩
    · rw [if_neg h2]
      refine ⟨rfl, rfl, fun hh => hh, ?_⟩
      rintro ⟨_, hx, _⟩
      subst hx
      rw [readAt_out_of_range ents s.entity (by omega)]
      rfl
  · rw [if_neg h]
    refine ⟨rfl, rfl, fun hh => hh, ?_⟩
    rintro ⟨h1, hx, h3⟩
    subst hx
    exact absurd ⟨h1, h3⟩ h

theorem clear_fold_spec (l : List src_t) (x : Int) :
    ∀ ents : List sentity_t,
      (readAt (l.foldl S_AL_ClearLoopingSounds_step ents) x).has_sfx = (readAt ents x).has_sfx ∧
      (readAt (l.foldl S_AL_ClearLoopingSounds_step ents) x).sfx = (readAt ents x).sfx ∧
      ((readAt ents x).touched = false →
        (readAt (l.foldl S_AL_ClearLoopingSounds_step ents) x).touched = false) ∧
      ((∃ s ∈ l, s.isLooping = true ∧ s.entity = x ∧ x ≠ -1) →
        (readAt (l.foldl S_AL_ClearLoopingSounds_step ents) x).touched = false) := by
  induction l with
  | nil =>
    intro ents
    refine ⟨rfl, rfl, fun h => h, ?_⟩
    rintro ⟨s, hs, _⟩
    simp at hs
  | cons a rest ih =>
    intro ents
    simp only [List.foldl_cons]
    obtain ⟨i1, i2, i3, i4⟩ := ih (S_AL_ClearLoopingSounds_step ents a)
    obtain ⟨s1, s2, s3, s4⟩ := clear_step_spec ents a x
    refine ⟨i1.trans s1, i2.trans s2, fun h => i3 (s3 h), ?_⟩
    rintro ⟨s, hs, hprop⟩
    rcases List.mem_cons.mp hs with rfl | hs1
    · exact i3 (s4 hprop)
    · exact i4 ⟨s, hs1, hprop⟩

theorem srcLoop_same_sound (st : ALState) (env : Env) (p : alSrcPriority_t) (sfx : sfxHandle_t)
    (e : Int) (h1 : (ent st e).has_sfx = true) (h2 : (chan st (ent st e).sfx).sfx = sfx) :
    S_AL_SrcLoop st env p sfx e =
      .ok { st with
            entityList := writeAt st.entityList e { readAt st.entityList e with touched := true } } := by
  unfold ent chan at *
  unfold S_AL_SrcLoop
  simp only
  rw [if_neg (by rw [h1]; decide), if_neg (by rw [h2]; exact fun h => h rfl)]

/-! ## Claims about the allocator -/

/-- C1 (as stated, refuted): in `poolOlderHigher` both channels are active, not
locked and match no identity; a one-shot request preempts channel 1, of
priority 1 and older, although channel 0 has the lower priority 0.  The victim
is not the one the spec describes. -/
theorem C1_counterexample :
    (∀ s ∈ poolOlderHigher.srcList, s.isLocked = false → s.isActive = true) ∧
    (∀ s ∈ poolOlderHigher.srcList, ¬ exactMatch s 7 3) ∧
    S_AL_SrcAlloc poolOlderHigher 1000 .SRCPRI_ONESHOT 7 3 = (1, S_AL_SrcKill poolOlderHigher 1) ∧
    (chan poolOlderHigher 0).priority.toInt < (chan poolOlderHigher 1).priority.toInt ∧
    ¬ specWeakest poolOlderHigher .SRCPRI_ONESHOT
        (S_AL_SrcAlloc poolOlderHigher 1000 .SRCPRI_ONESHOT 7 3).1 := by
  decide

/-- C1 (amended): with every non-locked channel active and no exact match, the
channel `w` that `S_AL_SrcAlloc` kills and returns for a request at priority `p`
is a non-locked channel of priority below `p`; no such channel after it in
index order has a lower priority or an earlier `lastUse`; and when all such
channels have one and the same priority, `w` has the earliest `lastUse` among
them (the lowest index among equals). -/
theorem C1_alloc_victim (st : ALState) (now : Int) (p : alSrcPriority_t) (e c : Int)
    (hact : ∀ s ∈ st.srcList, s.isLocked = false → s.isActive = true)
    (hno : ∀ s ∈ st.srcList, s.isLocked = false → ¬ exactMatch s e c)
    (hw : (S_AL_SrcAlloc st now p e c).1 ≠ -1) :
    ∃ w : Nat, w < srcCount st ∧
      S_AL_SrcAlloc st now p e c = ((w : Int), S_AL_SrcKill st w) ∧
      preemptable p (chan st w) ∧
      (∀ m : Nat, w < m → m < srcCount st → preemptable p (chan st m) →
        (chan st w).priority.toInt ≤ (chan st m).priority.toInt ∧
        (chan st w).lastUse ≤ (chan st m).lastUse) ∧
      ((∀ t ∈ st.srcList, preemptable p t → t.priority = (chan st w).priority) →
        ∀ m : Nat, m < srcCount st → preemptable p (chan st m) →
          (chan st w).lastUse ≤ (chan st m).lastUse ∧
          (m < w → (chan st w).lastUse < (chan st m).lastUse)) := by
  rcases alloc_all_active st now p e c hact hno with ⟨_, h2⟩ | ⟨j, hj, hres, hwk, hp, hlater⟩
  · rw [h2] at hw; exact absurd rfl hw
  · refine ⟨j, hj, hres, hp, hlater, ?_⟩
    intro hsame m hm hmp
    have hq : ∀ t ∈ st.srcList, preemptable p t →
        t.priority.toInt = (chan st j).priority.toInt :=
      fun t ht htp => by rw [hsame t ht htp]
    rcases vars_weakest_same_pri p (chan st j).priority.toInt st.srcList 0
        { weakest_time := now } hact hq with ⟨h1, _⟩ | ⟨k, hk, hwk2, _, _, hall⟩
    · rw [hwk] at h1; simp only at h1; omega
    · have hjk : j = k := by
        rw [hwk] at hwk2
        have : ((j : Int)) = ((0 + k : Nat) : Int) := hwk2
        omega
      subst hjk
      rw [chan_natCast] at hmp ⊢
      rw [chan_natCast]
      exact hall m hm hmp

/-- C1 (amended) at work on `pool16`: all 16 channels play at one-shot
priority, a local-sound request preempts one of them. -/
theorem C1_alloc_victim_witness :
    ∃ w : Nat, w < srcCount (pool16 .SRCPRI_ONESHOT) ∧
      S_AL_SrcAlloc (pool16 .SRCPRI_ONESHOT) 500 .SRCPRI_LOCAL 99 1 =
        ((w : Int), S_AL_SrcKill (pool16 .SRCPRI_ONESHOT) w) ∧
      preemptable .SRCPRI_LOCAL (chan (pool16 .SRCPRI_ONESHOT) w) ∧
      (∀ m : Nat, w < m → m < srcCount (pool16 .SRCPRI_ONESHOT) →
        preemptable .SRCPRI_LOCAL (chan (pool16 .SRCPRI_ONESHOT) m) →
        (chan (pool16 .SRCPRI_ONESHOT) w).priority.toInt ≤
          (chan (pool16 .SRCPRI_ONESHOT) m).priority.toInt ∧
        (chan (pool16 .SRCPRI_ONESHOT) w).lastUse ≤ (chan (pool16 .SRCPRI_ONESHOT) m).lastUse) ∧
      ((∀ t ∈ (pool16 .SRCPRI_ONESHOT).srcList, preemptable .SRCPRI_LOCAL t →
          t.priority = (chan (pool16 .SRCPRI_ONESHOT) w).priority) →
        ∀ m : Nat, m < srcCount (pool16 .SRCPRI_ONESHOT) →
          preemptable .SRCPRI_LOCAL (chan (pool16 .SRCPRI_ONESHOT) m) →
          (chan (pool16 .SRCPRI_ONESHOT) w).lastUse ≤ (chan (pool16 .SRCPRI_ONESHOT) m).lastUse ∧
          (m < w → (chan (pool16 .SRCPRI_ONESHOT) w).lastUse <
            (chan (pool16 .SRCPRI_ONESHOT) m).lastUse)) :=
  C1_alloc_victim (pool16 .SRCPRI_ONESHOT) 500 .SRCPRI_LOCAL 99 1 (by decide) (by decide)
    (by decide)

/-- C2: with every non-locked channel active and no exact match,
`S_AL_SrcAlloc` at priority `p` returns a channel (not -1) exactly when some
non-locked channel has a priority below `p`; it then kills exactly that one
channel, which was playing and is free afterwards, and every other channel is
as before. -/
theorem C2_alloc_preempts_iff (st : ALState) (now : Int) (p : alSrcPriority_t) (e c : Int)
    (hact : ∀ s ∈ st.srcList, s.isLocked = false → s.isActive = true)
    (hno : ∀ s ∈ st.srcList, s.isLocked = false → ¬ exactMatch s e c) :
    ((S_AL_SrcAlloc st now p e c).1 ≠ -1 ↔
      ∃ s ∈ st.srcList, s.isLocked = false ∧ s.priority.toInt < p.toInt) ∧
    ((S_AL_SrcAlloc st now p e c).1 ≠ -1 →
      ∃ w : Nat, w < srcCount st ∧ (S_AL_SrcAlloc st now p e c).1 = (w : Int) ∧
        (S_AL_SrcAlloc st now p e c).2 = S_AL_SrcKill st w ∧
        (chan st w).isActive = true ∧
        isFree (chan (S_AL_SrcAlloc st now p e c).2 w) ∧
        ∀ j : Int, j ≠ (w : Int) → chan (S_AL_SrcAlloc st now p e c).2 j = chan st j) := by
  rcases alloc_all_active st now p e c hact hno with ⟨h1, h2⟩ | ⟨j, hj, hres, _, hp, _⟩
  · rw [h2]
    refine ⟨⟨fun h => absurd rfl h, ?_⟩, fun h => absurd rfl h⟩
    rintro ⟨s, hs, hl, hlt⟩
    exact absurd ⟨hl, hlt⟩ (h1 s hs)
  · rw [hres]
    have hne : ((j : Int)) ≠ -1 := by omega
    refine ⟨⟨fun _ => ⟨chan st j, chan_mem st j hj, hp.1, hp.2⟩, fun _ => hne⟩, fun _ => ?_⟩
    refine ⟨j, hj, rfl, rfl, hact _ (chan_mem st j hj) hp.1, ?_, ?_⟩
    · exact kill_chan_self st j (by omega) (by simpa using hj) hp.1
    · intro k hk
      exact kill_chan_ne st j k (fun h => hk h.symm)

/-- C2 on the scenario of the spec: 16 channels all playing at one-shot
priority, a request one class higher preempts exactly one of them. -/
theorem C2_alloc_preempts_iff_witness :
    ((S_AL_SrcAlloc (pool16 .SRCPRI_ONESHOT) 500 .SRCPRI_LOCAL 99 1).1 ≠ -1 ↔
      ∃ s ∈ (pool16 .SRCPRI_ONESHOT).srcList,
        s.isLocked = false ∧ s.priority.toInt < alSrcPriority_t.SRCPRI_LOCAL.toInt) ∧
    ((S_AL_SrcAlloc (pool16 .SRCPRI_ONESHOT) 500 .SRCPRI_LOCAL 99 1).1 ≠ -1 →
      ∃ w : Nat, w < srcCount (pool16 .SRCPRI_ONESHOT) ∧
        (S_AL_SrcAlloc (pool16 .SRCPRI_ONESHOT) 500 .SRCPRI_LOCAL 99 1).1 = (w : Int) ∧
        (S_AL_SrcAlloc (pool16 .SRCPRI_ONESHOT) 500 .SRCPRI_LOCAL 99 1).2 =
          S_AL_SrcKill (pool16 .SRCPRI_ONESHOT) w ∧
        (chan (pool16 .SRCPRI_ONESHOT) w).isActive = true ∧
        isFree (chan (S_AL_SrcAlloc (pool16 .SRCPRI_ONESHOT) 500 .SRCPRI_LOCAL 99 1).2 w) ∧
        ∀ j : Int, j ≠ (w : Int) →
          chan (S_AL_SrcAlloc (pool16 .SRCPRI_ONESHOT) 500 .SRCPRI_LOCAL 99 1).2 j =
            chan (pool16 .SRCPRI_ONESHOT) j) ∧
    (S_AL_SrcAlloc (pool16 .SRCPRI_ONESHOT) 500 .SRCPRI_LOCAL 99 1).1 = 0 :=
  ⟨(C2_alloc_preempts_iff (pool16 .SRCPRI_ONESHOT) 500 .SRCPRI_LOCAL 99 1
      (by decide) (by decide)).1,
   (C2_alloc_preempts_iff (pool16 .SRCPRI_ONESHOT) 500 .SRCPRI_LOCAL 99 1
      (by decide) (by decide)).2,
   by decide⟩

/-- C3: when no non-locked channel is free, none has a priority below the
requested one and none matches the identity, `S_AL_SrcAlloc` returns -1 and
hands back the tables exactly as they were. -/
theorem C3_alloc_none (st : ALState) (now : Int) (p : alSrcPriority_t) (e c : Int)
    (hact : ∀ s ∈ st.srcList, s.isLocked = false → s.isActive = true)
    (hpri : ∀ s ∈ st.srcList, s.isLocked = false → ¬ s.priority.toInt < p.toInt)
    (hno : ∀ s ∈ st.srcList, s.isLocked = false → ¬ exactMatch s e c) :
    S_AL_SrcAlloc st now p e c = (-1, st) := by
  rcases alloc_all_active st now p e c hact hno with ⟨_, h2⟩ | ⟨j, hj, _, _, hp, _⟩
  · exact h2
  · exact absurd hp.2 (hpri _ (chan_mem st j hj) hp.1)

/-- C3 on the scenario of the spec: 16 channels all playing at one-shot
priority, a request one class lower is dropped and all 16 channels stay untouched. -/
theorem C3_alloc_none_witness :
    S_AL_SrcAlloc (pool16 .SRCPRI_ONESHOT) 500 .SRCPRI_ENTITY 99 1 =
      (-1, pool16 .SRCPRI_ONESHOT) :=
  C3_alloc_none (pool16 .SRCPRI_ONESHOT) 500 .SRCPRI_ENTITY 99 1
    (by decide) (by decide) (by decide)

/-- C5: when no non-locked channel matches the identity and some non-locked
channel is inactive, `S_AL_SrcAlloc` returns the lowest-index non-locked
inactive channel and hands back the tables exactly as they were, whatever
channels of lower priority are playing. -/
theorem C5_alloc_prefers_free (st : ALState) (now : Int) (p : alSrcPriority_t) (e c : Int)
    (hno : ∀ s ∈ st.srcList, s.isLocked = false → ¬ exactMatch s e c)
    (hfree : ∃ s ∈ st.srcList, s.isLocked = false ∧ s.isActive = false) :
    ∃ k : Nat, k < srcCount st ∧ S_AL_SrcAlloc st now p e c = ((k : Int), st) ∧
      (chan st k).isLocked = false ∧ (chan st k).isActive = false ∧
      ∀ m : Nat, m < k → (chan st m).isLocked = true ∨ (chan st m).isActive = true := by
  obtain ⟨k, hk, ⟨hkl, hka⟩, hmin⟩ :=
    exists_first (fun s : src_t => s.isLocked = false ∧ s.isActive = false) st.srcList hfree
  have hempty := vars_empty_first p st.srcList 0 { weakest_time := now } k rfl hk hkl hka hmin
  refine ⟨k, hk, ?_, by rw [chan_natCast]; exact hkl, by rw [chan_natCast]; exact hka, ?_⟩
  · rw [alloc_no_match st now p e c hno, hempty]
    have : (((0 + k : Nat) : Int)) ≠ -1 := by omega
    simp [this]
  · intro m hm
    rw [chan_natCast]
    have := hmin m hm
    by_cases hl : (st.srcList.getD m default).isLocked = true
    · left; exact hl
    · right
      cases hact : (st.srcList.getD m default).isActive
      · exact absurd ⟨by simpa using hl, hact⟩ this
      · rfl

/-- C5 on `poolMixed`: channel 0 is locked, channel 1 plays, channel 2 is free
and is handed out, although the ambient loop on channel 3 could be preempted. -/
theorem C5_alloc_prefers_free_witness :
    ∃ k : Nat, k < srcCount poolMixed ∧
      S_AL_SrcAlloc poolMixed 500 .SRCPRI_LOCAL 9 1 = ((k : Int), poolMixed) ∧
      (chan poolMixed k).isLocked = false ∧ (chan poolMixed k).isActive = false ∧
      ∀ m : Nat, m < k → (chan poolMixed m).isLocked = true ∨ (chan poolMixed m).isActive = true :=
  C5_alloc_prefers_free poolMixed 500 .SRCPRI_LOCAL 9 1 (by decide) (by decide)

/-- C6: a locked channel is out of reach.  For a channel `i` whose locked flag
is set, `S_AL_SrcAlloc` never returns `i` whatever its arguments, and
`S_AL_SrcAlloc`, `S_AL_SrcKill` on any index (`i` included) and the sweep
`S_AL_SrcUpdate` leave every field of channel `i` as it was. -/
theorem C6_locked_inviolable (st : ALState) (i : Int) (h : (chan st i).isLocked = true) :
    (∀ (now : Int) (p : alSrcPriority_t) (e c : Int),
      (S_AL_SrcAlloc st now p e c).1 ≠ i ∧ chan (S_AL_SrcAlloc st now p e c).2 i = chan st i) ∧
    (∀ src : Int, chan (S_AL_SrcKill st src) i = chan st i) ∧
    (∀ stopped : Nat → Bool, chan (S_AL_SrcUpdate st stopped) i = chan st i) := by
  refine ⟨?_, fun src => kill_chan_locked st src i h, fun stopped => ?_⟩
  · intro now p e c
    rcases alloc_result st now p e c with h1 | ⟨k, _, hl, h2, _⟩
    · rw [h1]
      refine ⟨?_, rfl⟩
      intro hi
      have hi2 : (-1 : Int) = i := hi
      have hd : chan st i = default := by
        unfold chan
        exact readAt_out_of_range _ _ (Or.inl (by omega))
      rw [hd] at h
      exact absurd h (by decide)
    · have hne : ((k : Int)) ≠ i := by
        intro hki; rw [hki] at hl; rw [hl] at h; exact absurd h (by decide)
      rcases h2 with h2 | h2
      · rw [h2]; exact ⟨hne, rfl⟩
      · rw [h2]; exact ⟨hne, kill_chan_locked st k i h⟩
  · exact update_loop_chan_locked stopped i _ 0 st h

/-- C6 on `poolMixed`, whose channel 0 is locked. -/
theorem C6_locked_inviolable_witness :
    (∀ (now : Int) (p : alSrcPriority_t) (e c : Int),
      (S_AL_SrcAlloc poolMixed now p e c).1 ≠ 0 ∧
        chan (S_AL_SrcAlloc poolMixed now p e c).2 0 = chan poolMixed 0) ∧
    (∀ src : Int, chan (S_AL_SrcKill poolMixed src) 0 = chan poolMixed 0) ∧
    (∀ stopped : Nat → Bool, chan (S_AL_SrcUpdate poolMixed stopped) 0 = chan poolMixed 0) :=
  C6_locked_inviolable poolMixed 0 (by decide)

/-- C4: when a play request `S_AL_StartSound` for the identity `(e, c)` with
`c ≠ 0` succeeds on channel `i`, an `S_AL_SrcAlloc` for the same `(e, c)` that
comes right after it, at any priority and time, kills channel `i` (which was
playing and not locked, and is free afterwards) and returns exactly `i`. -/
theorem C4_identity_reuse (st st1 : ALState) (env : Env) (originNull : Bool) (e c : Int)
    (sfx : sfxHandle_t) (i : Int) (hc : c ≠ 0)
    (h : S_AL_StartSound st env originNull e c sfx = .ok (i, st1)) (hi : i ≠ -1)
    (now : Int) (p : alSrcPriority_t) :
    S_AL_SrcAlloc st1 now p e c = (i, S_AL_SrcKill st1 i) ∧
    (chan st1 i).isActive = true ∧ (chan st1 i).isLocked = false ∧
    isFree (chan (S_AL_SrcKill st1 i) i) := by
  obtain ⟨k, hik, hk, hlen, he, hch, hl, ha, hother, hbefore⟩ :=
    startSound_ok st st1 env originNull e c sfx i h hi
  subst hik
  have hk1 : k < st1.srcList.length := by rw [hlen]; exact hk
  refine ⟨?_, ha, hl, kill_chan_self st1 k (by omega) (by simpa using hk1) hl⟩
  apply alloc_exact_match st1 now p e c k hk1 hl ⟨he, hch, hc⟩
  intro m hm
  have hmk : (m : Int) ≠ (k : Int) := by omega
  rw [hother m hmk]
  exact hbefore m hm

/-- C4 on `poolMixed`: the one-shot for entity 5 on logical channel 3 lands on
the free channel 2; the next request for (5, 3) kills and returns channel 2. -/
theorem C4_identity_reuse_witness :
    S_AL_SrcAlloc poolPlayed 900 .SRCPRI_AMBIENT 5 3 = (2, S_AL_SrcKill poolPlayed 2) ∧
    (chan poolPlayed 2).isActive = true ∧ (chan poolPlayed 2).isLocked = false ∧
    isFree (chan (S_AL_SrcKill poolPlayed 2) 2) :=
  C4_identity_reuse poolMixed poolPlayed envLoads false 5 3 2 2 (by decide) (by rfl) (by decide)
    900 .SRCPRI_AMBIENT

/-! ## Claims about looping sounds -/

/-- C10: let entity `e` have the looping channel `c` attached.  A frame that
runs `S_AL_ClearLoopingSounds` and then the sweep `S_AL_SrcUpdate` leaves
channel `c` free and `e` without an attached loop.  If `S_AL_SrcLoop` is called
for `e` with the sound of channel `c` in between and the playback library does
not report channel `c` as stopped, then after the sweep channel `c` is still
active, looping and owned by `e`, and `e` still has channel `c` attached. -/
theorem C10_loop_liveness (st : ALState) (e : Int) (c : Nat) (stopped : Nat → Bool)
    (hatt : attachedLoop st e c) :
    (isFree (chan (S_AL_SrcUpdate (S_AL_ClearLoopingSounds st) stopped) c) ∧
      (ent (S_AL_SrcUpdate (S_AL_ClearLoopingSounds st) stopped) e).has_sfx = false) ∧
    (stopped c = false → ∀ (env : Env) (p : alSrcPriority_t),
      ∃ st2, S_AL_SrcLoop (S_AL_ClearLoopingSounds st) env p (chan st c).sfx e = .ok st2 ∧
        (chan (S_AL_SrcUpdate st2 stopped) c).isActive = true ∧
        (chan (S_AL_SrcUpdate st2 stopped) c).isLooping = true ∧
        (chan (S_AL_SrcUpdate st2 stopped) c).entity = e ∧
        (ent (S_AL_SrcUpdate st2 stopped) e).has_sfx = true ∧
        (ent (S_AL_SrcUpdate st2 stopped) e).sfx = (c : Int)) := by
  obtain ⟨hhas, hsfx, hc, ha, hloop, hl, he, huniq⟩ := hatt
  obtain ⟨he0, he1⟩ := ent_in_range st e hhas
  have hcm : chan st c ∈ st.srcList := chan_mem st c hc
  obtain ⟨c1, c2, _, c4⟩ := clear_fold_spec st.srcList e st.entityList
  have htouched : (ent (S_AL_ClearLoopingSounds st) e).touched = false :=
    c4 ⟨chan st c, hcm, hloop, he, by omega⟩
  have hchan : ∀ j : Int, chan (S_AL_ClearLoopingSounds st) j = chan st j := fun _ => rfl
  constructor
  · apply update_loop_kills stopped e c (srcCount (S_AL_ClearLoopingSounds st)) 0
    · intro _
      exact ⟨by simpa [srcCount, S_AL_ClearLoopingSounds] using hc, hc, hl, ha, hloop, he, htouched⟩
    · intro h; omega
  · intro hs env p
    have hhas1 : (ent (S_AL_ClearLoopingSounds st) e).has_sfx = true := c1.trans hhas
    have hsfx1 : (ent (S_AL_ClearLoopingSounds st) e).sfx = (c : Int) := c2.trans hsfx
    have hsame : (chan (S_AL_ClearLoopingSounds st) (ent (S_AL_ClearLoopingSounds st) e).sfx).sfx =
        (chan st c).sfx := by rw [hsfx1, hchan]
    refine ⟨_, srcLoop_same_sound _ env p _ e hhas1 hsame, ?_⟩
    have hlen : e.toNat < (S_AL_ClearLoopingSounds st).entityList.length := by
      have : ∀ (l : List src_t) (ents : List sentity_t),
          (l.foldl S_AL_ClearLoopingSounds_step ents).length = ents.length := by
        intro l
        induction l with
        | nil => intro ents; rfl
        | cons a rest ih =>
          intro ents
          simp only [List.foldl_cons]
          rw [ih]
          unfold S_AL_ClearLoopingSounds_step
          split_ifs
          · exact length_writeAt _ _ _
          · rfl
      show e.toNat < (st.srcList.foldl S_AL_ClearLoopingSounds_step st.entityList).length
      rw [this]; exact he1
    have hent2 : ent { S_AL_ClearLoopingSounds st with
          entityList := writeAt (S_AL_ClearLoopingSounds st).entityList e
            { readAt (S_AL_ClearLoopingSounds st).entityList e with touched := true } } e =
        { ent (S_AL_ClearLoopingSounds st) e with touched := true } := by
      unfold ent
      exact readAt_writeAt_self _ _ _ he0 hlen
    have hkeep := update_loop_keeps stopped e c hs
      (srcCount { S_AL_ClearLoopingSounds st with
          entityList := writeAt (S_AL_ClearLoopingSounds st).entityList e
            { readAt (S_AL_ClearLoopingSounds st).entityList e with touched := true } }) 0
      { S_AL_ClearLoopingSounds st with
          entityList := writeAt (S_AL_ClearLoopingSounds st).entityList e
            { readAt (S_AL_ClearLoopingSounds st).entityList e with touched := true } }
      hloop he (by rw [hent2]) (by
        intro j hj hjl
        by_cases hjr : j < srcCount st
        · exact huniq j hjr hj hjl
        · have hd : chan st j = default := by
            unfold chan
            exact readAt_out_of_range _ _ (Or.inr (by simpa [srcCount] using hjr))
          have hjl2 : (chan st j).isLooping = true := hjl
          rw [hd] at hjl2
          exact absurd hjl2 (by decide))
    unfold S_AL_SrcUpdate
    rw [hkeep.1, hkeep.2, hent2]
    exact ⟨ha, hloop, he, hhas1, hsfx1⟩

/-- C10 on `poolMixed`, where entity 4 has the looping channel 3 attached. -/
theorem C10_loop_liveness_witness :
    (isFree (chan (S_AL_SrcUpdate (S_AL_ClearLoopingSounds poolMixed) (fun _ => false)) 3) ∧
      (ent (S_AL_SrcUpdate (S_AL_ClearLoopingSounds poolMixed) (fun _ => false)) 4).has_sfx
        = false) ∧
    ((fun _ : Nat => false) 3 = false → ∀ (env : Env) (p : alSrcPriority_t),
      ∃ st2, S_AL_SrcLoop (S_AL_ClearLoopingSounds poolMixed) env p (chan poolMixed 3).sfx 4
          = .ok st2 ∧
        (chan (S_AL_SrcUpdate st2 (fun _ => false)) 3).isActive = true ∧
        (chan (S_AL_SrcUpdate st2 (fun _ => false)) 3).isLooping = true ∧
        (chan (S_AL_SrcUpdate st2 (fun _ => false)) 3).entity = 4 ∧
        (ent (S_AL_SrcUpdate st2 (fun _ => false)) 4).has_sfx = true ∧
        (ent (S_AL_SrcUpdate st2 (fun _ => false)) 4).sfx = ((3 : Nat) : Int)) :=
  C10_loop_liveness poolMixed 4 3 (fun _ => false) (by decide)

/-! ## Claims about the buffer cache -/

theorem firstIdx_none {α : Type} (p : α → Bool) (l : List α) :
    firstIdx p l = none ↔ ∀ a ∈ l, p a = false := by
  induction l with
  | nil => simp [firstIdx]
  | cons a rest ih =>
    by_cases ha : p a = true
    · simp [firstIdx, ha]
    · have ha0 : p a = false := by simpa using ha
      simp [firstIdx, ha0, ih]

theorem firstIdx_some {α : Type} (p : α → Bool) (d : α) (l : List α) :
    ∀ i, firstIdx p l = some i →
      i < l.length ∧ p (l.getD i d) = true ∧ ∀ m, m < i → p (l.getD m d) = false := by
  induction l with
  | nil => intro i h; simp [firstIdx] at h
  | cons a rest ih =>
    intro i h
    by_cases ha : p a = true
    · simp only [firstIdx, ha, if_true, Option.some.injEq] at h
      subst h
      exact ⟨by simp, by simpa using ha, fun m hm => by omega⟩
    · have ha0 : p a = false := by simpa using ha
      simp only [firstIdx, ha0, Bool.false_eq_true, if_false, Option.map_eq_some'] at h
      obtain ⟨j, hj, hji⟩ := h
      subst hji
      obtain ⟨h1, h2, h3⟩ := ih j hj
      refine ⟨by simp [h1], by simpa using h2, ?_⟩
      intro m hm
      cases m with
      | zero => simpa using ha0
      | succ m => simpa using h3 m (by omega)

theorem firstIdx_of_first {α : Type} (p : α → Bool) (d : α) (l : List α) :
    ∀ i, i < l.length → p (l.getD i d) = true → (∀ m, m < i → p (l.getD m d) = false) →
      firstIdx p l = some i := by
  induction l with
  | nil => intro i hi; simp at hi
  | cons a rest ih =>
    intro i hi hp hmin
    cases i with
    | zero =>
      have ha : p a = true := by simpa using hp
      simp [firstIdx, ha]
    | succ i =>
      have ha0 : p a = false := by simpa using hmin 0 (by omega)
      have := ih i (by simpa using hi) (by simpa using hp)
        (fun m hm => by simpa using hmin (m + 1) (by omega))
      simp [firstIdx, ha0, this]

theorem getD_set_ne {α : Type} (l : List α) (i j : Nat) (a d : α) (h : i ≠ j) :
    (l.set i a).getD j d = l.getD j d := by
  simp [List.getD_eq_getElem?_getD, List.getElem?_set_ne h]

theorem getD_set_self {α : Type} (l : List α) (i : Nat) (a d : α) (h : i < l.length) :
    (l.set i a).getD i d = a := by
  simp [List.getD_eq_getElem?_getD, h]

theorem getD_out_of_range {α : Type} (l : List α) (i : Nat) (d : α) (h : l.length ≤ i) :
    l.getD i d = d := by
  simp [List.getD_eq_getElem?_getD, List.getElem?_eq_none h]

/-- What `S_AL_BufferFind` returns: the first slot whose name compares equal to
the path, untouched; or, when there is none, the first free slot, claimed. -/
theorem find_cases (cmp : List Char → List Char → Int) (st : ALState) (P : List Char)
    (h : sfxHandle_t) (st1 : ALState) (hf : S_AL_BufferFind cmp st P = .ok (h, st1)) :
    (firstIdx (fun e => decide (cmp e.filename P = 0)) st.knownSfx = some h ∧ st1 = st) ∨
    (firstIdx (fun e => decide (cmp e.filename P = 0)) st.knownSfx = none ∧
      firstIdx (fun e => decide (e.filename = [])) st.knownSfx = some h ∧
      st1 = { st with knownSfx := st.knownSfx.set h (strcpySlot P) }) := by
  unfold S_AL_BufferFind at hf
  cases hs : firstIdx (fun e => decide (cmp e.filename P = 0)) st.knownSfx with
  | some i =>
    rw [hs] at hf
    simp only [Except.ok.injEq, Prod.mk.injEq] at hf
    left; exact ⟨by rw [hf.1], hf.2.symm⟩
  | none =>
    rw [hs] at hf
    right
    unfold S_AL_BufferFindFree at hf
    cases hfree : firstIdx (fun e => decide (e.filename = [])) st.knownSfx with
    | none => rw [hfree] at hf; simp at hf
    | some f =>
      rw [hfree] at hf
      simp only [Except.ok.injEq, Prod.mk.injEq] at hf
      obtain ⟨h1, h2⟩ := hf
      subst h1
      exact ⟨rfl, rfl, h2.symm⟩

theorem find_succeeds (cmp : List Char → List Char → Int) (st : ALState) (P : List Char)
    (hfree : ∃ e ∈ st.knownSfx, e.filename = []) :
    ∃ h st1, S_AL_BufferFind cmp st P = .ok (h, st1) := by
  unfold S_AL_BufferFind
  cases hs : firstIdx (fun e => decide (cmp e.filename P = 0)) st.knownSfx with
  | some i => exact ⟨i, st, rfl⟩
  | none =>
    unfold S_AL_BufferFindFree
    cases hf : firstIdx (fun e => decide (e.filename = [])) st.knownSfx with
    | none =>
      obtain ⟨e, he, hemp⟩ := hfree
      have := (firstIdx_none _ _).mp hf e he
      simp [hemp] at this
    | some f => exact ⟨f, _, rfl⟩

/-- C7: in a cache with a free slot, resolving a path twice in a row with
`S_AL_BufferFind` returns the same handle both times and the second call hands
back the tables as the first one left them.  (`Q_stricmp` has to find a string
equal to itself.) -/
theorem C7_find_twice (Q_stricmp : List Char → List Char → Int)
    (hrefl : ∀ a, Q_stricmp a a = 0) (st : ALState) (P : List Char)
    (hfree : ∃ e ∈ st.knownSfx, e.filename = []) :
    ∃ h st1, S_AL_BufferFind Q_stricmp st P = .ok (h, st1) ∧
      S_AL_BufferFind Q_stricmp st1 P = .ok (h, st1) := by
  obtain ⟨h, st1, hf⟩ := find_succeeds Q_stricmp st P hfree
  refine ⟨h, st1, hf, ?_⟩
  rcases find_cases Q_stricmp st P h st1 hf with ⟨hs, hst⟩ | ⟨hnone, hfr, hst⟩
  · subst hst
    unfold S_AL_BufferFind
    rw [hs]
  · obtain ⟨hlen, _, _⟩ := firstIdx_some _ default _ h hfr
    have hnew : firstIdx (fun e => decide (Q_stricmp e.filename P = 0)) st1.knownSfx = some h := by
      apply firstIdx_of_first _ default
      · rw [hst]; simpa using hlen
      · rw [hst]
        simp only
        rw [getD_set_self _ _ _ _ hlen]
        simp [hrefl, strcpySlot]
      · intro m hm
        rw [hst]
        simp only
        rw [getD_set_ne _ _ _ _ _ (by omega)]
        by_cases hml : m < st.knownSfx.length
        · exact (firstIdx_none _ _).mp hnone _ (getD_mem _ _ _ hml)
        · omega
    unfold S_AL_BufferFind
    rw [hnew]

/-- C7 on `poolMixed`, whose slot 3 is free, for a path not yet in the cache. -/
theorem C7_find_twice_witness :
    ∃ h st1, S_AL_BufferFind exactCompare poolMixed "sound/misc/menu1.wav".toList = .ok (h, st1) ∧
      S_AL_BufferFind exactCompare st1 "sound/misc/menu1.wav".toList = .ok (h, st1) :=
  C7_find_twice exactCompare (by intro a; simp [exactCompare]) poolMixed
    "sound/misc/menu1.wav".toList (by decide)

/-- C8 (as stated, refuted): in the cache right after `S_AL_BufferInit`, with
two slots free, the empty path and a path never seen before are distinct
strings, yet `S_AL_BufferFind` returns handle 1 for both: the empty path
"matches" the first free slot without claiming it, and the new path then
claims that slot. -/
theorem C8_counterexample :
    S_AL_BufferInit exactCompare cacheZero 10 envLoads.load = .ok cacheFresh ∧
    ([] : List Char) ≠ "sound/misc/menu1.wav".toList ∧
    S_AL_BufferFind exactCompare cacheFresh [] = .ok (1, cacheFresh) ∧
    (∃ st2, S_AL_BufferFind exactCompare cacheFresh "sound/misc/menu1.wav".toList = .ok (1, st2) ∧
      ∃ e ∈ st2.knownSfx, e.filename = []) :=
  ⟨rfl, by decide, rfl, _, rfl, by decide⟩

/-- C8 (amended): let `Q_stricmp` compare as an equality of strings, let `P`
differ from the empty path and `Q` differ from `P` under it.  In every cache
state, when `S_AL_BufferFind` resolves `P` and then `Q` (both calls returning),
the two handles differ. -/
theorem C8_distinct_handles (Q_stricmp : List Char → List Char → Int)
    (hcmp : comparesAsEquality Q_stricmp) (st st1 st2 : ALState) (P Q : List Char)
    (h1 h2 : sfxHandle_t) (hP : Q_stricmp [] P ≠ 0) (hPQ : Q_stricmp P Q ≠ 0)
    (f1 : S_AL_BufferFind Q_stricmp st P = .ok (h1, st1))
    (f2 : S_AL_BufferFind Q_stricmp st1 Q = .ok (h2, st2)) : h1 ≠ h2 := by
  obtain ⟨hrefl, hsymm, htrans⟩ := hcmp
  have hE : Q_stricmp (st1.knownSfx.getD h1 default).filename P = 0 := by
    rcases find_cases Q_stricmp st P h1 st1 f1 with ⟨hs, hst⟩ | ⟨_, hfr, hst⟩
    · subst hst
      simpa using (firstIdx_some _ default _ h1 hs).2.1
    · obtain ⟨hlen, _, _⟩ := firstIdx_some _ default _ h1 hfr
      rw [hst]
      simp only
      rw [getD_set_self _ _ _ _ hlen]
      exact hrefl P
  intro heq
  subst heq
  rcases find_cases Q_stricmp st1 Q h1 st2 f2 with ⟨hs, _⟩ | ⟨_, hfr, _⟩
  · have hQ : Q_stricmp (st1.knownSfx.getD h1 default).filename Q = 0 := by
      simpa using (firstIdx_some _ default _ h1 hs).2.1
    exact hPQ (htrans _ _ _ (hsymm _ _ hE) hQ)
  · have hemp : (st1.knownSfx.getD h1 default).filename = [] := by
      simpa using (firstIdx_some _ default _ h1 hfr).2.1
    rw [hemp] at hE
    exact hP hE

/-- C8 (amended) on the cache right after `S_AL_BufferInit`: two new paths
get the handles 1 and 2. -/
theorem C8_distinct_handles_witness :
    S_AL_BufferFind exactCompare cacheFresh "sound/misc/menu1.wav".toList = .ok (1, cacheOne) ∧
    S_AL_BufferFind exactCompare cacheOne "sound/misc/menu2.wav".toList = .ok (2, cacheTwo) ∧
    (1 : sfxHandle_t) ≠ 2 :=
  ⟨rfl, rfl, C8_distinct_handles exactCompare
    ⟨by intro a; simp [exactCompare],
     by intro a b; simp only [exactCompare]; split_ifs with h <;> simp_all,
     by intro a b c; simp only [exactCompare]; split_ifs <;> simp_all⟩
    cacheFresh cacheOne cacheTwo
    "sound/misc/menu1.wav".toList "sound/misc/menu2.wav".toList 1 2
    (by decide) (by decide) rfl rfl⟩

theorem count_codecLoad_append (log : List Event) (sfx h : sfxHandle_t) (hne : sfx ≠ h) :
    (log ++ [Event.codecLoad sfx]).count (Event.codecLoad h) = log.count (Event.codecLoad h) := by
  rw [List.count_append]
  have : ([Event.codecLoad sfx] : List Event).count (Event.codecLoad h) = 0 := by
    rw [List.count_eq_zero]
    intro hmem
    simp only [List.mem_singleton, Event.codecLoad.injEq] at hmem
    exact hne hmem.symm
  omega

theorem onFallback_set_ne (h : sfxHandle_t) (n : Nat) (st : ALState) (sfx : sfxHandle_t)
    (e : alSfx_t) (hne : sfx ≠ h) (hJ : onFallback h n st) :
    onFallback h n { st with knownSfx := st.knownSfx.set sfx e } := by
  obtain ⟨h1, h2, h3⟩ := hJ
  refine ⟨?_, ?_, h3⟩
  · simp only; rw [getD_set_ne _ _ _ _ _ hne]; exact h1
  · simp only; rw [getD_set_ne _ _ _ _ _ hne]; exact h2

theorem onFallback_set_used (h : sfxHandle_t) (n : Nat) (st : ALState) (sfx : sfxHandle_t)
    (now : Int) (hJ : onFallback h n st) :
    onFallback h n
      { st with knownSfx := st.knownSfx.set sfx { st.knownSfx.getD sfx default with used := now } } := by
  by_cases hne : sfx = h
  · subst hne
    obtain ⟨h1, h2, h3⟩ := hJ
    by_cases hr : sfx < st.knownSfx.length
    · refine ⟨?_, ?_, h3⟩
      · simp only; rw [getD_set_self _ _ _ _ hr]; exact h1
      · simp only; rw [getD_set_self _ _ _ _ hr]; exact h2
    · have hle : st.knownSfx.length ≤ sfx := Nat.le_of_not_lt hr
      refine ⟨?_, ?_, h3⟩
      · simp only; rw [List.set_eq_of_length_le hle]; exact h1
      · simp only; rw [List.set_eq_of_length_le hle]; exact h2
  · exact onFallback_set_ne h n st sfx _ hne hJ

theorem useDefault_onFallback (h : sfxHandle_t) (n : Nat) (st : ALState) (sfx : sfxHandle_t)
    (hne : sfx ≠ h) (hJ : onFallback h n st) :
    onFallback h n (finalState id (S_AL_BufferUseDefault st sfx)) := by
  unfold S_AL_BufferUseDefault
  split_ifs
  · exact hJ
  · exact onFallback_set_ne h n st sfx _ hne hJ

theorem loadTouched_onFallback (h : sfxHandle_t) (n : Nat) (st : ALState) (env : LoadEnv)
    (sfx : sfxHandle_t) (hne : sfx ≠ h) (hJ : onFallback h n st) :
    onFallback h n (loadTouched st env sfx) := by
  obtain ⟨h1, h2, h3⟩ := hJ
  have hcount : decoderRuns { st with log := st.log ++ [Event.codecLoad sfx] } h = n := by
    unfold decoderRuns at h3 ⊢
    simp only
    rw [count_codecLoad_append _ _ _ hne]; exact h3
  unfold loadTouched
  cases env.codec with
  | none => exact ⟨h1, h2, hcount⟩
  | some info =>
    refine ⟨?_, ?_, hcount⟩
    · simp only; rw [getD_set_ne _ _ _ _ _ hne]; exact h1
    · simp only; rw [getD_set_ne _ _ _ _ _ hne]; exact h2

theorem load_onFallback (h : sfxHandle_t) (n : Nat) (st : ALState) (env : LoadEnv)
    (sfx : sfxHandle_t) (hJ : onFallback h n st) :
    onFallback h n (finalState id (S_AL_BufferLoad st env sfx)) := by
  by_cases hs : loadSkips (st.knownSfx.getD sfx default)
  · rw [load_of_skip st env sfx hs]; exact hJ
  · have hne : sfx ≠ h := by
      intro heq; subst heq
      exact hs (Or.inr (Or.inr (Or.inr hJ.1)))
    have hT := loadTouched_onFallback h n st env sfx hne hJ
    by_cases hf : loadFails env
    · rw [load_of_fail st env sfx hs hf]
      exact useDefault_onFallback h n _ sfx hne hT
    · rw [load_of_success st env sfx hs hf]
      exact onFallback_set_ne h n _ sfx _ hne hT

theorem use_onFallback (h : sfxHandle_t) (n : Nat) (st : ALState) (now : Int) (env : LoadEnv)
    (sfx : sfxHandle_t) (hJ : onFallback h n st) :
    onFallback h n (finalState id (S_AL_BufferUse st now env sfx)) := by
  unfold S_AL_BufferUse
  simp only
  split_ifs with h1 h2
  · exact hJ
  · have hL := load_onFallback h n st env sfx hJ
    cases hl : S_AL_BufferLoad st env sfx with
    | error x => rw [hl] at hL; exact hL
    | ok st1 =>
      rw [hl] at hL
      exact onFallback_set_used h n st1 sfx now hL
  · exact onFallback_set_used h n st sfx now hJ

theorem find_onFallback (cmp : List Char → List Char → Int) (h : sfxHandle_t) (n : Nat)
    (st : ALState) (P : List Char) (hJ : onFallback h n st) :
    onFallback h n (finalState Prod.snd (S_AL_BufferFind cmp st P)) := by
  unfold S_AL_BufferFind
  cases hs : firstIdx (fun e => decide (cmp e.filename P = 0)) st.knownSfx with
  | some i => exact hJ
  | none =>
    unfold S_AL_BufferFindFree
    cases hf : firstIdx (fun e => decide (e.filename = [])) st.knownSfx with
    | none => exact hJ
    | some f =>
      have hemp : (st.knownSfx.getD f default).filename = [] := by
        simpa using (firstIdx_some _ default _ f hf).2.1
      have hne : f ≠ h := by
        intro heq; subst heq; exact hJ.2.1 hemp
      exact onFallback_set_ne h n st f _ hne hJ

theorem register_onFallback (cmp : List Char → List Char → Int) (h : sfxHandle_t) (n : Nat)
    (st : ALState) (precache now : Int) (env : LoadEnv) (sample : List Char)
    (hJ : onFallback h n st) :
    onFallback h n (finalState Prod.snd (S_AL_RegisterSound cmp st precache now env sample)) := by
  have hF := find_onFallback cmp h n st sample hJ
  unfold S_AL_RegisterSound
  cases hfind : S_AL_BufferFind cmp st sample with
  | error x => rw [hfind] at hF; exact hF
  | ok r =>
    obtain ⟨sfx, st1⟩ := r
    rw [hfind] at hF
    simp only
    split_ifs with h1
    · have hL := load_onFallback h n st1 env sfx hF
      cases hl : S_AL_BufferLoad st1 env sfx with
      | error x => rw [hl] at hL; exact hL
      | ok st2 =>
        rw [hl] at hL
        exact onFallback_set_used h n st2 sfx now hL
    · exact onFallback_set_used h n st1 sfx now hF

theorem runCall_onFallback (cmp : List Char → List Char → Int) (h : sfxHandle_t) (n : Nat)
    (st : ALState) (call : CacheCall) (hJ : onFallback h n st) :
    onFallback h n (finalState id (runCall cmp st call)) := by
  cases call with
  | use sfx now env => exact use_onFallback h n st now env sfx hJ
  | register sample precache now env =>
    have hR := register_onFallback cmp h n st precache now env sample hJ
    simp only [runCall]
    cases hr : S_AL_RegisterSound cmp st precache now env sample with
    | error x => rw [hr] at hR; simpa [finalState] using hR
    | ok r => rw [hr] at hR; simpa [finalState] using hR

theorem runCalls_onFallback (cmp : List Char → List Char → Int) (h : sfxHandle_t) (n : Nat)
    (calls : List CacheCall) :
    ∀ st : ALState, onFallback h n st → onFallback h n (finalState id (runCalls cmp st calls)) := by
  induction calls with
  | nil => intro st hJ; exact hJ
  | cons call rest ih =>
    intro st hJ
    have hC := runCall_onFallback cmp h n st call hJ
    unfold runCalls
    cases hr : runCall cmp st call with
    | error x => rw [hr] at hC; exact hC
    | ok st1 => rw [hr] at hC; exact ih st1 hC

/-- C9: let `h` be a handle other than the fallback whose slot is due for a
load, and let that `S_AL_BufferLoad` fail (the decoder returns no data, or the
buffer cannot be created or filled).  The load returns with the slot marked
`isDefault` and holding the buffer of the fallback slot, after one run of the
decoder for `h`; and whatever sequence of `S_AL_BufferUse` and
`S_AL_RegisterSound` calls follows, with whatever arguments and answers of the
outside world, the decoder is never run for `h` again, not even in a run that
ends in a fatal error. -/
theorem C9_fallback_idempotent (Q_stricmp : List Char → List Char → Int) (st : ALState)
    (env : LoadEnv) (h : sfxHandle_t) (hne : h ≠ st.default_sfx)
    (hdue : ¬ loadSkips (st.knownSfx.getD h default)) (hfail : loadFails env) :
    ∃ st1, S_AL_BufferLoad st env h = .ok st1 ∧
      (st1.knownSfx.getD h default).isDefault = true ∧
      (st1.knownSfx.getD h default).buffer = (st1.knownSfx.getD st1.default_sfx default).buffer ∧
      decoderRuns st1 h = decoderRuns st h + 1 ∧
      ∀ calls : List CacheCall,
        decoderRuns (finalState id (runCalls Q_stricmp st1 calls)) h = decoderRuns st1 h := by
  have hlen : h < st.knownSfx.length := by
    by_contra hcon
    have hle : st.knownSfx.length ≤ h := Nat.le_of_not_lt hcon
    apply hdue
    left
    rw [getD_out_of_range _ _ _ hle]
    rfl
  have hTlen : h < (loadTouched st env h).knownSfx.length := by
    unfold loadTouched
    cases env.codec <;> simpa using hlen
  have hTd : (loadTouched st env h).default_sfx = st.default_sfx :=
    (loadTouched_samePool st env h).2.2.1
  have hTname : ((loadTouched st env h).knownSfx.getD h default).filename =
      (st.knownSfx.getD h default).filename := by
    unfold loadTouched
    cases env.codec with
    | none => rfl
    | some info => simp only; rw [getD_set_self _ _ _ _ hlen]
  have hTruns : decoderRuns (loadTouched st env h) h = decoderRuns st h + 1 := by
    unfold loadTouched decoderRuns
    cases env.codec <;> simp [List.count_append]
  have hload := load_of_fail st env h hdue hfail
  have hud : S_AL_BufferUseDefault (loadTouched st env h) h =
      .ok { loadTouched st env h with
            knownSfx := (loadTouched st env h).knownSfx.set h
              { (loadTouched st env h).knownSfx.getD h default with
                isDefault := true,
                buffer := ((loadTouched st env h).knownSfx.getD
                  (loadTouched st env h).default_sfx default).buffer } } := by
    unfold S_AL_BufferUseDefault
    rw [if_neg (by rw [hTd]; exact hne)]
  rw [hud] at hload
  refine ⟨_, hload, ?_, ?_, hTruns, ?_⟩
  · simp only; rw [getD_set_self _ _ _ _ hTlen]
  · simp only
    rw [getD_set_self _ _ _ _ hTlen, getD_set_ne _ _ _ _ _ (by rw [hTd]; exact hne)]
  · intro calls
    have hJ : onFallback h (decoderRuns st h + 1)
        { loadTouched st env h with
            knownSfx := (loadTouched st env h).knownSfx.set h
              { (loadTouched st env h).knownSfx.getD h default with
                isDefault := true,
                buffer := ((loadTouched st env h).knownSfx.getD
                  (loadTouched st env h).default_sfx default).buffer } } := by
      refine ⟨?_, ?_, hTruns⟩
      · simp only; rw [getD_set_self _ _ _ _ hTlen]
      · simp only
        rw [getD_set_self _ _ _ _ hTlen]
        simp only
        rw [hTname]
        exact fun hh => hdue (Or.inl hh)
    have := (runCalls_onFallback Q_stricmp h _ calls _ hJ).2.2
    rw [this]
    exact hTruns.symm

/-- C9 on `cacheOne`: the sound in slot 1 has no file.  Its load falls back,
and a later run that uses it twice and registers it again with precaching on
never runs the decoder for it again. -/
theorem C9_fallback_idempotent_witness :
    ∃ st1, S_AL_BufferLoad cacheOne envNoFile 1 = .ok st1 ∧
      (st1.knownSfx.getD 1 default).isDefault = true ∧
      (st1.knownSfx.getD 1 default).buffer = (st1.knownSfx.getD st1.default_sfx default).buffer ∧
      decoderRuns st1 1 = decoderRuns cacheOne 1 + 1 ∧
      ∀ calls : List CacheCall,
        decoderRuns (finalState id (runCalls exactCompare st1 calls)) 1 = decoderRuns st1 1 :=
  C9_fallback_idempotent exactCompare cacheOne envNoFile 1 (by decide) (by decide) (by decide)

/-! ## Claims about entity positions, the full cache, kill, find and reuse -/

/-- C12 (the code at the failing input): for the entity number that equals the
length of the entity table, `MAX_GENTITIES`, `S_AL_UpdateEntityPosition` raises
no error and goes on to the store, because the guard reads
`entityNum > MAX_GENTITIES`.  Numbers below 0 and above `MAX_GENTITIES` are
rejected with `ERR_DROP` and the tables as they were. -/
theorem C12_accepts_MAX_GENTITIES (st : ALState) (origin : Int × Int × Int) :
    (∃ st1, S_AL_UpdateEntityPosition st (st.entityList.length : Int) origin = .ok st1) ∧
    (∀ n : Int, n < 0 ∨ n > (st.entityList.length : Int) →
      S_AL_UpdateEntityPosition st n origin = .error (.ERR_DROP, st)) := by
  constructor
  · refine ⟨{ st with
              entityList := writeAt st.entityList (st.entityList.length : Int)
                { readAt st.entityList (st.entityList.length : Int) with origin := origin } }, ?_⟩
    unfold S_AL_UpdateEntityPosition
    rw [if_neg (by omega)]
  · intro n hn
    unfold S_AL_UpdateEntityPosition
    rw [if_pos hn]

/-- C13 (as stated, refuted): in `cacheFull` every slot holds a path;
resolving a path that is not in the cache ends in the fatal error of
`S_AL_BufferFindFree`, for `S_AL_BufferFind` and for `S_AL_RegisterSound`
alike, and no fallback is substituted. -/
theorem C13_counterexample :
    (∀ e ∈ cacheFull.knownSfx, e.filename ≠ []) ∧
    (∀ e ∈ cacheFull.knownSfx, e.filename ≠ "sound/misc/menu3.wav".toList) ∧
    S_AL_BufferFind exactCompare cacheFull "sound/misc/menu3.wav".toList
      = .error (.ERR_FATAL, cacheFull) ∧
    S_AL_RegisterSound exactCompare cacheFull 1 50 envLoads.load "sound/misc/menu3.wav".toList
      = .error (.ERR_FATAL, cacheFull) :=
  ⟨by decide, by decide, rfl, rfl⟩

/-- C13 (amended): when every slot of the cache holds a path and none of them
compares equal to the path `P`, resolving `P` raises the fatal error
`ERR_FATAL` of `S_AL_BufferFindFree` and leaves the tables as they were, for
`S_AL_BufferFind` and for `S_AL_RegisterSound`. -/
theorem C13_full_cache_fatal (Q_stricmp : List Char → List Char → Int) (st : ALState)
    (P : List Char) (hfull : ∀ e ∈ st.knownSfx, e.filename ≠ [])
    (hnew : ∀ e ∈ st.knownSfx, Q_stricmp e.filename P ≠ 0) :
    S_AL_BufferFind Q_stricmp st P = .error (.ERR_FATAL, st) ∧
    ∀ (precache now : Int) (env : LoadEnv),
      S_AL_RegisterSound Q_stricmp st precache now env P = .error (.ERR_FATAL, st) := by
  have h1 : firstIdx (fun e => decide (Q_stricmp e.filename P = 0)) st.knownSfx = none := by
    rw [firstIdx_none]
    intro a ha
    simpa using hnew a ha
  have h2 : firstIdx (fun e : alSfx_t => decide (e.filename = [])) st.knownSfx = none := by
    rw [firstIdx_none]
    intro a ha
    simpa using hfull a ha
  have hfind : S_AL_BufferFind Q_stricmp st P = .error (.ERR_FATAL, st) := by
    unfold S_AL_BufferFind S_AL_BufferFindFree
    rw [h1, h2]
  refine ⟨hfind, ?_⟩
  intro precache now env
  unfold S_AL_RegisterSound
  rw [hfind]

/-- C13 (amended) on `cacheFull`. -/
theorem C13_full_cache_fatal_witness :
    S_AL_BufferFind exactCompare cacheFull "sound/misc/menu3.wav".toList
      = .error (.ERR_FATAL, cacheFull) ∧
    ∀ (precache now : Int) (env : LoadEnv),
      S_AL_RegisterSound exactCompare cacheFull precache now env "sound/misc/menu3.wav".toList
        = .error (.ERR_FATAL, cacheFull) :=
  C13_full_cache_fatal exactCompare cacheFull "sound/misc/menu3.wav".toList
    (by decide) (by decide)

theorem set_getD_self {α : Type} (l : List α) (n : Nat) (d : α) : l.set n (l.getD n d) = l := by
  apply List.ext_getElem?
  intro m
  by_cases hmn : n = m
  · subst hmn
    by_cases h : n < l.length
    · simp [List.getElem?_set, h, List.getD_eq_getElem?_getD]
    · simp [List.getElem?_set, h]
      omega
  · simp [List.getElem?_set_ne hmn]

theorem writeAt_readAt {α : Type} [Inhabited α] (l : List α) (i : Int) :
    writeAt l i (readAt l i) = l := by
  unfold writeAt readAt
  by_cases hi : 0 ≤ i
  · simp only [hi, if_true]; exact set_getD_self l _ _
  · simp [hi]

/-- Killing a channel that is neither active nor looping and already has the
fields of a free channel changes nothing at all. -/
theorem kill_of_free (st : ALState) (i : Int) (h : isFree (chan st i)) :
    S_AL_SrcKill st i = st := by
  obtain ⟨h1, h2, h3, h4, h5, h6, h7, h8, h9⟩ := h
  unfold chan at h1 h2 h3 h4 h5 h6 h7 h8 h9
  have hrec : { readAt st.srcList i with
      sfx := 0, lastUse := 0, priority := alSrcPriority_t.SRCPRI_AMBIENT, entity := -1,
      channel := -1, isActive := false, isLocked := false, isLooping := false,
      isTracking := false } = readAt st.srcList i := by
    cases hs : readAt st.srcList i
    rw [hs] at h1 h2 h3 h4 h5 h6 h7 h8 h9
    simp only at h1 h2 h3 h4 h5 h6 h7 h8 h9
    subst h1 h2 h3 h4 h5 h6 h7 h8 h9
    rfl
  unfold S_AL_SrcKill
  simp only [h7, Bool.false_eq_true, if_false, h6, h8, false_and]
  rw [hrec, writeAt_readAt]

theorem kill_out_of_range (st : ALState) (i : Int)
    (h : i < 0 ∨ st.srcList.length ≤ i.toNat) : S_AL_SrcKill st i = st := by
  have hd : readAt st.srcList i = default := readAt_out_of_range _ _ h
  unfold S_AL_SrcKill
  simp only [hd]
  rw [writeAt_out_of_range _ _ _ h]
  rfl

theorem kill_idempotent (st : ALState) (i : Int) :
    S_AL_SrcKill (S_AL_SrcKill st i) i = S_AL_SrcKill st i := by
  by_cases hl : (chan st i).isLocked = true
  · rw [kill_of_locked st i hl, kill_of_locked st i hl]
  · by_cases hr : 0 ≤ i ∧ i.toNat < st.srcList.length
    · exact kill_of_free _ _ (kill_chan_self st i hr.1 hr.2 (by simpa using hl))
    · have ho : i < 0 ∨ st.srcList.length ≤ i.toNat := by omega
      rw [kill_out_of_range st i ho, kill_out_of_range st i ho]

theorem kill_ent_cleared (st : ALState) (src e : Int)
    (hl : (chan st src).isLocked = false) (hloop : (chan st src).isLooping = true)
    (he : (chan st src).entity = e) :
    (ent (S_AL_SrcKill st src) e).has_sfx = false ∧
    (ent (S_AL_SrcKill st src) e).touched = false ∧
    (e ≠ -1 → 0 ≤ e → e.toNat < st.entityList.length → (ent (S_AL_SrcKill st src) e).sfx = -1) := by
  refine ⟨kill_ent_self st src e hl hloop he, ?_, ?_⟩
  · unfold ent
    rw [kill_entityList, he]
    by_cases hr : e ≠ -1 ∧ 0 ≤ e ∧ e.toNat < st.entityList.length
    · rw [if_pos ⟨hl, hloop, hr.1⟩, readAt_writeAt, if_pos ⟨rfl, hr.2⟩]
    · have hout : e < 0 ∨ st.entityList.length ≤ e.toNat := by omega
      have hd : ∀ l : List sentity_t, l.length = st.entityList.length →
          (readAt l e).touched = false := by
        intro l hlen
        rw [readAt_out_of_range l e (by rw [hlen]; exact hout)]
        rfl
      split_ifs
      · exact hd _ (length_writeAt _ _ _)
      · exact hd _ rfl
  · intro h1 h2 h3
    unfold ent
    rw [kill_entityList, he, if_pos ⟨hl, hloop, h1⟩, readAt_writeAt, if_pos ⟨rfl, h2, h3⟩]

/-- C15: `S_AL_SrcKill` on a channel `i` of the pool that is not locked leaves
channel `i` in the free state (inactive, not looping, not tracking, entity and
logical channel -1, priority 0, `lastUse` 0, sound 0); if the channel was
looping, the attachment of its entity is cleared; every other channel is as
before; and a second `S_AL_SrcKill(i)` hands back exactly the tables the first
one left. -/
theorem C15_kill_resets (st : ALState) (i : Nat) (hi : i < srcCount st)
    (hl : (chan st i).isLocked = false) :
    isFree (chan (S_AL_SrcKill st i) i) ∧
    (chan (S_AL_SrcKill st i) i).priority.toInt = 0 ∧
    ((chan st i).isLooping = true →
      (ent (S_AL_SrcKill st i) (chan st i).entity).has_sfx = false ∧
      (ent (S_AL_SrcKill st i) (chan st i).entity).touched = false ∧
      ((chan st i).entity ≠ -1 → 0 ≤ (chan st i).entity →
        (chan st i).entity.toNat < st.entityList.length →
        (ent (S_AL_SrcKill st i) (chan st i).entity).sfx = -1)) ∧
    (∀ j : Int, j ≠ (i : Int) → chan (S_AL_SrcKill st i) j = chan st j) ∧
    S_AL_SrcKill (S_AL_SrcKill st i) i = S_AL_SrcKill st i := by
  have hfree := kill_chan_self st i (by omega) (by simpa [srcCount] using hi) hl
  refine ⟨hfree, ?_, ?_, ?_, kill_idempotent st i⟩
  · rw [hfree.2.2.1]; rfl
  · intro hloop
    exact kill_ent_cleared st i _ hl hloop rfl
  · intro j hj
    exact kill_chan_ne st i j (fun h => hj h.symm)

/-- C15 on `poolMixed`, for the looping channel 3 of entity 4. -/
theorem C15_kill_resets_witness :
    isFree (chan (S_AL_SrcKill poolMixed (3 : Nat)) (3 : Nat)) ∧
    (chan (S_AL_SrcKill poolMixed (3 : Nat)) (3 : Nat)).priority.toInt = 0 ∧
    ((chan poolMixed (3 : Nat)).isLooping = true →
      (ent (S_AL_SrcKill poolMixed (3 : Nat)) (chan poolMixed (3 : Nat)).entity).has_sfx = false ∧
      (ent (S_AL_SrcKill poolMixed (3 : Nat)) (chan poolMixed (3 : Nat)).entity).touched = false ∧
      ((chan poolMixed (3 : Nat)).entity ≠ -1 → 0 ≤ (chan poolMixed (3 : Nat)).entity →
        (chan poolMixed (3 : Nat)).entity.toNat < poolMixed.entityList.length →
        (ent (S_AL_SrcKill poolMixed (3 : Nat)) (chan poolMixed (3 : Nat)).entity).sfx = -1)) ∧
    (∀ j : Int, j ≠ ((3 : Nat) : Int) →
      chan (S_AL_SrcKill poolMixed (3 : Nat)) j = chan poolMixed j) ∧
    S_AL_SrcKill (S_AL_SrcKill poolMixed (3 : Nat)) (3 : Nat) = S_AL_SrcKill poolMixed (3 : Nat) :=
  C15_kill_resets poolMixed 3 (by decide) (by decide)

/-- C17: `S_AL_SrcFind` returns -1 exactly when no channel of the pool is
active with the given entity and logical channel; otherwise it returns the
smallest index of such a channel.  (It returns a handle only: the tables are
not touched.) -/
theorem C17_srcFind (st : ALState) (e c : Int) :
    (S_AL_SrcFind st e c = -1 ↔
      ¬ ∃ s ∈ st.srcList, s.isActive = true ∧ s.entity = e ∧ s.channel = c) ∧
    (S_AL_SrcFind st e c ≠ -1 →
      ∃ i : Nat, S_AL_SrcFind st e c = (i : Int) ∧ i < srcCount st ∧
        (chan st i).isActive = true ∧ (chan st i).entity = e ∧ (chan st i).channel = c ∧
        ∀ m : Nat, m < i →
          ¬ ((chan st m).isActive = true ∧ (chan st m).entity = e ∧ (chan st m).channel = c)) := by
  unfold S_AL_SrcFind
  cases hf : firstIdx (fun s => decide (s.isActive = true ∧ s.entity = e ∧ s.channel = c))
      st.srcList with
  | none =>
    have hnone := (firstIdx_none _ _).mp hf
    refine ⟨⟨fun _ => ?_, fun _ => rfl⟩, fun h => absurd rfl h⟩
    rintro ⟨s, hs, hprop⟩
    have := hnone s hs
    simp [hprop] at this
  | some i =>
    obtain ⟨hlen, hp, hmin⟩ := firstIdx_some _ default _ i hf
    have hne : ((i : Int)) ≠ -1 := by omega
    simp only [decide_eq_true_eq] at hp
    refine ⟨⟨fun h => absurd h hne, fun h => ?_⟩, fun _ => ?_⟩
    · exact absurd ⟨_, getD_mem _ _ _ hlen, hp⟩ h
    · refine ⟨i, rfl, hlen, ?_, ?_, ?_, ?_⟩
      · rw [chan_natCast]; exact hp.1
      · rw [chan_natCast]; exact hp.2.1
      · rw [chan_natCast]; exact hp.2.2
      · intro m hm
        rw [chan_natCast]
        simpa using hmin m hm

/-- C18: when entity `e` has the looping channel `c` attached, `S_AL_SrcLoop`
for `e` with the sound of channel `c` returns with the pool, the cache, the log
of calls to the playback library and the decoder, and the count of ambient
allocations exactly as before (no kill, no allocation, no setup, no play);
the attachment of `e` is as before and its touched flag is set; every other
entity is as before. -/
theorem C18_loop_reuse (st : ALState) (env : Env) (p : alSrcPriority_t) (e : Int) (c : Nat)
    (hatt : attachedLoop st e c) :
    ∃ st1, S_AL_SrcLoop st env p (chan st c).sfx e = .ok st1 ∧
      st1.srcList = st.srcList ∧ st1.knownSfx = st.knownSfx ∧ st1.log = st.log ∧
      st1.ambientCount = st.ambientCount ∧
      (ent st1 e).has_sfx = true ∧ (ent st1 e).sfx = (c : Int) ∧
      (ent st1 e).origin = (ent st e).origin ∧ (ent st1 e).touched = true ∧
      ∀ x : Int, x ≠ e → ent st1 x = ent st x := by
  obtain ⟨hhas, hsfx, _, _, _, _, _, _⟩ := hatt
  obtain ⟨he0, he1⟩ := ent_in_range st e hhas
  have hsame : (chan st (ent st e).sfx).sfx = (chan st c).sfx := by rw [hsfx]
  refine ⟨_, srcLoop_same_sound st env p _ e hhas hsame, rfl, rfl, rfl, rfl, ?_⟩
  have hself : ent { st with
        entityList := writeAt st.entityList e { readAt st.entityList e with touched := true } } e
      = { ent st e with touched := true } := by
    unfold ent
    exact readAt_writeAt_self _ _ _ he0 he1
  rw [hself]
  refine ⟨hhas, hsfx, rfl, rfl, ?_⟩
  intro x hx
  unfold ent
  exact readAt_writeAt_ne _ _ _ _ (fun h => hx h.symm)

/-- C18 on `poolMixed`, where entity 4 has the looping channel 3 attached. -/
theorem C18_loop_reuse_witness :
    ∃ st1, S_AL_SrcLoop poolMixed envLoads .SRCPRI_AMBIENT (chan poolMixed (3 : Nat)).sfx 4
        = .ok st1 ∧
      st1.srcList = poolMixed.srcList ∧ st1.knownSfx = poolMixed.knownSfx ∧
      st1.log = poolMixed.log ∧ st1.ambientCount = poolMixed.ambientCount ∧
      (ent st1 4).has_sfx = true ∧ (ent st1 4).sfx = ((3 : Nat) : Int) ∧
      (ent st1 4).origin = (ent poolMixed 4).origin ∧ (ent st1 4).touched = true ∧
      ∀ x : Int, x ≠ 4 → ent st1 x = ent poolMixed x :=
  C18_loop_reuse poolMixed envLoads .SRCPRI_AMBIENT 4 3 (by decide)

/-- C19: let `h` be a handle other than the fallback whose slot is due for a
load, let the decoder deliver data and the buffer be created, and let the
upload run out of memory.  Then `S_AL_BufferLoad` returns, whatever answers
later uploads would get and even when there are none (the loop asks the
placeholder `S_AL_BufferEvict` once and never uploads again); the slot ends
marked `isDefault`, not `inMemory`, and holds the buffer of the fallback slot. -/
theorem C19_out_of_memory (st : ALState) (env : LoadEnv) (h : sfxHandle_t)
    (hne : h ≠ st.default_sfx) (hdue : ¬ loadSkips (st.knownSfx.getD h default))
    (hc : env.codec ≠ none) (_hg : env.genError = .AL_NO_ERROR)
    (hoom : env.fillError = .AL_OUT_OF_MEMORY) :
    ∃ st1, S_AL_BufferLoad st env h = .ok st1 ∧
      (∀ more : List ALenum, S_AL_BufferLoad st { env with retryErrors := more } h = .ok st1) ∧
      (∀ (more : List ALenum) (st0 : ALState),
        S_AL_BufferLoad_retry h more .AL_OUT_OF_MEMORY st0 =
          S_AL_BufferLoad_retry h [] .AL_OUT_OF_MEMORY st0) ∧
      (st1.knownSfx.getD h default).isDefault = true ∧
      (st1.knownSfx.getD h default).inMemory = false ∧
      (st1.knownSfx.getD h default).buffer =
        (st1.knownSfx.getD st1.default_sfx default).buffer := by
  have hlen : h < st.knownSfx.length := by
    by_contra hcon
    have hle : st.knownSfx.length ≤ h := Nat.le_of_not_lt hcon
    apply hdue
    left
    rw [getD_out_of_range _ _ _ hle]
    rfl
  have hfail : ∀ more : List ALenum, loadFails { env with retryErrors := more } := by
    intro more
    right; right
    show env.fillError ≠ .AL_NO_ERROR
    rw [hoom]; decide
  have hT : ∀ more : List ALenum,
      loadTouched st { env with retryErrors := more } h = loadTouched st env h := fun _ => rfl
  obtain ⟨info, hinfo⟩ := Option.ne_none_iff_exists'.mp hc
  have hTk : (loadTouched st env h).knownSfx =
      st.knownSfx.set h { st.knownSfx.getD h default with buffer := env.genName } := by
    unfold loadTouched; rw [hinfo]
  have hTlen : h < (loadTouched st env h).knownSfx.length := by
    rw [hTk]; simpa using hlen
  have hTd : (loadTouched st env h).default_sfx = st.default_sfx :=
    (loadTouched_samePool st env h).2.2.1
  have hud : S_AL_BufferUseDefault (loadTouched st env h) h =
      .ok { loadTouched st env h with
            knownSfx := (loadTouched st env h).knownSfx.set h
              { (loadTouched st env h).knownSfx.getD h default with
                isDefault := true,
                buffer := ((loadTouched st env h).knownSfx.getD
                  (loadTouched st env h).default_sfx default).buffer } } := by
    unfold S_AL_BufferUseDefault
    rw [if_neg (by rw [hTd]; exact hne)]
  have hmem : ((loadTouched st env h).knownSfx.getD h default).inMemory = false := by
    rw [hTk, getD_set_self _ _ _ _ hlen]
    simp only
    cases hm : (st.knownSfx.getD h default).inMemory
    · rfl
    · exact absurd (Or.inr (Or.inr (Or.inl hm))) hdue
  have hload := load_of_fail st env h hdue (hfail env.retryErrors)
  rw [hud] at hload
  refine ⟨_, hload, ?_, ?_, ?_, ?_, ?_⟩
  · intro more
    rw [load_of_fail st _ h hdue (hfail more), hT, hud]
  · intro more st0
    rw [retry_eq, retry_eq]
  · simp only; rw [getD_set_self _ _ _ _ hTlen]
  · simp only; rw [getD_set_self _ _ _ _ hTlen]; exact hmem
  · simp only
    rw [getD_set_self _ _ _ _ hTlen, getD_set_ne _ _ _ _ _ (by rw [hTd]; exact hne)]

/-- C19 on `cacheOne`: the upload of the sound in slot 1 runs out of memory. -/
theorem C19_out_of_memory_witness :
    ∃ st1, S_AL_BufferLoad cacheOne envOutOfMemory 1 = .ok st1 ∧
      (∀ more : List ALenum,
        S_AL_BufferLoad cacheOne { envOutOfMemory with retryErrors := more } 1 = .ok st1) ∧
      (∀ (more : List ALenum) (st0 : ALState),
        S_AL_BufferLoad_retry 1 more .AL_OUT_OF_MEMORY st0 =
          S_AL_BufferLoad_retry 1 [] .AL_OUT_OF_MEMORY st0) ∧
      (st1.knownSfx.getD 1 default).isDefault = true ∧
      (st1.knownSfx.getD 1 default).inMemory = false ∧
      (st1.knownSfx.getD 1 default).buffer =
        (st1.knownSfx.getD st1.default_sfx default).buffer :=
  C19_out_of_memory cacheOne envOutOfMemory 1 (by decide) (by decide) (by decide) (by decide)
    (by decide)

/-! ## Claims about the pool initialisation and the raw stream -/

theorem srcInit_loop_spec (gen : Nat → Nat × ALenum) :
    ∀ (n i : Nat) (st : ALState),
      ∃ k, k ≤ n ∧
        (S_AL_SrcInit_loop gen n i st).srcList.length = st.srcList.length + k ∧
        (∀ j, j < k → (gen (i + j)).2 = .AL_NO_ERROR) ∧
        (k < n → (gen (i + k)).2 ≠ .AL_NO_ERROR) ∧
        (S_AL_SrcInit_loop gen n i st).log =
          st.log ++ (List.range' i (if k < n then k + 1 else k)).map Event.genSources := by
  intro n
  induction n with
  | zero =>
    intro i st
    exact ⟨0, le_refl _, rfl, fun j hj => by omega, fun h => by omega, by simp [S_AL_SrcInit_loop]⟩
  | succ n ih =>
    intro i st
    by_cases hg : (gen i).2 ≠ .AL_NO_ERROR
    · refine ⟨0, by omega, ?_, fun j hj => by omega, fun _ => by simpa using hg, ?_⟩
      · simp [S_AL_SrcInit_loop, hg]
      · simp [S_AL_SrcInit_loop, hg]
    · have hg0 : (gen i).2 = .AL_NO_ERROR := by simpa using hg
      obtain ⟨k, hk, hlen, hok, hfail, hlog⟩ := ih (i + 1)
        { st with log := st.log ++ [Event.genSources i],
                  srcList := st.srcList ++ [{ source := (gen i).1 }] }
      have hstep : S_AL_SrcInit_loop gen (n + 1) i st =
          S_AL_SrcInit_loop gen n (i + 1)
            { st with log := st.log ++ [Event.genSources i],
                      srcList := st.srcList ++ [{ source := (gen i).1 }] } := by
        simp [S_AL_SrcInit_loop, hg0]
      rw [hstep]
      refine ⟨k + 1, by omega, ?_, ?_, ?_, ?_⟩
      · rw [hlen]; simp; omega
      · intro j hj
        cases j with
        | zero => simpa using hg0
        | succ j =>
          have := hok j (by omega)
          rw [show i + (j + 1) = i + 1 + j by omega]
          exact this
      · intro hkn
        have := hfail (by omega)
        rw [show i + (k + 1) = i + 1 + k by omega]
        exact this
      · rw [hlog]
        simp only [List.append_assoc, List.singleton_append]
        by_cases hkn : k < n
        · have hkn1 : k + 1 < n + 1 := by omega
          rw [if_pos hkn, if_pos hkn1, List.range'_succ i (k + 1)]
          simp
        · have hkn1 : ¬ k + 1 < n + 1 := by omega
          rw [if_neg hkn, if_neg hkn1, List.range'_succ i k]
          simp

theorem srcInit_limit_eq (r : Int) : S_AL_SrcInit_limit r = min (max r 16) 128 := by
  unfold S_AL_SrcInit_limit MAX_SRC
  split_ifs <;> omega

/-- C16: `S_AL_SrcInit` sets out to acquire `min(max(r, 16), 128)` channels.
It calls `qalGenSources` for the channels 0, 1, 2, ... in turn and stops at the
first call that fails or when that number is reached; `srcCount` is the number
of calls that succeeded before the first failure: every call below `srcCount`
succeeded, and call `srcCount` failed when `srcCount` is short of the number
aimed at.  So `srcCount` equals that number when no call fails, and
`srcCount ≤ 128` always. -/
theorem C16_srcInit (st : ALState) (r : Int) (gen : Nat → Nat × ALenum) :
    S_AL_SrcInit_limit r = min (max r 16) 128 ∧
    (∃ k : Nat, srcCount (S_AL_SrcInit st r gen) = k ∧ (k : Int) ≤ min (max r 16) 128 ∧
      (∀ j, j < k → (gen j).2 = .AL_NO_ERROR) ∧
      ((k : Int) < min (max r 16) 128 → (gen k).2 ≠ .AL_NO_ERROR) ∧
      (S_AL_SrcInit st r gen).log =
        st.log ++ (List.range (if (k : Int) < min (max r 16) 128 then k + 1 else k)).map
          Event.genSources) ∧
    ((∀ j : Nat, (j : Int) < min (max r 16) 128 → (gen j).2 = .AL_NO_ERROR) →
      (srcCount (S_AL_SrcInit st r gen) : Int) = min (max r 16) 128) ∧
    srcCount (S_AL_SrcInit st r gen) ≤ 128 := by
  have hlim := srcInit_limit_eq r
  obtain ⟨k, hk, hlen, hok, hfail, hlog⟩ :=
    srcInit_loop_spec gen (S_AL_SrcInit_limit r).toNat 0 { st with srcList := [] }
  have hcount : srcCount (S_AL_SrcInit st r gen) = k := by
    unfold srcCount S_AL_SrcInit
    simp only
    rw [hlen]; simp
  have hnat : ((S_AL_SrcInit_limit r).toNat : Int) = min (max r 16) 128 := by
    rw [← hlim]
    apply Int.toNat_of_nonneg
    rw [hlim]; omega
  have hiff : k < (S_AL_SrcInit_limit r).toNat ↔ (k : Int) < min (max r 16) 128 := by
    rw [← hnat]; omega
  have hf : (k : Int) < min (max r 16) 128 → (gen k).2 ≠ .AL_NO_ERROR := by
    intro h
    have := hfail (hiff.mpr h)
    simpa using this
  refine ⟨hlim, ⟨k, hcount, by rw [← hnat]; omega, fun j hj => by simpa using hok j hj, hf, ?_⟩,
    ?_, ?_⟩
  · unfold S_AL_SrcInit
    simp only
    rw [hlog, List.range_eq_range']
    by_cases h : k < (S_AL_SrcInit_limit r).toNat
    · rw [if_pos h, if_pos (hiff.mp h)]
    · rw [if_neg h, if_neg (fun hh => h (hiff.mpr hh))]
  · intro hall
    rw [hcount]
    by_contra hne
    have hlt : (k : Int) < min (max r 16) 128 := by
      have : (k : Int) ≤ min (max r 16) 128 := by rw [← hnat]; omega
      omega
    exact hf hlt (hall k hlt)
  · rw [hcount]
    have : (k : Int) ≤ min (max r 16) 128 := by rw [← hnat]; omega
    omega

theorem kill_log_filter (f : Event → Bool) (hf : ∀ x, f (.sourceStop x) = false)
    (st : ALState) (i : Int) : (S_AL_SrcKill st i).log.filter f = st.log.filter f := by
  unfold S_AL_SrcKill
  simp only
  by_cases hl : (readAt st.srcList i).isLocked = true
  · rw [if_pos hl]
  · rw [if_neg hl]
    simp only
    by_cases ha : (readAt st.srcList i).isActive = true
    · rw [if_pos ha, List.filter_append]
      simp [hf]
    · rw [if_neg ha]

theorem alloc_log_filter (f : Event → Bool) (hf : ∀ x, f (.sourceStop x) = false)
    (st : ALState) (now : Int) (p : alSrcPriority_t) (e c : Int) :
    (S_AL_SrcAlloc st now p e c).2.log.filter f = st.log.filter f := by
  rcases alloc_result st now p e c with h | ⟨k, _, _, h | h, _⟩
  · rw [h]
  · rw [h]
  · rw [h]; exact kill_log_filter f hf st k

theorem musicRun_bad (b : List Char) (cb : List Nat) (tr : List Event) :
    musicRun b cb .bad tr = .bad := by
  induction tr with
  | nil => rfl
  | cons ev rest ih =>
    unfold musicRun at ih ⊢
    simp only [List.foldl_cons]
    have : musicStep b cb .bad ev = .bad := by cases ev <;> rfl
    rw [this]; exact ih

theorem musicRun_append (b : List Char) (cb : List Nat) (ph : MusicPhase) (t1 t2 : List Event) :
    musicRun b cb ph (t1 ++ t2) = musicRun b cb (musicRun b cb ph t1) t2 := by
  unfold musicRun; exact List.foldl_append _ _ _ _

/-- In a sequence of events that is in order, every open is an open of the loop file. -/
theorem musicRun_opens (b : List Char) (cb : List Nat) (tr : List Event) :
    ∀ ph : MusicPhase, musicRun b cb ph tr ≠ .bad → ∀ o, Event.streamOpen o ∈ tr → o = b := by
  induction tr with
  | nil => intro ph _ o ho; simp at ho
  | cons ev rest ih =>
    intro ph hrun o ho
    have hrun2 : musicRun b cb (musicStep b cb ph ev) rest ≠ .bad := hrun
    rcases List.mem_cons.mp ho with hev | hrest
    · subst hev
      by_contra hne
      have hstep : musicStep b cb ph (Event.streamOpen o) = .bad := by
        cases ph <;> simp [musicStep, hne]
      rw [hstep, musicRun_bad] at hrun2
      exact hrun2 rfl
    · exact ih _ hrun2 o hrest

theorem musicPos_succ (b : List Char) (cb : List Nat) (n : Nat) :
    ∀ (cur : List Char) (rest : List Nat),
      musicPos b cb (n + 1) cur rest =
        musicNext b cb (musicPos b cb n cur rest).1 (musicPos b cb n cur rest).2 := by
  induction n with
  | zero => intro cur rest; rfl
  | succ n ih =>
    intro cur rest
    show musicPos b cb (n + 1) (musicNext b cb cur rest).1 (musicNext b cb cur rest).2 = _
    rw [ih]
    rfl

theorem musicTrace_succ (b : List Char) (cb : List Nat) (n : Nat) :
    ∀ (cur : List Char) (rest : List Nat),
      musicTrace b cb (n + 1) cur rest =
        musicTrace b cb n cur rest ++
          musicEvents b cb (musicPos b cb n cur rest).1 (musicPos b cb n cur rest).2 := by
  induction n with
  | zero => intro cur rest; simp [musicTrace, musicPos]
  | succ n ih =>
    intro cur rest
    show musicEvents b cb cur rest ++
        musicTrace b cb (n + 1) (musicNext b cb cur rest).1 (musicNext b cb cur rest).2 = _
    rw [ih]
    show _ = (musicEvents b cb cur rest ++
        musicTrace b cb n (musicNext b cb cur rest).1 (musicNext b cb cur rest).2) ++
      musicEvents b cb
        (musicPos b cb n (musicNext b cb cur rest).1 (musicNext b cb cur rest).2).1
        (musicPos b cb n (musicNext b cb cur rest).1 (musicNext b cb cur rest).2).2
    rw [List.append_assoc]

/-- The events of one decode are in order, and leave the track on the next stream. -/
theorem musicRun_events (b : List Char) (cb : List Nat) (cur : List Char) (rest : List Nat) :
    musicRun b cb (.reading cur rest) (musicEvents b cb cur rest) =
      .reading (musicNext b cb cur rest).1 (musicNext b cb cur rest).2 := by
  cases rest with
  | nil => simp [musicRun, musicEvents, musicNext, musicStep, S_CodecReadStream]
  | cons c r => simp [musicRun, musicEvents, musicNext, musicStep, S_CodecReadStream]

/-- The events of `n` decodes are in order, in the words of the spec. -/
theorem musicRun_trace (b : List Char) (cb : List Nat) (n : Nat) :
    ∀ (cur : List Char) (rest : List Nat),
      musicRun b cb (.reading cur rest) (musicTrace b cb n cur rest) =
        .reading (musicPos b cb n cur rest).1 (musicPos b cb n cur rest).2 := by
  induction n with
  | zero => intro cur rest; rfl
  | succ n ih =>
    intro cur rest
    show musicRun b cb (.reading cur rest) (musicEvents b cb cur rest ++ _) = _
    rw [musicRun_append, musicRun_events, ih]
    rfl

/-- The stream that is read after `n` decodes is the one of the intro or the one of the loop file. -/
theorem musicPos_path (b : List Char) (cb : List Nat) (n : Nat) :
    ∀ (cur : List Char) (rest : List Nat),
      (musicPos b cb n cur rest).1 = cur ∨ (musicPos b cb n cur rest).1 = b := by
  induction n with
  | zero => intro cur rest; exact Or.inl rfl
  | succ n ih =>
    intro cur rest
    show (musicPos b cb n (musicNext b cb cur rest).1 (musicNext b cb cur rest).2).1 = cur ∨ _
    cases rest with
    | nil =>
      right
      rcases ih b cb.tail with h | h
      · exact h
      · exact h
    | cons c r => exact ih cur r

theorem musicProcess_step (files : List Char → Option (List Nat)) (behind a b : List Char)
    (ca cb : List Nat) (hfb : files b = some cb) (hlen : b.length < MAX_QPATH)
    (base : List Event) (st : ALState) (n : Nat) (h : trackAt a b ca cb base st n) :
    ∃ st1, S_AL_MusicProcess files behind st = .ok st1 ∧ trackAt a b ca cb base st1 (n + 1) ∧
      st1.musicPlaying = st.musicPlaying ∧ st1.musicSourceHandle = st.musicSourceHandle := by
  obtain ⟨hloop, hlog, hs⟩ := h
  cases hpos : musicPos b cb n a ca with
  | mk cur rest =>
    rw [hpos] at hs
    simp only at hs
    cases rest with
    | cons c r =>
      have hread : S_CodecReadStream { path := cur, chunks := c :: r } =
          (c + 1, { path := cur, chunks := r }) := rfl
      have hproc : S_AL_MusicProcess files behind st =
          .ok { st with mus_stream := some { path := cur, chunks := r },
                        log := st.log ++ [Event.streamRead cur (c + 1)] } := by
        unfold S_AL_MusicProcess
        rw [hs]
        simp only [hread, Nat.succ_ne_zero, if_false]
      refine ⟨_, hproc, ⟨hloop, ?_, ?_⟩, rfl, rfl⟩
      · simp only [List.filter_append, hlog]
        rw [musicTrace_succ, hpos]
        simp [Event.isStream, musicEvents]
      · rw [musicPos_succ, hpos]
        rfl
    | nil =>
      have hread : S_CodecReadStream { path := cur, chunks := [] } =
          (0, { path := cur, chunks := [] }) := rfl
      have hopen : S_CodecOpenStream files b = some { path := b, chunks := cb } := by
        unfold S_CodecOpenStream; rw [hfb]
      have hp : (S_CodecReadStream { path := b, chunks := cb }).2 =
          { path := b, chunks := cb.tail } := by
        unfold S_CodecReadStream; cases cb <;> rfl
      have hproc : S_AL_MusicProcess files behind st =
          .ok { st with mus_stream := some { path := b, chunks := cb.tail },
                        log := st.log ++ [Event.streamRead cur 0] ++
                          [Event.streamClose cur, Event.streamOpen b] ++
                          [Event.streamRead b
                            (S_CodecReadStream { path := b, chunks := cb }).1] } := by
        unfold S_AL_MusicProcess
        rw [hs]
        simp only [hread, if_true, loopPath, hloop, hlen, hopen, hp]
      refine ⟨_, hproc, ⟨hloop, ?_, ?_⟩, rfl, rfl⟩
      · simp only [List.filter_append, hlog]
        rw [musicTrace_succ, hpos]
        simp [Event.isStream, musicEvents]
      · rw [musicPos_succ, hpos]
        rfl

theorem musicProcess_times_steps (files : List Char → Option (List Nat)) (behind a b : List Char)
    (ca cb : List Nat) (hfb : files b = some cb) (hlen : b.length < MAX_QPATH)
    (base : List Event) (k : Nat) :
    ∀ (st : ALState) (n : Nat), trackAt a b ca cb base st n →
      ∃ st1, S_AL_MusicProcess_times files behind k st = .ok st1 ∧
        trackAt a b ca cb base st1 (n + k) ∧
        st1.musicPlaying = st.musicPlaying ∧ st1.musicSourceHandle = st.musicSourceHandle := by
  induction k with
  | zero => intro st n h; exact ⟨st, rfl, h, rfl, rfl⟩
  | succ k ih =>
    intro st n h
    obtain ⟨st1, e1, h1, p1, q1⟩ := musicProcess_step files behind a b ca cb hfb hlen base st n h
    obtain ⟨st2, e2, h2, p2, q2⟩ := ih st1 (n + 1) h1
    refine ⟨st2, ?_, ?_, p2.trans p1, q2.trans q1⟩
    · simp only [S_AL_MusicProcess_times, e1]
      exact e2
    · have : n + (k + 1) = n + 1 + k := by omega
      rw [this]; exact h2

theorem trackAt_congr (a b : List Char) (ca cb : List Nat) (base : List Event)
    (st : ALState) (n : Nat) (h : trackAt a b ca cb base st n) (st1 : ALState)
    (h1 : st1.log.filter Event.isStream = st.log.filter Event.isStream)
    (h2 : st1.mus_stream = st.mus_stream)
    (h3 : st1.s_backgroundLoop = st.s_backgroundLoop) : trackAt a b ca cb base st1 n := by
  obtain ⟨hloop, hlog, hs⟩ := h
  exact ⟨h3.trans hloop, h1.trans hlog, h2.trans hs⟩

theorem trackAt_log_append (a b : List Char) (ca cb : List Nat) (base : List Event)
    (st : ALState) (n : Nat) (ev : Event) (hev : ev.isStream = false)
    (h : trackAt a b ca cb base st n)
    (st1 : ALState) (h1 : st1.log = st.log ++ [ev]) (h2 : st1.mus_stream = st.mus_stream)
    (h3 : st1.s_backgroundLoop = st.s_backgroundLoop) : trackAt a b ca cb base st1 n := by
  refine trackAt_congr a b ca cb base st n h st1 ?_ h2 h3
  rw [h1, List.filter_append]
  simp [hev]

theorem musicUpdate_steps (files : List Char → Option (List Nat)) (behind a b : List Char)
    (ca cb : List Nat) (hfb : files b = some cb) (hlen : b.length < MAX_QPATH)
    (base : List Event) (st : ALState) (n : Nat) (processed : Nat) (stopped : Bool)
    (h : trackAt a b ca cb base st n) :
    ∃ st1, S_AL_MusicUpdate files behind st processed stopped = .ok st1 ∧
      trackAt a b ca cb base st1 (n + if st.musicPlaying = true then processed else 0) ∧
      st1.musicPlaying = st.musicPlaying := by
  unfold S_AL_MusicUpdate
  by_cases hp : st.musicPlaying = false
  · rw [if_pos hp]
    refine ⟨st, rfl, ?_, rfl⟩
    rw [hp]; exact h
  · rw [if_neg hp]
    have hp1 : st.musicPlaying = true := by simpa using hp
    obtain ⟨st1, e1, h1, p1, _⟩ :=
      musicProcess_times_steps files behind a b ca cb hfb hlen base processed st n h
    rw [e1, hp1]
    simp only [if_true]
    cases stopped
    · exact ⟨st1, rfl, h1, p1.trans hp1⟩
    · exact ⟨_, rfl, trackAt_log_append a b ca cb base st1 _ (Event.sourcePlay _) rfl h1 _
        rfl rfl rfl, p1.trans hp1⟩

theorem musicUpdates_steps (files : List Char → Option (List Nat)) (behind a b : List Char)
    (ca cb : List Nat) (hfb : files b = some cb) (hlen : b.length < MAX_QPATH)
    (base : List Event) (updates : List (Nat × Bool)) :
    ∀ (st : ALState) (n : Nat), trackAt a b ca cb base st n →
      ∃ st1, musicUpdates files behind st updates = .ok st1 ∧
        trackAt a b ca cb base st1
          (n + if st.musicPlaying = true then processedTotal updates else 0) ∧
        st1.musicPlaying = st.musicPlaying := by
  induction updates with
  | nil =>
    intro st n h
    refine ⟨st, rfl, ?_, rfl⟩
    simp only [processedTotal, List.map_nil, List.sum_nil, ite_self, Nat.add_zero]
    exact h
  | cons u rest ih =>
    intro st n h
    obtain ⟨st1, e1, h1, p1⟩ :=
      musicUpdate_steps files behind a b ca cb hfb hlen base st n u.1 u.2 h
    obtain ⟨st2, e2, h2, p2⟩ := ih st1 _ h1
    refine ⟨st2, ?_, ?_, p2.trans p1⟩
    · simp only [musicUpdates, e1]
      exact e2
    · rw [p1] at h2
      have : (n + if st.musicPlaying = true then processedTotal (u :: rest) else 0) =
          n + (if st.musicPlaying = true then u.1 else 0) +
            (if st.musicPlaying = true then processedTotal rest else 0) := by
        unfold processedTotal
        simp only [List.map_cons, List.sum_cons]
        split_ifs <;> omega
      rw [this]; exact h2

theorem kill_music_fields (st : ALState) (i : Int) :
    (S_AL_SrcKill st i).mus_stream = st.mus_stream ∧
    (S_AL_SrcKill st i).s_backgroundLoop = st.s_backgroundLoop := by
  unfold S_AL_SrcKill
  simp only
  by_cases hl : (readAt st.srcList i).isLocked = true
  · rw [if_pos hl]; exact ⟨rfl, rfl⟩
  · rw [if_neg hl]; exact ⟨rfl, rfl⟩

theorem alloc_music_fields (st : ALState) (now : Int) (p : alSrcPriority_t) (e c : Int) :
    (S_AL_SrcAlloc st now p e c).2.mus_stream = st.mus_stream ∧
    (S_AL_SrcAlloc st now p e c).2.s_backgroundLoop = st.s_backgroundLoop := by
  rcases alloc_result st now p e c with h | ⟨k, _, _, h | h, _⟩
  · rw [h]; exact ⟨rfl, rfl⟩
  · rw [h]; exact ⟨rfl, rfl⟩
  · rw [h]; exact kill_music_fields st k

/-- The handle `S_AL_SrcAlloc` returns depends on the pool only. -/
theorem alloc_handle_congr (st st1 : ALState) (now : Int) (p : alSrcPriority_t) (e c : Int)
    (h : st1.srcList = st.srcList) :
    (S_AL_SrcAlloc st1 now p e c).1 = (S_AL_SrcAlloc st now p e c).1 := by
  unfold S_AL_SrcAlloc
  rw [h]
  cases S_AL_SrcAlloc_loop p e c st.srcList 0 { weakest_time := now } with
  | inl i => rfl
  | inr v =>
    simp only
    split_ifs <;> rfl

theorem musicSourceGet_handle (st : ALState) (now : Int) :
    (S_AL_MusicSourceGet st now).musicSourceHandle =
      (S_AL_SrcAlloc st now .SRCPRI_STREAM (-2) 0).1 := by
  unfold S_AL_MusicSourceGet
  cases hres : S_AL_SrcAlloc st now .SRCPRI_STREAM (-2) 0 with
  | mk hdl st1 =>
    simp only
    split_ifs <;> rfl

theorem musicSourceGet_trackAt (a b : List Char) (ca cb : List Nat) (base : List Event)
    (st : ALState) (n : Nat) (now : Int) (h : trackAt a b ca cb base st n) :
    trackAt a b ca cb base (S_AL_MusicSourceGet st now) n ∧
    (S_AL_MusicSourceGet st now).musicPlaying = st.musicPlaying := by
  have hlog := alloc_log_filter Event.isStream (fun _ => rfl) st now .SRCPRI_STREAM (-2) 0
  have hf := alloc_music_fields st now .SRCPRI_STREAM (-2) 0
  have hpl : (S_AL_SrcAlloc st now .SRCPRI_STREAM (-2) 0).2.musicPlaying = st.musicPlaying := by
    rcases alloc_result st now .SRCPRI_STREAM (-2) 0 with h | ⟨k, _, _, h | h, _⟩
    · rw [h]
    · rw [h]
    · rw [h]
      unfold S_AL_SrcKill
      simp only
      split_ifs <;> rfl
  constructor
  · refine trackAt_congr a b ca cb base st n h _ ?_ ?_ ?_
    · unfold S_AL_MusicSourceGet
      cases hres : S_AL_SrcAlloc st now .SRCPRI_STREAM (-2) 0 with
      | mk hdl st1 =>
        rw [hres] at hlog
        simp only
        split_ifs
        · exact hlog
        · exact hlog
    · unfold S_AL_MusicSourceGet
      cases hres : S_AL_SrcAlloc st now .SRCPRI_STREAM (-2) 0 with
      | mk hdl st1 =>
        rw [hres] at hf
        simp only
        split_ifs
        · exact hf.1
        · exact hf.1
    · unfold S_AL_MusicSourceGet
      cases hres : S_AL_SrcAlloc st now .SRCPRI_STREAM (-2) 0 with
      | mk hdl st1 =>
        rw [hres] at hf
        simp only
        split_ifs
        · exact hf.2
        · exact hf.2
  · unfold S_AL_MusicSourceGet
    cases hres : S_AL_SrcAlloc st now .SRCPRI_STREAM (-2) 0 with
    | mk hdl st1 =>
      rw [hres] at hpl
      simp only
      split_ifs
      · exact hpl
      · exact hpl

theorem stop_not_playing (st : ALState) : (S_AL_StopBackgroundTrack st).musicPlaying = false := by
  unfold S_AL_StopBackgroundTrack
  by_cases h : st.musicPlaying = false
  · rw [if_pos h]; exact h
  · rw [if_neg h]

/-- The start of a track whose two files open and whose loop path fits
`s_backgroundLoop`: the call returns; the track plays if and only if a channel
could be taken for it, and then four decodes have been made. -/
theorem start_steps (files : List Char → Option (List Nat)) (behind : List Char)
    (st : ALState) (now : Int) (a b : List Char) (ca cb : List Nat)
    (ha : a ≠ []) (hb : b ≠ []) (hlen : b.length < MAX_QPATH)
    (hfa : files a = some ca) (hfb : files b = some cb) :
    ∃ st1, S_AL_StartBackgroundTrack files behind st now (some a) (some b) = .ok st1 ∧
      (st1.musicPlaying = true ↔
        (S_AL_SrcAlloc (S_AL_StopBackgroundTrack st) now .SRCPRI_STREAM (-2) 0).1 ≠ -1) ∧
      trackAt a b ca cb ((S_AL_StopBackgroundTrack st).log.filter Event.isStream) st1
        (if st1.musicPlaying = true then NUM_MUSIC_BUFFERS else 0) := by
  have hia : ¬ isBlank (some a) := by
    unfold isBlank; simp [ha]
  have hib : ¬ isBlank (some b) := by
    unfold isBlank; simp [hb]
  have hopen : S_CodecOpenStream files a = some { path := a, chunks := ca } := by
    unfold S_CodecOpenStream; rw [hfa]
  have htake : b.take MAX_QPATH = b := List.take_of_length_le (Nat.le_of_lt hlen)
  have h2 : trackAt a b ca cb ((S_AL_StopBackgroundTrack st).log.filter Event.isStream)
      { S_AL_StopBackgroundTrack st with
        s_backgroundLoop := b
        mus_stream := some { path := a, chunks := ca }
        log := (S_AL_StopBackgroundTrack st).log ++ [Event.streamOpen a] } 0 := by
    refine ⟨rfl, ?_, rfl⟩
    simp [List.filter_append, Event.isStream, musicTrace]
  obtain ⟨h3, hpl3⟩ := musicSourceGet_trackAt a b ca cb _ _ 0 now h2
  have hh3 := (musicSourceGet_handle
    { S_AL_StopBackgroundTrack st with
        s_backgroundLoop := b
        mus_stream := some { path := a, chunks := ca }
        log := (S_AL_StopBackgroundTrack st).log ++ [Event.streamOpen a] } now).trans
    (alloc_handle_congr (S_AL_StopBackgroundTrack st) _ now .SRCPRI_STREAM (-2) 0 rfl)
  have hnp : (S_AL_MusicSourceGet
      { S_AL_StopBackgroundTrack st with
        s_backgroundLoop := b
        mus_stream := some { path := a, chunks := ca }
        log := (S_AL_StopBackgroundTrack st).log ++ [Event.streamOpen a] } now).musicPlaying =
      false := hpl3.trans (stop_not_playing st)
  unfold S_AL_StartBackgroundTrack
  simp only [if_neg hia, if_neg hib, and_self, Option.getD_some, htake, hopen]
  rw [if_neg (by simp)]
  by_cases hh : (S_AL_MusicSourceGet
      { S_AL_StopBackgroundTrack st with
        s_backgroundLoop := b
        mus_stream := some { path := a, chunks := ca }
        log := (S_AL_StopBackgroundTrack st).log ++ [Event.streamOpen a] } now).musicSourceHandle
      = -1
  · rw [if_pos hh]
    refine ⟨_, rfl, ?_, ?_⟩
    · rw [hnp, ← hh3, hh]
      simp
    · rw [hnp]
      simpa using h3
  · rw [if_neg hh]
    obtain ⟨st4, e4, h4, _, _⟩ :=
      musicProcess_times_steps files behind a b ca cb hfb hlen _ NUM_MUSIC_BUFFERS _ 0 h3
    rw [e4]
    refine ⟨_, rfl, ?_, ?_⟩
    · rw [← hh3]
      simpa using hh
    · simp only [if_true]
      rw [Nat.zero_add] at h4
      exact trackAt_log_append a b ca cb _ st4 _ (Event.sourcePlay _) rfl h4 _ rfl rfl rfl

/-- The stored copy of the long loop path opens only when the bytes behind the
array happen to be the characters that were cut off. -/
theorem longLoop_cut_opens (behind : List Char) (h : behind ≠ longLoop.drop MAX_QPATH) :
    filesLongLoop (longLoop.take MAX_QPATH ++ behind) = none := by
  have h1 : longLoop.take MAX_QPATH ++ behind ≠ "music/intro.wav".toList := by
    intro hcon
    have h7 := congrArg (List.take 7) hcon
    rw [List.take_append_of_le_length (by decide)] at h7
    revert h7
    decide
  have h2 : longLoop.take MAX_QPATH ++ behind ≠ longLoop := by
    intro hcon
    apply h
    have h3 : longLoop.take MAX_QPATH ++ behind =
        longLoop.take MAX_QPATH ++ longLoop.drop MAX_QPATH := by
      rw [List.take_append_drop]; exact hcon
    exact List.append_cancel_left h3
  unfold filesLongLoop
  rw [if_neg h1, if_neg h2]

/-- C11 (as stated, refuted), two tracks started in `poolMixed`.
First, an intro and a loop path of 68 characters that both open.  `strncpy`
stores the first 64 characters of the loop path in `s_backgroundLoop`, without
a terminating NUL.  The reads come from the intro until one returns 0 bytes;
what is opened then is the stored 64 characters followed by the bytes behind
the array (`behindLoop` here), not the loop path; that path does not open (it
would only if the bytes behind the array were the characters cut off), no read
ever comes from the loop file and the track is stopped.
Second, one path given as intro and as loop: that path is opened again at the
end of its stream. -/
theorem C11_counterexample :
    longLoop ≠ [] ∧ longLoop.length = 68 ∧ filesLongLoop "music/intro.wav".toList ≠ none ∧
    filesLongLoop longLoop ≠ none ∧
    (S_AL_StartBackgroundTrack filesLongLoop behindLoop poolMixed 500
      (some "music/intro.wav".toList) (some longLoop)).isOk = true ∧
    (S_AL_MusicUpdate filesLongLoop behindLoop
      (finalState id
        (S_AL_StartBackgroundTrack filesLongLoop behindLoop poolMixed 500
          (some "music/intro.wav".toList) (some longLoop))) 2 false).isOk = true ∧
    trackLong.log.filter Event.isStream =
      [ Event.streamOpen "music/intro.wav".toList,
        Event.streamRead "music/intro.wav".toList 100,
        Event.streamRead "music/intro.wav".toList 100,
        Event.streamRead "music/intro.wav".toList 100,
        Event.streamRead "music/intro.wav".toList 100,
        Event.streamRead "music/intro.wav".toList 50,
        Event.streamRead "music/intro.wav".toList 0,
        Event.streamClose "music/intro.wav".toList,
        Event.streamOpen
          "music/the_long_intermission_theme_of_the_open_arena_championship@@".toList ] ∧
    trackLong.mus_stream = none ∧ trackLong.musicPlaying = false ∧
    (∀ behind, behind ≠ longLoop.drop MAX_QPATH →
      filesLongLoop (longLoop.take MAX_QPATH ++ behind) = none) ∧
    (S_AL_StartBackgroundTrack filesIntroLoop behindLoop poolMixed 500
      (some "music/loop.wav".toList) (some "music/loop.wav".toList)).isOk = true ∧
    (trackSame.log.filter Event.isStream).take 5 =
      [ Event.streamOpen "music/loop.wav".toList,
        Event.streamRead "music/loop.wav".toList 80,
        Event.streamRead "music/loop.wav".toList 0,
        Event.streamClose "music/loop.wav".toList,
        Event.streamOpen "music/loop.wav".toList ] := by
  refine ⟨by decide, by decide, by decide, by decide, by decide, by decide, by decide, by decide,
    by decide, longLoop_cut_opens, by decide, by decide⟩

/-- C11 (amended): let the intro `a` and the loop file `b` be non-empty paths
that both open, `b` shorter than `MAX_QPATH`, the size of the stored loop path.
`S_AL_StartBackgroundTrack (a, b)` returns, and the track plays if and only if
a channel could be taken for it; any sequence of `S_AL_MusicUpdate` passes and
`n` further calls of `S_AL_MusicProcess` return as well.  With `N` the number
of decodes made by then (the four of the start and one for each buffer the
update passes found processed, when the track plays; and the `n` further
calls), the codec events logged since the start are the open of `a` followed
by exactly the events of `N` decodes: each decode reads the current stream
once; the reads come from the stream of `a`, in its order, until one returns 0
bytes; that decode then closes the stream, opens `b` and reads it from its
beginning; from then on every read comes from the current stream of `b`, and a
decode whose read finds it at its end closes it, opens `b` afresh and reads it
from its beginning.  Every open after the first is an open of `b`: the stream
of `a` is not opened again when `a` and `b` differ. -/
theorem C11_music_looping (files : List Char → Option (List Nat)) (behind : List Char)
    (st : ALState) (now : Int) (a b : List Char) (ca cb : List Nat)
    (ha : a ≠ []) (hb : b ≠ []) (hlen : b.length < MAX_QPATH)
    (hfa : files a = some ca) (hfb : files b = some cb)
    (updates : List (Nat × Bool)) (n : Nat) :
    ∃ st1 st2 st3 N,
      S_AL_StartBackgroundTrack files behind st now (some a) (some b) = .ok st1 ∧
      (st1.musicPlaying = true ↔
        (S_AL_SrcAlloc (S_AL_StopBackgroundTrack st) now .SRCPRI_STREAM (-2) 0).1 ≠ -1) ∧
      musicUpdates files behind st1 updates = .ok st2 ∧
      S_AL_MusicProcess_times files behind n st2 = .ok st3 ∧
      N = (if st1.musicPlaying = true then NUM_MUSIC_BUFFERS + processedTotal updates else 0)
            + n ∧
      st3.log.filter Event.isStream =
        (S_AL_StopBackgroundTrack st).log.filter Event.isStream ++
          Event.streamOpen a :: musicTrace b cb N a ca ∧
      st3.mus_stream =
        some { path := (musicPos b cb N a ca).1, chunks := (musicPos b cb N a ca).2 } ∧
      musicRun b cb (.reading a ca) (musicTrace b cb N a ca) =
        .reading (musicPos b cb N a ca).1 (musicPos b cb N a ca).2 ∧
      ((musicPos b cb N a ca).1 = a ∨ (musicPos b cb N a ca).1 = b) ∧
      (∀ o, Event.streamOpen o ∈ musicTrace b cb N a ca → o = b) ∧
      (a ≠ b → Event.streamOpen a ∉ musicTrace b cb N a ca) := by
  obtain ⟨st1, e1, hpl, h1⟩ := start_steps files behind st now a b ca cb ha hb hlen hfa hfb
  obtain ⟨st2, e2, h2, p2⟩ := musicUpdates_steps files behind a b ca cb hfb hlen _ updates st1 _ h1
  obtain ⟨st3, e3, h3, _, _⟩ :=
    musicProcess_times_steps files behind a b ca cb hfb hlen _ n st2 _ h2
  have hN : ((if st1.musicPlaying = true then NUM_MUSIC_BUFFERS else 0) +
      (if st1.musicPlaying = true then processedTotal updates else 0)) + n =
      (if st1.musicPlaying = true then NUM_MUSIC_BUFFERS + processedTotal updates else 0) + n := by
    split_ifs <;> omega
  rw [hN] at h3
  obtain ⟨_, hlog, hs⟩ := h3
  have hopens : ∀ o, Event.streamOpen o ∈ musicTrace b cb
      ((if st1.musicPlaying = true then NUM_MUSIC_BUFFERS + processedTotal updates else 0) + n)
      a ca → o = b :=
    musicRun_opens b cb _ (.reading a ca)
      (by rw [musicRun_trace]; exact fun h => MusicPhase.noConfusion h)
  refine ⟨st1, st2, st3, _, e1, hpl, e2, e3, rfl, hlog, hs, musicRun_trace b cb _ a ca,
    musicPos_path b cb _ a ca, hopens, ?_⟩
  intro hab hmem
  exact hab (hopens a hmem)

/-- C11 on `poolMixed` with the example track: the start, an update pass with
two processed buffers, one with a processed buffer and a stopped source, and
one more call of `S_AL_MusicProcess`: eight decodes in all. -/
theorem C11_music_looping_witness :
    (S_AL_SrcAlloc (S_AL_StopBackgroundTrack poolMixed) 500 .SRCPRI_STREAM (-2) 0).1 ≠ -1 ∧
    musicTrace "music/loop.wav".toList [79] 4 "music/intro.wav".toList [99, 49] =
      [ Event.streamRead "music/intro.wav".toList 100,
        Event.streamRead "music/intro.wav".toList 50,
        Event.streamRead "music/intro.wav".toList 0,
        Event.streamClose "music/intro.wav".toList,
        Event.streamOpen "music/loop.wav".toList,
        Event.streamRead "music/loop.wav".toList 80,
        Event.streamRead "music/loop.wav".toList 0,
        Event.streamClose "music/loop.wav".toList,
        Event.streamOpen "music/loop.wav".toList,
        Event.streamRead "music/loop.wav".toList 80 ] ∧
    ∃ st1 st2 st3 N,
      S_AL_StartBackgroundTrack filesIntroLoop behindLoop poolMixed 500
        (some "music/intro.wav".toList) (some "music/loop.wav".toList) = .ok st1 ∧
      (st1.musicPlaying = true ↔
        (S_AL_SrcAlloc (S_AL_StopBackgroundTrack poolMixed) 500 .SRCPRI_STREAM (-2) 0).1 ≠ -1) ∧
      musicUpdates filesIntroLoop behindLoop st1 [(2, false), (1, true)] = .ok st2 ∧
      S_AL_MusicProcess_times filesIntroLoop behindLoop 1 st2 = .ok st3 ∧
      N = (if st1.musicPlaying = true then
            NUM_MUSIC_BUFFERS + processedTotal [(2, false), (1, true)] else 0) + 1 ∧
      st3.log.filter Event.isStream =
        (S_AL_StopBackgroundTrack poolMixed).log.filter Event.isStream ++
          Event.streamOpen "music/intro.wav".toList ::
            musicTrace "music/loop.wav".toList [79] N "music/intro.wav".toList [99, 49] ∧
      st3.mus_stream =
        some { path := (musicPos "music/loop.wav".toList [79] N "music/intro.wav".toList
                 [99, 49]).1,
               chunks := (musicPos "music/loop.wav".toList [79] N "music/intro.wav".toList
                 [99, 49]).2 } ∧
      musicRun "music/loop.wav".toList [79] (.reading "music/intro.wav".toList [99, 49])
          (musicTrace "music/loop.wav".toList [79] N "music/intro.wav".toList [99, 49]) =
        .reading
          (musicPos "music/loop.wav".toList [79] N "music/intro.wav".toList [99, 49]).1
          (musicPos "music/loop.wav".toList [79] N "music/intro.wav".toList [99, 49]).2 ∧
      ((musicPos "music/loop.wav".toList [79] N "music/intro.wav".toList [99, 49]).1 =
          "music/intro.wav".toList ∨
        (musicPos "music/loop.wav".toList [79] N "music/intro.wav".toList [99, 49]).1 =
          "music/loop.wav".toList) ∧
      (∀ o, Event.streamOpen o ∈
          musicTrace "music/loop.wav".toList [79] N "music/intro.wav".toList [99, 49] →
        o = "music/loop.wav".toList) ∧
      ("music/intro.wav".toList ≠ "music/loop.wav".toList →
        Event.streamOpen "music/intro.wav".toList ∉
          musicTrace "music/loop.wav".toList [79] N "music/intro.wav".toList [99, 49]) :=
  ⟨by decide, by decide,
    C11_music_looping filesIntroLoop behindLoop poolMixed 500 "music/intro.wav".toList
      "music/loop.wav".toList [99, 49] [79] (by decide) (by decide) (by decide) (by decide)
      (by decide) [(2, false), (1, true)] 1⟩

/-! ## Attachment of looping channels to entities -/

theorem chan_in_range (st : ALState) (c : Int) (h : (chan st c).isLooping = true) :
    0 ≤ c ∧ c.toNat < st.srcList.length := by
  by_contra hcon
  have hd : chan st c = default := by
    unfold chan
    exact readAt_out_of_range _ _ (by omega)
  rw [hd] at h
  exact absurd h (by decide)

theorem consistent_congr (st st1 : ALState) (hs : st1.srcList = st.srcList)
    (he : st1.entityList = st.entityList) (h : attachmentConsistent st) :
    attachmentConsistent st1 := by
  unfold attachmentConsistent chan ent at *
  rw [hs, he]; exact h

theorem kill_chan_self_unlocked (st : ALState) (k : Int) (hl : (chan st k).isLocked = false) :
    (chan (S_AL_SrcKill st k) k).isLooping = false := by
  by_cases hr : 0 ≤ k ∧ k.toNat < st.srcList.length
  · exact (kill_chan_self st k hr.1 hr.2 hl).2.2.2.2.2.2.2.1
  · unfold chan
    rw [readAt_out_of_range _ _ (by rw [kill_length]; omega)]
    rfl

theorem kill_consistent (st : ALState) (k : Int) (h : attachmentConsistent st) :
    attachmentConsistent (S_AL_SrcKill st k) := by
  by_cases hl : (chan st k).isLocked = true
  · rw [kill_of_locked st k hl]; exact h
  have hl0 : (chan st k).isLocked = false := by simpa using hl
  have hck := kill_chan_self_unlocked st k hl0
  obtain ⟨hA, hB⟩ := h
  constructor
  · intro e he
    have hsame : ent (S_AL_SrcKill st k) e = ent st e := by
      rcases kill_ent_cases st k e with h1 | h1
      · exact h1
      · rw [h1.1] at he; exact absurd he (by decide)
    rw [hsame] at he ⊢
    obtain ⟨h1, h2⟩ := hA e he
    have hne : k ≠ (ent st e).sfx := by
      intro hk
      rw [← hk] at h1 h2
      have := kill_ent_self st k e hl0 h1 h2
      rw [hsame, he] at this
      exact absurd this (by decide)
    rw [kill_chan_ne st k _ hne]
    exact ⟨h1, h2⟩
  · intro c hc
    have hne : k ≠ c := by
      intro hk; subst hk
      rw [hck] at hc; exact absurd hc (by decide)
    rw [kill_chan_ne st k c hne] at hc ⊢
    obtain ⟨h1, h2, h3, h4⟩ := hB c hc
    have hsame : ent (S_AL_SrcKill st k) (chan st c).entity = ent st (chan st c).entity := by
      apply kill_ent_ne
      intro hloop hent
      have := (hB k hloop).2.2.2
      rw [hent, h4] at this
      exact hne this.symm
    rw [hsame]
    exact ⟨h1, h2, h3, h4⟩

theorem writeChan_consistent (st : ALState) (k : Int) (s : src_t)
    (h : attachmentConsistent st) (h1 : s.isLooping = (chan st k).isLooping)
    (h2 : s.isLooping = true →
      s.isActive = true ∧ s.isLocked = false ∧ s.entity = (chan st k).entity) :
    attachmentConsistent { st with srcList := writeAt st.srcList k s } := by
  obtain ⟨hA, hB⟩ := h
  have hch : ∀ c : Int, chan { st with srcList := writeAt st.srcList k s } c =
      if k = c ∧ 0 ≤ k ∧ k.toNat < st.srcList.length then s else chan st c := by
    intro c; unfold chan; exact readAt_writeAt _ _ _ _
  have hen : ∀ e : Int, ent { st with srcList := writeAt st.srcList k s } e = ent st e :=
    fun _ => rfl
  constructor
  · intro e he
    rw [hen] at he ⊢
    obtain ⟨a1, a2⟩ := hA e he
    rw [hch]
    split_ifs with hk
    · obtain ⟨hk1, _⟩ := hk
      rw [← hk1] at a1 a2
      have hs : s.isLooping = true := by rw [h1]; exact a1
      exact ⟨hs, by rw [(h2 hs).2.2]; exact a2⟩
    · exact ⟨a1, a2⟩
  · intro c hc
    rw [hch] at hc ⊢
    split_ifs at hc ⊢ with hk
    · obtain ⟨hk1, _⟩ := hk
      obtain ⟨b1, b2, b3⟩ := h2 hc
      have hold : (chan st k).isLooping = true := by rw [← h1]; exact hc
      obtain ⟨_, _, c3, c4⟩ := hB k hold
      rw [hen, b3, ← hk1]
      exact ⟨b1, b2, c3, c4⟩
    · rw [hen]; exact hB c hc

theorem consistent_of_ent_fields (st st1 : ALState) (hs : st1.srcList = st.srcList)
    (he : ∀ x : Int, (ent st1 x).has_sfx = (ent st x).has_sfx ∧ (ent st1 x).sfx = (ent st x).sfx)
    (h : attachmentConsistent st) : attachmentConsistent st1 := by
  obtain ⟨hA, hB⟩ := h
  have hch : ∀ c : Int, chan st1 c = chan st c := by
    intro c; unfold chan; rw [hs]
  constructor
  · intro e h1
    rw [(he e).1] at h1
    rw [(he e).2, hch]
    exact hA e h1
  · intro c hc
    rw [hch] at hc ⊢
    rw [(he _).1, (he _).2]
    exact hB c hc

theorem writeEnt_consistent (st : ALState) (x : Int) (r : sentity_t)
    (h : attachmentConsistent st) (h1 : r.has_sfx = (ent st x).has_sfx)
    (h2 : r.sfx = (ent st x).sfx) :
    attachmentConsistent { st with entityList := writeAt st.entityList x r } := by
  refine consistent_of_ent_fields st _ rfl ?_ h
  intro y
  unfold ent at *
  simp only
  rw [readAt_writeAt]
  split_ifs with hy
  · obtain ⟨hy1, _⟩ := hy
    subst hy1
    exact ⟨h1, h2⟩
  · exact ⟨rfl, rfl⟩

theorem attach_consistent (st : ALState) (k e : Int) (s : src_t) (r : sentity_t)
    (h : attachmentConsistent st)
    (hk : 0 ≤ k ∧ k.toNat < st.srcList.length) (he : 0 ≤ e ∧ e.toNat < st.entityList.length)
    (hold : (chan st k).isLooping = false) (hent : (ent st e).has_sfx = false)
    (hs : s.isLooping = true ∧ s.isActive = true ∧ s.isLocked = false ∧ s.entity = e)
    (hr : r.has_sfx = true ∧ r.sfx = k) :
    attachmentConsistent
      { st with srcList := writeAt st.srcList k s, entityList := writeAt st.entityList e r } := by
  obtain ⟨hA, hB⟩ := h
  have hch : ∀ c : Int,
      chan { st with srcList := writeAt st.srcList k s,
                     entityList := writeAt st.entityList e r } c =
        if k = c then s else chan st c := by
    intro c; unfold chan; simp only
    rw [readAt_writeAt]
    by_cases hkc : k = c
    · rw [if_pos ⟨hkc, hk⟩, if_pos hkc]
    · rw [if_neg (fun hh => hkc hh.1), if_neg hkc]
  have hen : ∀ y : Int,
      ent { st with srcList := writeAt st.srcList k s,
                    entityList := writeAt st.entityList e r } y =
        if e = y then r else ent st y := by
    intro y; unfold ent; simp only
    rw [readAt_writeAt]
    by_cases hey : e = y
    · rw [if_pos ⟨hey, he⟩, if_pos hey]
    · rw [if_neg (fun hh => hey hh.1), if_neg hey]
  constructor
  · intro y hy
    rw [hen] at hy ⊢
    by_cases hey : e = y
    · rw [if_pos hey, hr.2, hch, if_pos rfl]
      exact ⟨hs.1, hs.2.2.2.trans hey⟩
    · rw [if_neg hey] at hy ⊢
      obtain ⟨a1, a2⟩ := hA y hy
      have hne : k ≠ (ent st y).sfx := by
        intro hh; rw [← hh, hold] at a1; exact absurd a1 (by decide)
      rw [hch, if_neg hne]
      exact ⟨a1, a2⟩
  · intro c hc
    rw [hch] at hc ⊢
    by_cases hkc : k = c
    · rw [if_pos hkc, hs.2.2.2, hen, if_pos rfl]
      exact ⟨hs.2.1, hs.2.2.1, hr.1, hr.2.trans hkc⟩
    · rw [if_neg hkc] at hc ⊢
      obtain ⟨b1, b2, b3, b4⟩ := hB c hc
      have hne : e ≠ (chan st c).entity := by
        intro hh; rw [← hh, hent] at b3; exact absurd b3 (by decide)
      rw [hen, if_neg hne]
      exact ⟨b1, b2, b3, b4⟩

theorem vars_empty_idle (p : alSrcPriority_t) (l : List src_t) :
    ∀ (i : Nat) (v : AllocVars),
      (S_AL_SrcAlloc_vars p l i v).empty = v.empty ∨
      ∃ j, j < l.length ∧ (S_AL_SrcAlloc_vars p l i v).empty = ((i + j : Nat) : Int) ∧
        (l.getD j default).isLocked = false ∧ (l.getD j default).isActive = false := by
  induction l with
  | nil => intro i v; left; rfl
  | cons s rest ih =>
    intro i v
    have shift : ∀ w : Int, (∃ j, j < rest.length ∧ w = ((i + 1 + j : Nat) : Int) ∧
        (rest.getD j default).isLocked = false ∧ (rest.getD j default).isActive = false) →
        ∃ j, j < (s :: rest).length ∧ w = ((i + j : Nat) : Int) ∧
          ((s :: rest).getD j default).isLocked = false ∧
          ((s :: rest).getD j default).isActive = false := by
      rintro w ⟨j, hj, hw, hl, ha⟩
      exact ⟨j + 1, by simp [hj], by rw [hw]; congr 1; omega, by simpa using hl,
        by simpa using ha⟩
    by_cases hl : s.isLocked = true
    · rw [vars_cons_locked p s rest i v hl]
      rcases ih (i + 1) v with h | h
      · left; exact h
      · right; exact shift _ h
    · have hv : S_AL_SrcAlloc_vars p (s :: rest) i v =
          S_AL_SrcAlloc_vars p rest (i + 1) (S_AL_SrcAlloc_step p i s v) := by
        simp [S_AL_SrcAlloc_vars, hl]
      rw [hv]
      rcases ih (i + 1) (S_AL_SrcAlloc_step p i s v) with h | h
      · rcases step_empty p i s v with h1 | h1
        · left; rw [h, h1]
        · right
          exact ⟨0, by simp, by rw [h, h1.1]; simp, by simpa using hl, by simpa using h1.2⟩
      · right; exact shift _ h

/-- The channel `S_AL_SrcAlloc` returns without a kill is an idle one. -/
theorem alloc_result_idle (st : ALState) (now : Int) (p : alSrcPriority_t) (e c : Int) :
    S_AL_SrcAlloc st now p e c = (-1, st) ∨
    ∃ k : Nat, k < st.srcList.length ∧ (chan st k).isLocked = false ∧
      ((S_AL_SrcAlloc st now p e c = ((k : Int), st) ∧ (chan st k).isActive = false) ∨
        S_AL_SrcAlloc st now p e c = ((k : Int), S_AL_SrcKill st k)) := by
  cases hres : S_AL_SrcAlloc_loop p e c st.srcList 0 { weakest_time := now } with
  | inl k =>
    right
    obtain ⟨j, hk, hj, hl, _, _⟩ := loop_inl p e c st.srcList 0 _ k hres
    have hkj : k = j := by omega
    subst hkj
    refine ⟨k, hj, by rw [chan_natCast]; exact hl, Or.inr ?_⟩
    simp [S_AL_SrcAlloc, hres]
  | inr v =>
    have hno := loop_inr p e c st.srcList 0 _ v hres
    rw [alloc_no_match st now p e c hno]
    by_cases h1 : (S_AL_SrcAlloc_vars p st.srcList 0 { weakest_time := now }).empty ≠ -1
    · rw [if_pos h1]
      right
      rcases vars_empty_idle p st.srcList 0 { weakest_time := now } with h | ⟨j, hj, hw, hl, ha⟩
      · exact absurd h h1
      · refine ⟨j, hj, by rw [chan_natCast]; exact hl, Or.inl ⟨?_, by rw [chan_natCast]; exact ha⟩⟩
        rw [hw]; simp
    · rw [if_neg h1]
      by_cases h2 : (S_AL_SrcAlloc_vars p st.srcList 0 { weakest_time := now }).weakest ≠ -1
      · rw [if_pos h2]
        right
        rcases vars_weakest_range p st.srcList 0 { weakest_time := now } with h | ⟨j, hj, hw, hl⟩
        · exact absurd h h2
        · refine ⟨j, hj, by rw [chan_natCast]; exact hl, Or.inr ?_⟩
          rw [hw]; simp
      · rw [if_neg h2]; left; rfl

/-- What `S_AL_SrcAlloc` leaves: the tables agree on the looping sounds as
before, the channel it returns is in the pool and not looping, the entity table
keeps its length, and no entity gains a loop. -/
theorem alloc_consistent (st : ALState) (now : Int) (p : alSrcPriority_t) (e c : Int)
    (h : attachmentConsistent st) :
    attachmentConsistent (S_AL_SrcAlloc st now p e c).2 ∧
    ((S_AL_SrcAlloc st now p e c).1 = -1 ∨
      (0 ≤ (S_AL_SrcAlloc st now p e c).1 ∧
        (S_AL_SrcAlloc st now p e c).1.toNat < (S_AL_SrcAlloc st now p e c).2.srcList.length ∧
        (chan (S_AL_SrcAlloc st now p e c).2 (S_AL_SrcAlloc st now p e c).1).isLooping = false)) ∧
    (S_AL_SrcAlloc st now p e c).2.entityList.length = st.entityList.length ∧
    ∀ x : Int, (ent st x).has_sfx = false →
      (ent (S_AL_SrcAlloc st now p e c).2 x).has_sfx = false := by
  rcases alloc_result_idle st now p e c with hr | ⟨k, hk, hl, ⟨hr, ha⟩ | hr⟩
  · rw [hr]; exact ⟨h, Or.inl rfl, rfl, fun _ hx => hx⟩
  · rw [hr]
    refine ⟨h, Or.inr ⟨by simp, by simpa using hk, ?_⟩, rfl, fun _ hx => hx⟩
    simp only
    by_contra hcon
    have := (h.2 (k : Int) (by simpa using hcon)).1
    rw [ha] at this
    exact absurd this (by decide)
  · rw [hr]
    refine ⟨kill_consistent st k h, Or.inr ⟨by simp, ?_, ?_⟩, kill_entityList_length st k, ?_⟩
    · simp only [Int.toNat_ofNat, kill_length]; exact hk
    · exact kill_chan_self_unlocked st k hl
    · intro x hx
      rcases kill_ent_cases st k x with h1 | h1
      · simp only; rw [h1]; exact hx
      · exact h1.1

theorem srcInit_loop_fresh (gen : Nat → Nat × ALenum) :
    ∀ (n i : Nat) (st : ALState), (∀ s ∈ st.srcList, s.isLooping = false) →
      (∀ s ∈ (S_AL_SrcInit_loop gen n i st).srcList, s.isLooping = false) ∧
      (S_AL_SrcInit_loop gen n i st).entityList = st.entityList := by
  intro n
  induction n with
  | zero => intro i st h; exact ⟨h, rfl⟩
  | succ n ih =>
    intro i st h
    by_cases hg : (gen i).2 ≠ .AL_NO_ERROR
    · have hstep : S_AL_SrcInit_loop gen (n + 1) i st =
          { st with log := st.log ++ [Event.genSources i] } := by
        simp [S_AL_SrcInit_loop, hg]
      rw [hstep]
      exact ⟨h, rfl⟩
    · have hg0 : (gen i).2 = .AL_NO_ERROR := by simpa using hg
      have hstep : S_AL_SrcInit_loop gen (n + 1) i st =
          S_AL_SrcInit_loop gen n (i + 1)
            { st with log := st.log ++ [Event.genSources i],
                      srcList := st.srcList ++ [{ source := (gen i).1 }] } := by
        simp [S_AL_SrcInit_loop, hg0]
      rw [hstep]
      refine ih (i + 1) _ ?_
      intro s hs
      simp only [List.mem_append, List.mem_singleton] at hs
      rcases hs with hs | hs
      · exact h s hs
      · rw [hs]

/-- The tables of a freshly initialised pool agree: nothing loops, no entity is flagged. -/
theorem init_consistent (st : ALState) (r : Int) (gen : Nat → Nat × ALenum)
    (h : ∀ x ∈ st.entityList, x.has_sfx = false) :
    attachmentConsistent (S_AL_SrcInit st r gen) := by
  obtain ⟨h1, h2⟩ := srcInit_loop_fresh gen (S_AL_SrcInit_limit r).toNat 0
    { st with srcList := [] } (by intro s hs; simp at hs)
  constructor
  · intro e he
    exfalso
    have hr := ent_in_range _ e he
    unfold ent S_AL_SrcInit at he hr
    simp only [h2] at he hr
    have hmem := readAt_mem st.entityList e hr.1 hr.2
    rw [h _ hmem] at he
    exact absurd he (by decide)
  · intro c hc
    exfalso
    have hr := chan_in_range _ c hc
    unfold chan S_AL_SrcInit at hc hr
    simp only at hc hr
    have hmem := readAt_mem _ c hr.1 hr.2
    rw [h1 _ hmem] at hc
    exact absurd hc (by decide)

theorem lock_consistent (st : ALState) (k : Int) (h : attachmentConsistent st)
    (hk : (chan st k).isLooping = false) : attachmentConsistent (S_AL_SrcLock st k) := by
  unfold S_AL_SrcLock
  refine writeChan_consistent st k _ h rfl ?_
  intro hs
  have : (chan st k).isLooping = true := hs
  rw [hk] at this
  exact absurd this (by decide)

theorem unlock_consistent (st : ALState) (k : Int) (h : attachmentConsistent st) :
    attachmentConsistent (S_AL_SrcUnlock st k) := by
  unfold S_AL_SrcUnlock
  refine writeChan_consistent st k _ h rfl ?_
  intro hs
  exact ⟨(h.2 k hs).1, rfl, rfl⟩

theorem allocateStream_consistent (st : ALState) (now : Int) (h : attachmentConsistent st) :
    attachmentConsistent (S_AL_AllocateStreamChannel st now) := by
  obtain ⟨h1, h2, _, _⟩ := alloc_consistent st now .SRCPRI_STREAM (-2) 0 h
  unfold S_AL_AllocateStreamChannel
  cases hres : S_AL_SrcAlloc st now .SRCPRI_STREAM (-2) 0 with
  | mk hdl st1 =>
    rw [hres] at h1 h2
    simp only at h1 h2 ⊢
    by_cases hh : hdl = -1
    · rw [if_pos hh]
      exact consistent_congr st1 _ rfl rfl h1
    · rw [if_neg hh]
      rcases h2 with h2 | ⟨_, _, h2⟩
      · exact absurd h2 hh
      · exact lock_consistent _ hdl (consistent_congr st1 _ rfl rfl h1) h2

theorem musicSourceGet_consistent (st : ALState) (now : Int) (h : attachmentConsistent st) :
    attachmentConsistent (S_AL_MusicSourceGet st now) := by
  obtain ⟨h1, h2, _, _⟩ := alloc_consistent st now .SRCPRI_STREAM (-2) 0 h
  unfold S_AL_MusicSourceGet
  cases hres : S_AL_SrcAlloc st now .SRCPRI_STREAM (-2) 0 with
  | mk hdl st1 =>
    rw [hres] at h1 h2
    simp only at h1 h2 ⊢
    by_cases hh : hdl = -1
    · rw [if_pos hh]
      exact consistent_congr st1 _ rfl rfl h1
    · rw [if_neg hh]
      rcases h2 with h2 | ⟨_, _, h2⟩
      · exact absurd h2 hh
      · exact lock_consistent _ hdl (consistent_congr st1 _ rfl rfl h1) h2

theorem freeStream_consistent (st : ALState) (h : attachmentConsistent st) :
    attachmentConsistent (S_AL_FreeStreamChannel st) := by
  unfold S_AL_FreeStreamChannel
  exact consistent_congr _ _ rfl rfl (unlock_consistent st st.streamSourceHandle h)

theorem musicSourceFree_consistent (st : ALState) (h : attachmentConsistent st) :
    attachmentConsistent (S_AL_MusicSourceFree st) := by
  unfold S_AL_MusicSourceFree
  exact consistent_congr _ _ rfl rfl (unlock_consistent st st.musicSourceHandle h)

theorem stopLooping_consistent (st : ALState) (e : Int) (h : attachmentConsistent st) :
    attachmentConsistent (S_AL_StopLoopingSound st e) := by
  unfold S_AL_StopLoopingSound
  split_ifs
  · exact kill_consistent st _ h
  · exact h

theorem clearLooping_consistent (st : ALState) (h : attachmentConsistent st) :
    attachmentConsistent (S_AL_ClearLoopingSounds st) := by
  refine consistent_of_ent_fields st _ rfl ?_ h
  intro x
  obtain ⟨h1, h2, _, _⟩ := clear_fold_spec st.srcList x st.entityList
  exact ⟨h1, h2⟩

theorem update_step_consistent (stopped : Nat → Bool) (i : Nat) (st : ALState)
    (h : attachmentConsistent st) : attachmentConsistent (S_AL_SrcUpdate_step stopped i st) := by
  unfold S_AL_SrcUpdate_step
  simp only
  split_ifs
  · exact h
  · exact h
  · exact kill_consistent st i h
  · exact kill_consistent _ i (consistent_congr st _ rfl rfl h)
  · exact h
  · exact h

theorem update_loop_consistent (stopped : Nat → Bool) :
    ∀ (n i : Nat) (st : ALState), attachmentConsistent st →
      attachmentConsistent (S_AL_SrcUpdate_loop stopped n i st) := by
  intro n
  induction n with
  | zero => intro i st h; exact h
  | succ n ih =>
    intro i st h
    exact ih (i + 1) _ (update_step_consistent stopped i st h)

theorem kills_consistent (l : List Nat) :
    ∀ st : ALState, attachmentConsistent st →
      attachmentConsistent (l.foldl (fun s i => S_AL_SrcKill s i) st) := by
  induction l with
  | nil => intro st h; exact h
  | cons a rest ih =>
    intro st h
    exact ih _ (kill_consistent st a h)

/-- The channel set up by `S_AL_SrcSetup` was not looping before: the tables
still agree, and the channel is playing, not locked, not looping and owned by
the entity given. -/
theorem setup_consistent (st st2 : ALState) (env : Env) (src : Int) (sfx : sfxHandle_t)
    (p : alSrcPriority_t) (e c : Int) (l : Bool)
    (hset : S_AL_SrcSetup st env src sfx p e c l = .ok st2)
    (h : attachmentConsistent st) (hk : (chan st src).isLooping = false) :
    attachmentConsistent st2 ∧ st2.entityList = st.entityList ∧
    st2.srcList.length = st.srcList.length ∧
    (0 ≤ src ∧ src.toNat < st.srcList.length →
      (chan st2 src).isLooping = false ∧ (chan st2 src).isActive = true ∧
      (chan st2 src).isLocked = false ∧ (chan st2 src).entity = e) := by
  obtain ⟨he, hs⟩ := setup_ok st st2 env src sfx p e c l hset
  refine ⟨?_, he, by rw [hs, length_writeAt], ?_⟩
  · have hw := writeChan_consistent st src
      { readAt st.srcList src with
        lastUse := env.setupTime, sfx := sfx, priority := p, entity := e, channel := c,
        isActive := true, isLocked := false, isLooping := false, isTracking := false,
        local_ := l } h hk.symm (fun hh => by cases hh)
    refine consistent_congr _ st2 ?_ ?_ hw
    · exact hs
    · exact he
  · intro hr
    unfold chan
    rw [hs, readAt_writeAt_self _ _ _ hr.1 hr.2]
    exact ⟨rfl, rfl, rfl, rfl⟩

theorem startLocalSound_consistent (st st1 : ALState) (env : Env) (sfx : sfxHandle_t)
    (channel : Int) (src : srcHandle_t)
    (hres : S_AL_StartLocalSound st env sfx channel = .ok (src, st1))
    (h : attachmentConsistent st) : attachmentConsistent st1 := by
  obtain ⟨h1, h2, _, _⟩ := alloc_consistent st env.allocTime .SRCPRI_LOCAL (-1) channel h
  unfold S_AL_StartLocalSound at hres
  cases ha : S_AL_SrcAlloc st env.allocTime .SRCPRI_LOCAL (-1) channel with
  | mk hdl sta =>
    rw [ha] at hres h1 h2
    simp only at hres h1 h2
    by_cases hh : hdl = -1
    · rw [if_pos hh] at hres
      simp only [Except.ok.injEq, Prod.mk.injEq] at hres
      rw [← hres.2]; exact h1
    · rw [if_neg hh] at hres
      rcases h2 with h2 | ⟨_, _, h2⟩
      · exact absurd h2 hh
      · cases hset : S_AL_SrcSetup sta env hdl sfx .SRCPRI_LOCAL (-1) channel true with
        | error x => rw [hset] at hres; simp at hres
        | ok st2 =>
          rw [hset] at hres
          simp only [Except.ok.injEq, Prod.mk.injEq] at hres
          rw [← hres.2]
          exact consistent_congr st2 _ rfl rfl
            (setup_consistent sta st2 env hdl sfx _ _ _ _ hset h1 h2).1

theorem startSound_consistent (st st1 : ALState) (env : Env) (originNull : Bool)
    (entnum entchannel : Int) (sfx : sfxHandle_t) (src : srcHandle_t)
    (hres : S_AL_StartSound st env originNull entnum entchannel sfx = .ok (src, st1))
    (h : attachmentConsistent st) : attachmentConsistent st1 := by
  obtain ⟨h1, h2, _, _⟩ := alloc_consistent st env.allocTime .SRCPRI_ONESHOT entnum entchannel h
  unfold S_AL_StartSound at hres
  cases ha : S_AL_SrcAlloc st env.allocTime .SRCPRI_ONESHOT entnum entchannel with
  | mk hdl sta =>
    rw [ha] at hres h1 h2
    simp only at hres h1 h2
    by_cases hh : hdl = -1
    · rw [if_pos hh] at hres
      simp only [Except.ok.injEq, Prod.mk.injEq] at hres
      rw [← hres.2]; exact h1
    · rw [if_neg hh] at hres
      rcases h2 with h2 | ⟨_, _, h2⟩
      · exact absurd h2 hh
      · cases hset : S_AL_SrcSetup sta env hdl sfx .SRCPRI_ONESHOT entnum entchannel false with
        | error x => rw [hset] at hres; simp at hres
        | ok st2 =>
          rw [hset] at hres
          simp only [Except.ok.injEq, Prod.mk.injEq] at hres
          rw [← hres.2]
          have h3 := (setup_consistent sta st2 env hdl sfx _ _ _ _ hset h1 h2).1
          cases originNull
          · exact consistent_congr st2 _ rfl rfl h3
          · refine consistent_congr
              { st2 with srcList := writeAt st2.srcList hdl
                          { readAt st2.srcList hdl with isTracking := true } } _ rfl rfl ?_
            refine writeChan_consistent st2 hdl _ h3 rfl ?_
            intro hs
            exact ⟨(h3.2 hdl hs).1, (h3.2 hdl hs).2.1, rfl⟩

/-- The part of `S_AL_SrcLoop` that starts the loop on a channel that is in the
pool and not looping, for an entity of the table that has no loop. -/
theorem loop_play_consistent (st0 st2 stf : ALState) (env : Env) (src : Int)
    (sfx : sfxHandle_t) (p : alSrcPriority_t) (e : Int)
    (hset : S_AL_SrcSetup st0 env src sfx p e (-1) false = .ok st2)
    (h : attachmentConsistent st0)
    (hsrc : 0 ≤ src ∧ src.toNat < st0.srcList.length)
    (hn : (chan st0 src).isLooping = false)
    (he : 0 ≤ e ∧ e.toNat < st0.entityList.length) (hh : (ent st0 e).has_sfx = false)
    (hs : stf.srcList = writeAt st2.srcList src { readAt st2.srcList src with isLooping := true })
    (hen : stf.entityList =
      writeAt
        (writeAt st2.entityList e { readAt st2.entityList e with has_sfx := true, sfx := src }) e
        { readAt
            (writeAt st2.entityList e { readAt st2.entityList e with has_sfx := true, sfx := src })
            e with touched := true }) :
    attachmentConsistent stf := by
  obtain ⟨h2, hent, hlen, hch⟩ := setup_consistent st0 st2 env src sfx p e (-1) false hset h hn
  obtain ⟨c1, c2, c3, c4⟩ := hch hsrc
  have hA := attach_consistent st2 src e
    { readAt st2.srcList src with isLooping := true }
    { readAt st2.entityList e with has_sfx := true, sfx := src } h2
    (by rw [hlen]; exact hsrc) (by rw [hent]; exact he) c1
    (by unfold ent; rw [hent]; exact hh) ⟨rfl, c2, c3, c4⟩ ⟨rfl, rfl⟩
  have hB := writeEnt_consistent _ e
    { readAt
        (writeAt st2.entityList e { readAt st2.entityList e with has_sfx := true, sfx := src })
        e with touched := true } hA rfl rfl
  refine consistent_congr _ stf ?_ ?_ hB
  · exact hs
  · exact hen

theorem srcLoop_consistent (st st1 : ALState) (env : Env) (p : alSrcPriority_t)
    (sfx : sfxHandle_t) (e : Int) (he0 : 0 ≤ e) (he1 : e < (st.entityList.length : Int))
    (hres : S_AL_SrcLoop st env p sfx e = .ok st1) (h : attachmentConsistent st) :
    attachmentConsistent st1 := by
  have her : 0 ≤ e ∧ e.toNat < st.entityList.length := ⟨he0, by omega⟩
  unfold S_AL_SrcLoop at hres
  simp only at hres
  by_cases hh : (readAt st.entityList e).has_sfx = false
  · rw [if_pos hh] at hres
    have h0 : attachmentConsistent { st with ambientCount := st.ambientCount + 1 } :=
      consistent_congr st _ rfl rfl h
    obtain ⟨h1, h2, h3, h4⟩ :=
      alloc_consistent { st with ambientCount := st.ambientCount + 1 } env.allocTime p e (-1) h0
    cases ha : S_AL_SrcAlloc { st with ambientCount := st.ambientCount + 1 } env.allocTime p
        e (-1) with
    | mk hdl sta =>
      rw [ha] at hres h1 h2 h3 h4
      simp only at hres h1 h2 h3 h4
      by_cases hd : hdl = -1
      · rw [if_pos hd] at hres
        simp only [Except.ok.injEq] at hres
        rw [← hres]; exact h1
      · rw [if_neg hd] at hres
        rcases h2 with h2 | ⟨k1, k2, k3⟩
        · exact absurd h2 hd
        · cases hset : S_AL_SrcSetup sta env hdl sfx p e (-1) false with
          | error x => rw [hset] at hres; simp at hres
          | ok st2 =>
            rw [hset] at hres
            simp only [Except.ok.injEq] at hres
            rw [← hres]
            exact loop_play_consistent sta st2 _ env hdl sfx p e hset h1 ⟨k1, k2⟩ k3
              (by rw [h3]; exact her) (h4 e hh) rfl rfl
  · have hh1 : (ent st e).has_sfx = true := by
      unfold ent; simpa using hh
    rw [if_neg hh] at hres
    obtain ⟨a1, a2⟩ := h.1 e hh1
    obtain ⟨_, b2, _, _⟩ := h.2 _ a1
    have hr := chan_in_range st _ a1
    by_cases hsf : (readAt st.srcList (readAt st.entityList e).sfx).sfx ≠ sfx
    · rw [if_pos hsf] at hres
      cases hset : S_AL_SrcSetup (S_AL_SrcKill st (readAt st.entityList e).sfx) env
          (readAt st.entityList e).sfx sfx p e (-1) false with
      | error x => rw [hset] at hres; simp at hres
      | ok st2 =>
        rw [hset] at hres
        simp only [Except.ok.injEq] at hres
        rw [← hres]
        exact loop_play_consistent _ st2 _ env _ sfx p e hset (kill_consistent st _ h)
          (by rw [kill_length]; exact hr) (kill_chan_self_unlocked st _ b2)
          (by rw [kill_entityList_length]; exact her) (kill_ent_self st _ e b2 a1 a2) rfl rfl
    · rw [if_neg hsf] at hres
      simp only [Except.ok.injEq] at hres
      rw [← hres]
      exact writeEnt_consistent st e _ h rfl rfl

/-- In every state of the pool the two tables agree on the looping sounds. -/
theorem reachable_consistent (st : ALState) (h : PoolReachable st) : attachmentConsistent st := by
  induction h with
  | init st n r gen =>
    exact init_consistent _ r gen (fun x hx => by rw [List.eq_of_mem_replicate hx])
  | startSound st st1 env originNull entnum entchannel sfx src _ _ hres ih =>
    exact startSound_consistent st st1 env originNull entnum entchannel sfx src hres ih
  | startLocalSound st st1 env sfx channel src _ hres ih =>
    exact startLocalSound_consistent st st1 env sfx channel src hres ih
  | srcLoop st st1 env priority sfx entnum _ h0 h1 hres ih =>
    exact srcLoop_consistent st st1 env priority sfx entnum h0 h1 hres ih
  | stopLoopingSound st e _ _ _ ih => exact stopLooping_consistent st e ih
  | clearLoopingSounds st _ ih => exact clearLooping_consistent st ih
  | srcUpdate st stopped _ ih => exact update_loop_consistent stopped _ 0 st ih
  | srcShutup st _ ih => exact kills_consistent _ st ih
  | allocateStreamChannel st now _ _ ih => exact allocateStream_consistent st now ih
  | freeStreamChannel st _ _ ih => exact freeStream_consistent st ih
  | musicSourceGet st now _ _ ih => exact musicSourceGet_consistent st now ih
  | musicSourceFree st _ _ ih => exact musicSourceFree_consistent st ih

/-- From the first initialisation of the pool on (`PoolReachable`: the entity
table starts zeroed, entity numbers index the table), an entity `e` has
`has_sfx` set if and only if some channel of the pool is active, looping and
owned by `e`; and then `entityList[e].sfx` is the index of that channel, which
is not locked, and no other channel is a loop of `e`. -/
theorem attachment_from_start (st : ALState) (h : PoolReachable st) (e : Int) :
    ((ent st e).has_sfx = true ↔
      ∃ c : Nat, c < srcCount st ∧ (chan st c).isActive = true ∧
        (chan st c).isLooping = true ∧ (chan st c).entity = e) ∧
    ((ent st e).has_sfx = true → ∃ c : Nat, attachedLoop st e c) := by
  obtain ⟨hA, hB⟩ := reachable_consistent st h
  have hatt : (ent st e).has_sfx = true → ∃ c : Nat, attachedLoop st e c := by
    intro he
    obtain ⟨a1, a2⟩ := hA e he
    obtain ⟨b1, b2, _, _⟩ := hB _ a1
    obtain ⟨r0, r1⟩ := chan_in_range st _ a1
    have hc : (((ent st e).sfx.toNat : Nat) : Int) = (ent st e).sfx := Int.toNat_of_nonneg r0
    refine ⟨(ent st e).sfx.toNat, he, hc.symm, r1, ?_, ?_, ?_, ?_, ?_⟩
    · rw [hc]; exact b1
    · rw [hc]; exact a1
    · rw [hc]; exact b2
    · rw [hc]; exact a2
    · intro j _ hj hloop hent
      have := (hB j hloop).2.2.2
      rw [hent, ← hc] at this
      exact hj (by exact_mod_cast this.symm)
  refine ⟨⟨?_, ?_⟩, hatt⟩
  · intro he
    obtain ⟨c, _, _, hc, h1, h2, _, h4, _⟩ := hatt he
    exact ⟨c, hc, h1, h2, h4⟩
  · rintro ⟨c, _, _, hloop, hent⟩
    have := (hB c hloop).2.2.1
    rw [hent] at this
    exact this

/-- The agreement of the tables on `poolLooping`, where entity 4 has a loop: it sits on channel 0. -/
theorem attachment_from_start_poolLooping :
    (ent poolLooping 4).has_sfx = true ∧
    ((ent poolLooping 4).has_sfx = true ↔
      ∃ c : Nat, c < srcCount poolLooping ∧ (chan poolLooping c).isActive = true ∧
        (chan poolLooping c).isLooping = true ∧ (chan poolLooping c).entity = 4) ∧
    ((ent poolLooping 4).has_sfx = true → ∃ c : Nat, attachedLoop poolLooping 4 c) :=
  ⟨by decide,
    attachment_from_start poolLooping
      (PoolReachable.srcLoop (S_AL_SrcInit poolStart 16 genAll) poolLooping envLoads
        .SRCPRI_AMBIENT 1 4 (PoolReachable.init poolStart 8 16 genAll) (by decide)
        (by decide) rfl) 4⟩

/-- C20 (the code at the failing input): a loop of entity 4 plays on channel 0
(`poolLooping`, where the two tables agree); the sound system is shut down
(`S_AL_Shutdown`) and the pool is initialised again (`S_AL_SrcInit`, as
`S_AL_Init` does).  `S_AL_SrcShutdown` zeroes the pool without detaching the
loops and `S_AL_SrcInit` does not write the entity table: in the freshly
initialised pool of 16 channels entity 4 still has `has_sfx` set and names
channel 0, while no channel is active or looping, so "`has_sfx` if and only if
an active looping channel is owned by the entity" is false for entity 4. -/
theorem C20_stale_attachment_after_restart :
    attachedLoop poolLooping 4 0 ∧
    poolRestarted = S_AL_SrcInit (S_AL_Shutdown poolLooping) 16 genAll ∧
    srcCount poolRestarted = 16 ∧
    (ent poolRestarted 4).has_sfx = true ∧ (ent poolRestarted 4).sfx = 0 ∧
    (∀ c : Nat, c < srcCount poolRestarted →
      (chan poolRestarted c).isActive = false ∧ (chan poolRestarted c).isLooping = false) ∧
    ¬ ((ent poolRestarted 4).has_sfx = true ↔
        ∃ c : Nat, c < srcCount poolRestarted ∧ (chan poolRestarted c).isActive = true ∧
          (chan poolRestarted c).isLooping = true ∧ (chan poolRestarted c).entity = 4) := by
  have hall : ∀ c : Nat, c < srcCount poolRestarted →
      (chan poolRestarted c).isActive = false ∧ (chan poolRestarted c).isLooping = false := by
    decide
  refine ⟨by decide, rfl, by decide, by decide, by decide, hall, ?_⟩
  intro hiff
  obtain ⟨c, hc, hact, _⟩ := hiff.1 (by decide)
  rw [(hall c hc).1] at hact
  cases hact

/-! ## Identity of the playing channels -/

theorem ok_finalState {α : Type} (r : Result (α × ALState)) (h : r.isOk = true) :
    ∃ a, r = .ok (a, finalState Prod.snd r) := by
  cases r with
  | error x => cases h
  | ok v => exact ⟨v.1, rfl⟩

/-- C21 (as stated, refuted), two runs from a freshly initialised pool of 16
channels.
First run, from the pool of the program start: start a one-shot for entity 5 on
logical channel 1 (channel 0), a local sound on logical channel -1 (channel 1),
let the sweep kill channel 0, and start a local sound on logical channel -1
again.  The request matches the killed channel 0, which carries the pair
(-1, -1), and is set up there: channels 0 and 1 are both active with entity -1
and logical channel -1.
Second run, from the pool initialised again after a shutdown during which
entity 4 had a loop on channel 0 (`poolRestarted`, whose entity table still
flags entity 4): start a one-shot for entity 7 on logical channel 1 (channel 0)
and one for entity 4 on logical channel -1 (channel 1), then request a loop of
another sound for entity 4.  `S_AL_SrcLoop` takes the channel the entity table
names, channel 0, without a search: channels 0 and 1 are both active with
entity 4 and logical channel -1. -/
theorem C21_counterexample :
    (PoolReachable poolTwice ∧ 0 < srcCount poolTwice ∧ 1 < srcCount poolTwice ∧
      (chan poolTwice 0).isActive = true ∧ (chan poolTwice 1).isActive = true ∧
      (chan poolTwice 0).entity = -1 ∧ (chan poolTwice 0).channel = -1 ∧
      (chan poolTwice 1).entity = -1 ∧ (chan poolTwice 1).channel = -1) ∧
    ((S_AL_StartSound poolRestarted envLoads false 7 1 1).isOk = true ∧
      (S_AL_StartSound (finalState Prod.snd (S_AL_StartSound poolRestarted envLoads false 7 1 1))
        envLoads false 4 (-1) 1).isOk = true ∧
      (S_AL_SrcLoop poolRestartedPlayed envLoads .SRCPRI_AMBIENT 2 4).isOk = true ∧
      1 < srcCount poolRestartedLooped ∧
      (chan poolRestartedLooped 0).isActive = true ∧
      (chan poolRestartedLooped 1).isActive = true ∧
      (chan poolRestartedLooped 0).entity = 4 ∧ (chan poolRestartedLooped 0).channel = -1 ∧
      (chan poolRestartedLooped 1).entity = 4 ∧ (chan poolRestartedLooped 1).channel = -1) := by
  refine ⟨⟨?_, by decide, by decide, by decide, by decide, by decide, by decide, by decide,
    by decide⟩, by decide, by decide, by decide, by decide, by decide, by decide, by decide,
    by decide, by decide, by decide⟩
  have h0 : PoolReachable (S_AL_SrcInit poolStart 16 genAll) :=
    PoolReachable.init poolStart 8 16 genAll
  have h1 : PoolReachable poolOne :=
    PoolReachable.startSound _ poolOne envLoads false 5 1 1 0 h0 (fun h => by cases h) rfl
  have h2 : PoolReachable poolLocal :=
    PoolReachable.startLocalSound _ poolLocal envLoads 1 (-1) 1 h1 rfl
  have h3 : PoolReachable poolSwept := PoolReachable.srcUpdate _ _ h2
  obtain ⟨src, h4⟩ := ok_finalState (S_AL_StartLocalSound poolSwept envLoads 1 (-1)) (by decide)
  exact PoolReachable.startLocalSound _ poolTwice envLoads 1 (-1) src h3 h4

theorem tidy_congr (st st1 : ALState) (hs : st1.srcList = st.srcList)
    (he : st1.entityList = st.entityList) (h : poolTidy st) : poolTidy st1 := by
  unfold poolTidy chan ent at *
  rw [hs, he]; exact h

/-- A channel that was killed while not locked is idle and carries a killed or a fresh pair. -/
theorem kill_chan_self_idle (st : ALState) (k : Int) (hl : (chan st k).isLocked = false) :
    (chan (S_AL_SrcKill st k) k).isActive = false ∧
    (chan (S_AL_SrcKill st k) k).isLooping = false ∧
    (chan (S_AL_SrcKill st k) k).isLocked = false ∧
    (((chan (S_AL_SrcKill st k) k).entity = 0 ∧ (chan (S_AL_SrcKill st k) k).channel = 0) ∨
      ((chan (S_AL_SrcKill st k) k).entity = -1 ∧ (chan (S_AL_SrcKill st k) k).channel = -1)) := by
  by_cases hr : 0 ≤ k ∧ k.toNat < st.srcList.length
  · obtain ⟨_, _, _, f4, f5, f6, f7, f8, _⟩ := kill_chan_self st k hr.1 hr.2 hl
    exact ⟨f6, f8, f7, Or.inr ⟨f4, f5⟩⟩
  · have hd : chan (S_AL_SrcKill st k) k = default := by
      unfold chan
      exact readAt_out_of_range _ _ (by rw [kill_length]; omega)
    rw [hd]
    exact ⟨rfl, rfl, rfl, Or.inl ⟨rfl, rfl⟩⟩

theorem kill_tidy (st : ALState) (k : Int) (h : poolTidy st) : poolTidy (S_AL_SrcKill st k) := by
  by_cases hl : (chan st k).isLocked = true
  · rw [kill_of_locked st k hl]; exact h
  have hl0 : (chan st k).isLocked = false := by simpa using hl
  obtain ⟨i1, i2, i3, i4⟩ := kill_chan_self_idle st k hl0
  obtain ⟨t1, t2, t3, t4, t5⟩ := h
  have hne : ∀ j : Int, (chan (S_AL_SrcKill st k) j).isActive = true → k ≠ j := by
    intro j hj hk
    subst hk
    rw [i1] at hj
    exact absurd hj (by decide)
  refine ⟨?_, ?_, ?_, ?_, ?_⟩
  · intro j hj
    by_cases hk : k = j
    · subst hk; exact i4
    · rw [kill_chan_ne st k j hk] at hj ⊢
      exact t1 j hj
  · intro j hj
    by_cases hk : k = j
    · subst hk; exact i1
    · rw [kill_chan_ne st k j hk] at hj ⊢
      exact t2 j hj
  · intro j hj
    by_cases hk : k = j
    · subst hk
      rw [i2] at hj
      exact absurd hj (by decide)
    · rw [kill_chan_ne st k j hk] at hj ⊢
      exact t3 j hj
  · intro i j hi hj
    have hki := hne i hi
    have hkj := hne j hj
    rw [kill_chan_ne st k i hki] at hi ⊢
    rw [kill_chan_ne st k j hkj] at hj ⊢
    exact t4 i j hi hj
  · intro e he
    have hsame : ent (S_AL_SrcKill st k) e = ent st e := by
      rcases kill_ent_cases st k e with h1 | h1
      · exact h1
      · rw [h1.1] at he; exact absurd he (by decide)
    rw [hsame] at he ⊢
    obtain ⟨h1, h2⟩ := t5 e he
    have hk : k ≠ (ent st e).sfx := by
      intro hk
      rw [← hk] at h1 h2
      have := kill_ent_self st k e hl0 h1 h2
      rw [hsame, he] at this
      exact absurd this (by decide)
    rw [kill_chan_ne st k _ hk]
    exact ⟨h1, h2⟩

/-- Writing a channel keeps the pool tidy when the new entry is tidy in itself,
shares its pair with no other playing channel, and stays the loop of its entity
if the old entry was one. -/
theorem writeChan_tidy (st : ALState) (k : Int) (s : src_t) (h : poolTidy st)
    (c1 : s.isActive = false →
      (s.entity = 0 ∧ s.channel = 0) ∨ (s.entity = -1 ∧ s.channel = -1))
    (c2 : s.isLocked = true → s.isActive = false)
    (c3 : s.isLooping = true → s.isActive = true ∧ s.channel = -1)
    (c4 : s.isActive = true → s.channel ≠ 0 → ∀ j : Int, j ≠ k →
      (chan st j).isActive = true → (chan st j).entity = s.entity →
      (chan st j).channel = s.channel → False)
    (c5 : (chan st k).isLooping = true → s.isLooping = true ∧ s.entity = (chan st k).entity) :
    poolTidy { st with srcList := writeAt st.srcList k s } := by
  by_cases hr : 0 ≤ k ∧ k.toNat < st.srcList.length
  · obtain ⟨t1, t2, t3, t4, t5⟩ := h
    have hch : ∀ c : Int, chan { st with srcList := writeAt st.srcList k s } c =
        if k = c then s else chan st c := by
      intro c; unfold chan; simp only
      rw [readAt_writeAt]
      by_cases hkc : k = c
      · rw [if_pos ⟨hkc, hr⟩, if_pos hkc]
      · rw [if_neg (fun hh => hkc hh.1), if_neg hkc]
    have hen : ∀ e : Int, ent { st with srcList := writeAt st.srcList k s } e = ent st e :=
      fun _ => rfl
    refine ⟨?_, ?_, ?_, ?_, ?_⟩
    · intro j hj
      rw [hch] at hj ⊢
      by_cases hk : k = j
      · rw [if_pos hk] at hj ⊢; exact c1 hj
      · rw [if_neg hk] at hj ⊢; exact t1 j hj
    · intro j hj
      rw [hch] at hj ⊢
      by_cases hk : k = j
      · rw [if_pos hk] at hj ⊢; exact c2 hj
      · rw [if_neg hk] at hj ⊢; exact t2 j hj
    · intro j hj
      rw [hch] at hj ⊢
      by_cases hk : k = j
      · rw [if_pos hk] at hj ⊢; exact c3 hj
      · rw [if_neg hk] at hj ⊢; exact t3 j hj
    · intro i j hi hj he hc h0
      rw [hch] at hi he hc h0
      rw [hch] at hj he hc
      by_cases hki : k = i
      · by_cases hkj : k = j
        · rw [← hki, ← hkj]
        · rw [if_pos hki] at hi he hc h0
          rw [if_neg hkj] at hj he hc
          exact absurd (c4 hi h0 j (fun hh => hkj hh.symm) hj he.symm hc.symm) id
      · by_cases hkj : k = j
        · rw [if_neg hki] at hi he hc h0
          rw [if_pos hkj] at hj he hc
          have h0s : s.channel ≠ 0 := by rw [← hc]; exact h0
          exact absurd (c4 hj h0s i (fun hh => hki hh.symm) hi he hc) id
        · rw [if_neg hki] at hi he hc h0
          rw [if_neg hkj] at hj he hc
          exact t4 i j hi hj he hc h0
    · intro e he
      rw [hen] at he ⊢
      obtain ⟨a1, a2⟩ := t5 e he
      rw [hch]
      by_cases hk : k = (ent st e).sfx
      · rw [if_pos hk]
        rw [← hk] at a1 a2
        obtain ⟨b1, b2⟩ := c5 a1
        exact ⟨b1, b2.trans a2⟩
      · rw [if_neg hk]; exact ⟨a1, a2⟩
  · refine tidy_congr st _ ?_ rfl h
    exact writeAt_out_of_range _ _ _ (by omega)

/-- Rewriting a channel without touching its state of play or its pair. -/
theorem touchChan_tidy (st : ALState) (k : Int) (s : src_t) (h : poolTidy st)
    (ha : s.isActive = (chan st k).isActive) (he : s.entity = (chan st k).entity)
    (hc : s.channel = (chan st k).channel) (hloop : s.isLooping = (chan st k).isLooping)
    (c2 : s.isLocked = true → s.isActive = false) :
    poolTidy { st with srcList := writeAt st.srcList k s } := by
  obtain ⟨t1, t2, t3, t4, t5⟩ := h
  refine writeChan_tidy st k s ⟨t1, t2, t3, t4, t5⟩ ?_ c2 ?_ ?_ ?_
  · intro hs
    rw [he, hc]
    exact t1 k (by rw [← ha]; exact hs)
  · intro hs
    rw [ha, hc]
    exact t3 k (by rw [← hloop]; exact hs)
  · intro hs h0 j hj hja hje hjc
    have := t4 j k hja (by rw [← ha]; exact hs) (by rw [hje, he]) (by rw [hjc, hc])
      (by rw [hjc]; exact h0)
    exact hj this
  · intro hs
    exact ⟨by rw [hloop]; exact hs, he⟩

theorem ent_fields_tidy (st st1 : ALState) (hs : st1.srcList = st.srcList)
    (he : ∀ x : Int, (ent st1 x).has_sfx = (ent st x).has_sfx ∧ (ent st1 x).sfx = (ent st x).sfx)
    (h : poolTidy st) : poolTidy st1 := by
  obtain ⟨t1, t2, t3, t4, t5⟩ := h
  have hch : ∀ c : Int, chan st1 c = chan st c := by
    intro c; unfold chan; rw [hs]
  refine ⟨?_, ?_, ?_, ?_, ?_⟩
  · intro k hk; rw [hch] at hk ⊢; exact t1 k hk
  · intro k hk; rw [hch] at hk ⊢; exact t2 k hk
  · intro k hk; rw [hch] at hk ⊢; exact t3 k hk
  · intro i j hi hj
    rw [hch i] at hi ⊢
    rw [hch j] at hj ⊢
    exact t4 i j hi hj
  · intro e h1
    rw [(he e).1] at h1
    rw [(he e).2, hch]
    exact t5 e h1

/-- Writing an entity keeps the pool tidy when a flagged entry names a looping
channel owned by that entity. -/
theorem writeEnt_tidy (st : ALState) (x : Int) (r : sentity_t) (h : poolTidy st)
    (hr : r.has_sfx = true → (chan st r.sfx).isLooping = true ∧ (chan st r.sfx).entity = x) :
    poolTidy { st with entityList := writeAt st.entityList x r } := by
  obtain ⟨t1, t2, t3, t4, t5⟩ := h
  refine ⟨t1, t2, t3, t4, ?_⟩
  intro e he
  have hen : ent { st with entityList := writeAt st.entityList x r } e =
      if x = e ∧ 0 ≤ x ∧ x.toNat < st.entityList.length then r else ent st e := by
    unfold ent; exact readAt_writeAt _ _ _ _
  rw [hen] at he ⊢
  have hch : ∀ c : Int, chan { st with entityList := writeAt st.entityList x r } c = chan st c :=
    fun _ => rfl
  by_cases hx : x = e ∧ 0 ≤ x ∧ x.toNat < st.entityList.length
  · rw [if_pos hx] at he ⊢
    rw [hch]
    obtain ⟨a1, a2⟩ := hr he
    exact ⟨a1, a2.trans hx.1⟩
  · rw [if_neg hx] at he ⊢
    rw [hch]
    exact t5 e he

theorem chan_active_mem (st : ALState) (j : Int) (h : (chan st j).isActive = true) :
    chan st j ∈ st.srcList := by
  have hr : 0 ≤ j ∧ j.toNat < st.srcList.length := by
    by_contra hcon
    have hd : chan st j = default := by
      unfold chan
      exact readAt_out_of_range _ _ (by omega)
    rw [hd] at h
    exact absurd h (by decide)
  exact readAt_mem _ _ hr.1 hr.2

/-- The channel `S_AL_SrcAlloc` returns: an idle one when no channel that is not
locked matches the request, and otherwise a killed one, which matched the
request unless no channel that is not locked did. -/
theorem alloc_result_full (st : ALState) (now : Int) (p : alSrcPriority_t) (e c : Int) :
    S_AL_SrcAlloc st now p e c = (-1, st) ∨
    ∃ k : Nat, k < st.srcList.length ∧ (chan st k).isLocked = false ∧
      ((S_AL_SrcAlloc st now p e c = ((k : Int), st) ∧ (chan st k).isActive = false ∧
          ∀ s ∈ st.srcList, s.isLocked = false → ¬ exactMatch s e c) ∨
        (S_AL_SrcAlloc st now p e c = ((k : Int), S_AL_SrcKill st k) ∧
          (exactMatch (chan st k) e c ∨
            ∀ s ∈ st.srcList, s.isLocked = false → ¬ exactMatch s e c))) := by
  cases hres : S_AL_SrcAlloc_loop p e c st.srcList 0 { weakest_time := now } with
  | inl k =>
    right
    obtain ⟨j, hk, hj, hl, hm, _⟩ := loop_inl p e c st.srcList 0 _ k hres
    have hkj : k = j := by omega
    subst hkj
    refine ⟨k, hj, by rw [chan_natCast]; exact hl, Or.inr ⟨?_, Or.inl ?_⟩⟩
    · simp [S_AL_SrcAlloc, hres]
    · rw [chan_natCast]; exact hm
  | inr v =>
    have hno := loop_inr p e c st.srcList 0 _ v hres
    rw [alloc_no_match st now p e c hno]
    by_cases h1 : (S_AL_SrcAlloc_vars p st.srcList 0 { weakest_time := now }).empty ≠ -1
    · rw [if_pos h1]
      right
      rcases vars_empty_idle p st.srcList 0 { weakest_time := now } with h | ⟨j, hj, hw, hl, ha⟩
      · exact absurd h h1
      · refine ⟨j, hj, by rw [chan_natCast]; exact hl,
          Or.inl ⟨?_, by rw [chan_natCast]; exact ha, hno⟩⟩
        rw [hw]; simp
    · rw [if_neg h1]
      by_cases h2 : (S_AL_SrcAlloc_vars p st.srcList 0 { weakest_time := now }).weakest ≠ -1
      · rw [if_pos h2]
        right
        rcases vars_weakest_range p st.srcList 0 { weakest_time := now } with h | ⟨j, hj, hw, hl⟩
        · exact absurd h h2
        · refine ⟨j, hj, by rw [chan_natCast]; exact hl, Or.inr ⟨?_, Or.inr hno⟩⟩
          rw [hw]; simp
      · rw [if_neg h2]; left; rfl

/-- What `S_AL_SrcAlloc` leaves for a request that does not carry the pair
(-1, -1): the pool is tidy as before, and the channel returned is in the pool,
idle, and the only one that may carry the pair of the request among the playing
channels. -/
theorem alloc_tidy (st : ALState) (now : Int) (p : alSrcPriority_t) (e c : Int)
    (h : poolTidy st) (hreq : ¬ (e = -1 ∧ c = -1)) :
    poolTidy (S_AL_SrcAlloc st now p e c).2 ∧
    ((S_AL_SrcAlloc st now p e c).1 = -1 ∨
      (0 ≤ (S_AL_SrcAlloc st now p e c).1 ∧
        (S_AL_SrcAlloc st now p e c).1.toNat < (S_AL_SrcAlloc st now p e c).2.srcList.length ∧
        (chan (S_AL_SrcAlloc st now p e c).2 (S_AL_SrcAlloc st now p e c).1).isActive = false ∧
        (c ≠ 0 → ∀ j : Int, j ≠ (S_AL_SrcAlloc st now p e c).1 →
          (chan (S_AL_SrcAlloc st now p e c).2 j).isActive = true →
          (chan (S_AL_SrcAlloc st now p e c).2 j).entity = e →
          (chan (S_AL_SrcAlloc st now p e c).2 j).channel = c → False))) := by
  have hnomatch : (∀ s ∈ st.srcList, s.isLocked = false → ¬ exactMatch s e c) →
      c ≠ 0 → ∀ j : Int, (chan st j).isActive = true → (chan st j).entity = e →
        (chan st j).channel = c → False := by
    intro hno h0 j hja hje hjc
    have hl : (chan st j).isLocked = false := by
      by_contra hcon
      have := h.2.1 j (by simpa using hcon)
      rw [hja] at this
      exact absurd this (by decide)
    exact hno _ (chan_active_mem st j hja) hl ⟨hje, hjc, h0⟩
  rcases alloc_result_full st now p e c with hr | ⟨k, hk, hl, ⟨hr, ha, hno⟩ | ⟨hr, hm⟩⟩
  · rw [hr]; exact ⟨h, Or.inl rfl⟩
  · rw [hr]
    refine ⟨h, Or.inr ⟨by simp, by simpa using hk, ha, ?_⟩⟩
    intro h0 j _ hja hje hjc
    exact hnomatch hno h0 j hja hje hjc
  · rw [hr]
    obtain ⟨i1, _, _, _⟩ := kill_chan_self_idle st k hl
    refine ⟨kill_tidy st k h, Or.inr ⟨by simp, ?_, i1, ?_⟩⟩
    · simp only [Int.toNat_ofNat, kill_length]; exact hk
    · intro h0 j hj hja hje hjc
      simp only at hj hja hje hjc
      rw [kill_chan_ne st k j (fun hh => hj hh.symm)] at hja hje hjc
      rcases hm with hm | hno
      · obtain ⟨m1, m2, _⟩ := hm
        by_cases hka : (chan st k).isActive = true
        · have := h.2.2.2.1 j k hja hka (by rw [hje, m1]) (by rw [hjc, m2])
            (by rw [hjc]; exact h0)
          exact hj this
        · rcases h.1 k (by simpa using hka) with ⟨_, z2⟩ | ⟨z1, z2⟩
          · rw [m2] at z2; exact h0 z2
          · rw [m1] at z1; rw [m2] at z2; exact hreq ⟨z1, z2⟩
      · exact hnomatch hno h0 j hja hje hjc

theorem srcInit_loop_zero (gen : Nat → Nat × ALenum) :
    ∀ (n i : Nat) (st : ALState),
      (∀ s ∈ st.srcList, s.isActive = false ∧ s.entity = 0 ∧ s.channel = 0) →
      (∀ s ∈ (S_AL_SrcInit_loop gen n i st).srcList,
        s.isActive = false ∧ s.entity = 0 ∧ s.channel = 0) := by
  intro n
  induction n with
  | zero => intro i st h; exact h
  | succ n ih =>
    intro i st h
    by_cases hg : (gen i).2 ≠ .AL_NO_ERROR
    · have hstep : S_AL_SrcInit_loop gen (n + 1) i st =
          { st with log := st.log ++ [Event.genSources i] } := by
        simp [S_AL_SrcInit_loop, hg]
      rw [hstep]
      exact h
    · have hg0 : (gen i).2 = .AL_NO_ERROR := by simpa using hg
      have hstep : S_AL_SrcInit_loop gen (n + 1) i st =
          S_AL_SrcInit_loop gen n (i + 1)
            { st with log := st.log ++ [Event.genSources i],
                      srcList := st.srcList ++ [{ source := (gen i).1 }] } := by
        simp [S_AL_SrcInit_loop, hg0]
      rw [hstep]
      refine ih (i + 1) _ ?_
      intro s hs
      simp only [List.mem_append, List.mem_singleton] at hs
      rcases hs with hs | hs
      · exact h s hs
      · rw [hs]; exact ⟨rfl, rfl, rfl⟩

/-- A freshly initialised pool is tidy: nothing plays, no entity is flagged. -/
theorem init_tidy (st : ALState) (r : Int) (gen : Nat → Nat × ALenum)
    (h : ∀ x ∈ st.entityList, x.has_sfx = false) : poolTidy (S_AL_SrcInit st r gen) := by
  have hz := srcInit_loop_zero gen (S_AL_SrcInit_limit r).toNat 0
    { st with srcList := [] } (by intro s hs; simp at hs)
  have hidle : ∀ k : Int, (chan (S_AL_SrcInit st r gen) k).isActive = false ∧
      (chan (S_AL_SrcInit st r gen) k).entity = 0 ∧
      (chan (S_AL_SrcInit st r gen) k).channel = 0 := by
    intro k
    by_cases hr : 0 ≤ k ∧ k.toNat < (S_AL_SrcInit st r gen).srcList.length
    · exact hz _ (readAt_mem _ k hr.1 hr.2)
    · have hd : chan (S_AL_SrcInit st r gen) k = default := by
        unfold chan
        exact readAt_out_of_range _ _ (by omega)
      rw [hd]
      exact ⟨rfl, rfl, rfl⟩
  have hA := (init_consistent st r gen h).1
  have hB := (init_consistent st r gen h).2
  refine ⟨fun k _ => Or.inl (hidle k).2, fun k _ => (hidle k).1, ?_, ?_, hA⟩
  · intro k hk
    have := (hB k hk).1
    rw [(hidle k).1] at this
    exact absurd this (by decide)
  · intro i j hi
    rw [(hidle i).1] at hi
    exact absurd hi (by decide)

theorem lock_tidy (st : ALState) (k : Int) (h : poolTidy st)
    (hk : (chan st k).isActive = false) : poolTidy (S_AL_SrcLock st k) := by
  unfold S_AL_SrcLock
  exact touchChan_tidy st k _ h rfl rfl rfl rfl (fun _ => hk)

theorem unlock_tidy (st : ALState) (k : Int) (h : poolTidy st) :
    poolTidy (S_AL_SrcUnlock st k) := by
  unfold S_AL_SrcUnlock
  exact touchChan_tidy st k _ h rfl rfl rfl rfl (fun hh => by cases hh)

theorem allocateStream_tidy (st : ALState) (now : Int) (h : poolTidy st) :
    poolTidy (S_AL_AllocateStreamChannel st now) := by
  obtain ⟨h1, h2⟩ := alloc_tidy st now .SRCPRI_STREAM (-2) 0 h (by decide)
  unfold S_AL_AllocateStreamChannel
  cases hres : S_AL_SrcAlloc st now .SRCPRI_STREAM (-2) 0 with
  | mk hdl st1 =>
    rw [hres] at h1 h2
    simp only at h1 h2 ⊢
    by_cases hh : hdl = -1
    · rw [if_pos hh]
      exact tidy_congr st1 _ rfl rfl h1
    · rw [if_neg hh]
      rcases h2 with h2 | ⟨_, _, h2, _⟩
      · exact absurd h2 hh
      · exact lock_tidy _ hdl (tidy_congr st1 _ rfl rfl h1) h2

theorem musicSourceGet_tidy (st : ALState) (now : Int) (h : poolTidy st) :
    poolTidy (S_AL_MusicSourceGet st now) := by
  obtain ⟨h1, h2⟩ := alloc_tidy st now .SRCPRI_STREAM (-2) 0 h (by decide)
  unfold S_AL_MusicSourceGet
  cases hres : S_AL_SrcAlloc st now .SRCPRI_STREAM (-2) 0 with
  | mk hdl st1 =>
    rw [hres] at h1 h2
    simp only at h1 h2 ⊢
    by_cases hh : hdl = -1
    · rw [if_pos hh]
      exact tidy_congr st1 _ rfl rfl h1
    · rw [if_neg hh]
      rcases h2 with h2 | ⟨_, _, h2, _⟩
      · exact absurd h2 hh
      · exact lock_tidy _ hdl (tidy_congr st1 _ rfl rfl h1) h2

theorem freeStream_tidy (st : ALState) (h : poolTidy st) :
    poolTidy (S_AL_FreeStreamChannel st) := by
  unfold S_AL_FreeStreamChannel
  exact tidy_congr _ _ rfl rfl (unlock_tidy st st.streamSourceHandle h)

theorem musicSourceFree_tidy (st : ALState) (h : poolTidy st) :
    poolTidy (S_AL_MusicSourceFree st) := by
  unfold S_AL_MusicSourceFree
  exact tidy_congr _ _ rfl rfl (unlock_tidy st st.musicSourceHandle h)

theorem stopLooping_tidy (st : ALState) (e : Int) (h : poolTidy st) :
    poolTidy (S_AL_StopLoopingSound st e) := by
  unfold S_AL_StopLoopingSound
  split_ifs
  · exact kill_tidy st _ h
  · exact h

theorem clearLooping_tidy (st : ALState) (h : poolTidy st) :
    poolTidy (S_AL_ClearLoopingSounds st) := by
  refine ent_fields_tidy st _ rfl ?_ h
  intro x
  obtain ⟨h1, h2, _, _⟩ := clear_fold_spec st.srcList x st.entityList
  exact ⟨h1, h2⟩

theorem update_step_tidy (stopped : Nat → Bool) (i : Nat) (st : ALState)
    (h : poolTidy st) : poolTidy (S_AL_SrcUpdate_step stopped i st) := by
  unfold S_AL_SrcUpdate_step
  simp only
  split_ifs
  · exact h
  · exact h
  · exact kill_tidy st i h
  · exact kill_tidy _ i (tidy_congr st _ rfl rfl h)
  · exact h
  · exact h

theorem update_loop_tidy (stopped : Nat → Bool) :
    ∀ (n i : Nat) (st : ALState), poolTidy st →
      poolTidy (S_AL_SrcUpdate_loop stopped n i st) := by
  intro n
  induction n with
  | zero => intro i st h; exact h
  | succ n ih =>
    intro i st h
    exact ih (i + 1) _ (update_step_tidy stopped i st h)

theorem kills_tidy (l : List Nat) :
    ∀ st : ALState, poolTidy st → poolTidy (l.foldl (fun s i => S_AL_SrcKill s i) st) := by
  induction l with
  | nil => intro st h; exact h
  | cons a rest ih =>
    intro st h
    exact ih _ (kill_tidy st a h)

/-- The channel set up by `S_AL_SrcSetup` was idle, and no other playing channel
carries the pair it is given: the pool stays tidy. -/
theorem setup_tidy (st st2 : ALState) (env : Env) (src : Int) (sfx : sfxHandle_t)
    (p : alSrcPriority_t) (e c : Int) (l : Bool)
    (hset : S_AL_SrcSetup st env src sfx p e c l = .ok st2)
    (h : poolTidy st) (hk : (chan st src).isActive = false)
    (hu : c ≠ 0 → ∀ j : Int, j ≠ src → (chan st j).isActive = true →
      (chan st j).entity = e → (chan st j).channel = c → False) :
    poolTidy st2 ∧ st2.entityList = st.entityList ∧
    st2.srcList.length = st.srcList.length ∧
    (0 ≤ src ∧ src.toNat < st.srcList.length →
      (chan st2 src).isLooping = false ∧ (chan st2 src).isActive = true ∧
      (chan st2 src).isLocked = false ∧ (chan st2 src).entity = e ∧
      (chan st2 src).channel = c) := by
  obtain ⟨he, hs⟩ := setup_ok st st2 env src sfx p e c l hset
  refine ⟨?_, he, by rw [hs, length_writeAt], ?_⟩
  · have hw := writeChan_tidy st src
      { readAt st.srcList src with
        lastUse := env.setupTime, sfx := sfx, priority := p, entity := e, channel := c,
        isActive := true, isLocked := false, isLooping := false, isTracking := false,
        local_ := l } h (fun hh => by cases hh) (fun hh => by cases hh)
      (fun hh => by cases hh) (fun _ h0 j hj hja hje hjc => hu h0 j hj hja hje hjc)
      (fun hh => by
        have := (h.2.2.1 src hh).1
        rw [hk] at this
        exact absurd this (by decide))
    refine tidy_congr _ st2 ?_ ?_ hw
    · exact hs
    · exact he
  · intro hr
    unfold chan
    rw [hs, readAt_writeAt_self _ _ _ hr.1 hr.2]
    exact ⟨rfl, rfl, rfl, rfl, rfl⟩

theorem startLocalSound_tidy (st st1 : ALState) (env : Env) (sfx : sfxHandle_t)
    (channel : Int) (src : srcHandle_t) (hc : channel ≠ -1)
    (hres : S_AL_StartLocalSound st env sfx channel = .ok (src, st1))
    (h : poolTidy st) : poolTidy st1 := by
  obtain ⟨h1, h2⟩ := alloc_tidy st env.allocTime .SRCPRI_LOCAL (-1) channel h
    (fun hh => hc hh.2)
  unfold S_AL_StartLocalSound at hres
  cases ha : S_AL_SrcAlloc st env.allocTime .SRCPRI_LOCAL (-1) channel with
  | mk hdl sta =>
    rw [ha] at hres h1 h2
    simp only at hres h1 h2
    by_cases hh : hdl = -1
    · rw [if_pos hh] at hres
      simp only [Except.ok.injEq, Prod.mk.injEq] at hres
      rw [← hres.2]; exact h1
    · rw [if_neg hh] at hres
      rcases h2 with h2 | ⟨_, _, h2, h3⟩
      · exact absurd h2 hh
      · cases hset : S_AL_SrcSetup sta env hdl sfx .SRCPRI_LOCAL (-1) channel true with
        | error x => rw [hset] at hres; simp at hres
        | ok st2 =>
          rw [hset] at hres
          simp only [Except.ok.injEq, Prod.mk.injEq] at hres
          rw [← hres.2]
          exact tidy_congr st2 _ rfl rfl
            (setup_tidy sta st2 env hdl sfx _ _ _ _ hset h1 h2 h3).1

theorem startSound_tidy (st st1 : ALState) (env : Env) (originNull : Bool)
    (entnum entchannel : Int) (sfx : sfxHandle_t) (src : srcHandle_t)
    (hreq : ¬ (entnum = -1 ∧ entchannel = -1))
    (hres : S_AL_StartSound st env originNull entnum entchannel sfx = .ok (src, st1))
    (h : poolTidy st) : poolTidy st1 := by
  obtain ⟨h1, h2⟩ := alloc_tidy st env.allocTime .SRCPRI_ONESHOT entnum entchannel h hreq
  unfold S_AL_StartSound at hres
  cases ha : S_AL_SrcAlloc st env.allocTime .SRCPRI_ONESHOT entnum entchannel with
  | mk hdl sta =>
    rw [ha] at hres h1 h2
    simp only at hres h1 h2
    by_cases hh : hdl = -1
    · rw [if_pos hh] at hres
      simp only [Except.ok.injEq, Prod.mk.injEq] at hres
      rw [← hres.2]; exact h1
    · rw [if_neg hh] at hres
      rcases h2 with h2 | ⟨_, _, h2, h3⟩
      · exact absurd h2 hh
      · cases hset : S_AL_SrcSetup sta env hdl sfx .SRCPRI_ONESHOT entnum entchannel false with
        | error x => rw [hset] at hres; simp at hres
        | ok st2 =>
          rw [hset] at hres
          simp only [Except.ok.injEq, Prod.mk.injEq] at hres
          rw [← hres.2]
          have h4 := (setup_tidy sta st2 env hdl sfx _ _ _ _ hset h1 h2 h3).1
          cases originNull
          · exact tidy_congr st2 _ rfl rfl h4
          · refine tidy_congr
              { st2 with srcList := writeAt st2.srcList hdl
                          { readAt st2.srcList hdl with isTracking := true } } _ rfl rfl ?_
            exact touchChan_tidy st2 hdl _ h4 rfl rfl rfl rfl (fun hl => h4.2.1 hdl hl)

/-- The part of `S_AL_SrcLoop` that starts the loop of entity `e` on an idle
channel of the pool, when no other playing channel carries the pair (e, -1). -/
theorem loop_play_tidy (st0 st2 stf : ALState) (env : Env) (src : Int)
    (sfx : sfxHandle_t) (p : alSrcPriority_t) (e : Int)
    (hset : S_AL_SrcSetup st0 env src sfx p e (-1) false = .ok st2)
    (h : poolTidy st0)
    (hsrc : 0 ≤ src ∧ src.toNat < st0.srcList.length)
    (hk : (chan st0 src).isActive = false)
    (hu : ∀ j : Int, j ≠ src → (chan st0 j).isActive = true →
      (chan st0 j).entity = e → (chan st0 j).channel = -1 → False)
    (hs : stf.srcList = writeAt st2.srcList src { readAt st2.srcList src with isLooping := true })
    (hen : stf.entityList =
      writeAt
        (writeAt st2.entityList e { readAt st2.entityList e with has_sfx := true, sfx := src }) e
        { readAt
            (writeAt st2.entityList e { readAt st2.entityList e with has_sfx := true, sfx := src })
            e with touched := true }) :
    poolTidy stf := by
  obtain ⟨h2, _, hlen, hch⟩ :=
    setup_tidy st0 st2 env src sfx p e (-1) false hset h hk (fun _ => hu)
  obtain ⟨_, c2, c3, c4, c5⟩ := hch hsrc
  have hr2 : 0 ≤ src ∧ src.toNat < st2.srcList.length := by rw [hlen]; exact hsrc
  have hA : poolTidy
      { st2 with srcList := writeAt st2.srcList src
                  { readAt st2.srcList src with isLooping := true } } := by
    refine writeChan_tidy st2 src _ h2 ?_ ?_ ?_ ?_ ?_
    · intro hh
      have : (chan st2 src).isActive = false := hh
      rw [c2] at this
      exact absurd this (by decide)
    · intro hh
      have : (chan st2 src).isLocked = true := hh
      rw [c3] at this
      exact absurd this (by decide)
    · intro _
      exact ⟨c2, c5⟩
    · intro _ h0 j hj hja hje hjc
      exact hj (h2.2.2.2.1 j src hja c2 hje hjc (by rw [hjc]; exact h0))
    · intro _
      exact ⟨rfl, rfl⟩
  have hcA : chan
      { st2 with srcList := writeAt st2.srcList src
                  { readAt st2.srcList src with isLooping := true } } src =
      { readAt st2.srcList src with isLooping := true } := by
    unfold chan
    exact readAt_writeAt_self _ _ _ hr2.1 hr2.2
  have hB := writeEnt_tidy _ e
    { readAt st2.entityList e with has_sfx := true, sfx := src } hA
    (fun _ => by
      rw [hcA]
      exact ⟨rfl, c4⟩)
  have hC := writeEnt_tidy _ e
    { readAt
        (writeAt st2.entityList e { readAt st2.entityList e with has_sfx := true, sfx := src })
        e with touched := true } hB
    (fun hh => hB.2.2.2.2 e hh)
  refine tidy_congr _ stf ?_ ?_ hC
  · exact hs
  · exact hen

theorem srcLoop_tidy (st st1 : ALState) (env : Env) (p : alSrcPriority_t)
    (sfx : sfxHandle_t) (e : Int) (he : e ≠ -1)
    (hres : S_AL_SrcLoop st env p sfx e = .ok st1) (h : poolTidy st) : poolTidy st1 := by
  unfold S_AL_SrcLoop at hres
  simp only at hres
  by_cases hh : (readAt st.entityList e).has_sfx = false
  · rw [if_pos hh] at hres
    have h0 : poolTidy { st with ambientCount := st.ambientCount + 1 } :=
      tidy_congr st _ rfl rfl h
    obtain ⟨h1, h2⟩ :=
      alloc_tidy { st with ambientCount := st.ambientCount + 1 } env.allocTime p e (-1) h0
        (fun hcon => he hcon.1)
    cases ha : S_AL_SrcAlloc { st with ambientCount := st.ambientCount + 1 } env.allocTime p
        e (-1) with
    | mk hdl sta =>
      rw [ha] at hres h1 h2
      simp only at hres h1 h2
      by_cases hd : hdl = -1
      · rw [if_pos hd] at hres
        simp only [Except.ok.injEq] at hres
        rw [← hres]; exact h1
      · rw [if_neg hd] at hres
        rcases h2 with h2 | ⟨k1, k2, k3, k4⟩
        · exact absurd h2 hd
        · cases hset : S_AL_SrcSetup sta env hdl sfx p e (-1) false with
          | error x => rw [hset] at hres; simp at hres
          | ok st2 =>
            rw [hset] at hres
            simp only [Except.ok.injEq] at hres
            rw [← hres]
            exact loop_play_tidy sta st2 _ env hdl sfx p e hset h1 ⟨k1, k2⟩ k3
              (k4 (by decide)) rfl rfl
  · have hh1 : (ent st e).has_sfx = true := by
      unfold ent; simpa using hh
    rw [if_neg hh] at hres
    obtain ⟨a1, a2⟩ := h.2.2.2.2 e hh1
    obtain ⟨b1, b2⟩ := h.2.2.1 _ a1
    have b3 : (chan st (ent st e).sfx).isLocked = false := by
      by_contra hcon
      have := h.2.1 _ (by simpa using hcon)
      rw [b1] at this
      exact absurd this (by decide)
    have hr := chan_in_range st _ a1
    by_cases hsf : (readAt st.srcList (readAt st.entityList e).sfx).sfx ≠ sfx
    · rw [if_pos hsf] at hres
      cases hset : S_AL_SrcSetup (S_AL_SrcKill st (readAt st.entityList e).sfx) env
          (readAt st.entityList e).sfx sfx p e (-1) false with
      | error x => rw [hset] at hres; simp at hres
      | ok st2 =>
        rw [hset] at hres
        simp only [Except.ok.injEq] at hres
        rw [← hres]
        refine loop_play_tidy _ st2 _ env _ sfx p e hset (kill_tidy st _ h)
          (by rw [kill_length]; exact hr) (kill_chan_self_idle st _ b3).1 ?_ rfl rfl
        intro j hj hja hje hjc
        have hne : (ent st e).sfx ≠ j := fun hcon => hj hcon.symm
        have hne2 : (readAt st.entityList e).sfx ≠ j := hne
        rw [kill_chan_ne st _ j hne2] at hja hje hjc
        exact hj (h.2.2.2.1 j (ent st e).sfx hja b1 (hje.trans a2.symm) (hjc.trans b2.symm)
          (by rw [hjc]; decide))
    · rw [if_neg hsf] at hres
      simp only [Except.ok.injEq] at hres
      rw [← hres]
      exact writeEnt_tidy st e _ h (fun hcon => h.2.2.2.2 e hcon)

/-- In every state of the pool reached without a request for the pair (-1, -1)
the pool is tidy. -/
theorem reachable_tidy (st : ALState) (h : PlayReachable st) : poolTidy st := by
  induction h with
  | init st n r gen =>
    exact init_tidy _ r gen (fun x hx => by rw [List.eq_of_mem_replicate hx])
  | startSound st st1 env originNull entnum entchannel sfx src _ hreq _ hres ih =>
    exact startSound_tidy st st1 env originNull entnum entchannel sfx src hreq hres ih
  | startLocalSound st st1 env sfx channel src _ hc hres ih =>
    exact startLocalSound_tidy st st1 env sfx channel src hc hres ih
  | srcLoop st st1 env priority sfx entnum _ he _ hres ih =>
    exact srcLoop_tidy st st1 env priority sfx entnum (by omega) hres ih
  | stopLoopingSound st e _ _ _ ih => exact stopLooping_tidy st e ih
  | clearLoopingSounds st _ ih => exact clearLooping_tidy st ih
  | srcUpdate st stopped _ ih => exact update_loop_tidy stopped _ 0 st ih
  | srcShutup st _ ih => exact kills_tidy _ st ih
  | allocateStreamChannel st now _ _ ih => exact allocateStream_tidy st now ih
  | freeStreamChannel st _ _ ih => exact freeStream_tidy st ih
  | musicSourceGet st now _ _ ih => exact musicSourceGet_tidy st now ih
  | musicSourceFree st _ _ ih => exact musicSourceFree_tidy st ih

/-- C21 (amended): in every state reachable from the pool of the first
initialisation (the entity table zeroed, as the program starts with it) by the
play, loop, stop and sweep operations (and the allocation and release of the
stream and music channels), called with entity numbers that index the entity
table where they index it, in which no request carries the pair of a killed
channel, entity -1 with logical channel -1, for every entity id `e` and every
logical channel `c` other than 0 at most one channel is active with entity `e`
and logical channel `c` (an active channel is a channel of the pool). -/
theorem C21_identity_unique (st : ALState) (h : PlayReachable st) (e c : Int) (hc : c ≠ 0)
    (i j : Nat)
    (hia : (chan st i).isActive = true) (hie : (chan st i).entity = e)
    (hic : (chan st i).channel = c)
    (hja : (chan st j).isActive = true) (hje : (chan st j).entity = e)
    (hjc : (chan st j).channel = c) : i = j := by
  have ht := (reachable_tidy st h).2.2.2.1 i j hia hja (by rw [hie, hje]) (by rw [hic, hjc])
    (by rw [hic]; exact hc)
  exact_mod_cast ht

/-- C21 (amended) on `poolOne`, where channel 0 plays for entity 5 on logical channel 1. -/
theorem C21_identity_unique_witness :
    (chan poolOne ((0 : Nat) : Int)).isActive = true ∧
    (chan poolOne ((0 : Nat) : Int)).entity = 5 ∧
    (chan poolOne ((0 : Nat) : Int)).channel = 1 ∧ (0 : Nat) = 0 :=
  ⟨by decide, by decide, by decide,
    C21_identity_unique poolOne
      (PlayReachable.startSound (S_AL_SrcInit poolStart 16 genAll) poolOne envLoads false 5 1 1 0
        (PlayReachable.init poolStart 8 16 genAll) (by decide) (fun h => by cases h) rfl)
      5 1 (by decide) 0 0 (by decide) (by decide) (by decide) (by decide) (by decide)
      (by decide)⟩

/-! ## Bookkeeping of the buffer cache -/

theorem cacheInv_congr (D : Prop) (st st1 : ALState) (hk : st1.knownSfx = st.knownSfx)
    (hd : st1.default_sfx = st.default_sfx)
    (hi : st1.alBuffersInitialised = st.alBuffersInitialised) (h : cacheInv D st) :
    cacheInv D st1 := by
  unfold cacheInv at *
  rw [hk, hd, hi]; exact h

theorem getD_set {α : Type} (l : List α) (i j : Nat) (a d : α) :
    (l.set i a).getD j d = if i = j ∧ i < l.length then a else l.getD j d := by
  by_cases hij : i = j
  · subst hij
    by_cases hl : i < l.length
    · rw [if_pos ⟨rfl, hl⟩]; exact getD_set_self l i a d hl
    · rw [if_neg (fun h => hl h.2), List.set_eq_of_length_le (by omega)]
  · rw [if_neg (fun h => hij h.1)]; exact getD_set_ne l i j a d hij

/-- Writing a slot keeps the bookkeeping when the new entry is in order in
itself, the fallback slot stays what it is, and a slot that comes into memory
brings a buffer name of its own. -/
theorem cache_set (D : Prop) (st : ALState) (i : Nat) (a : alSfx_t) (h : cacheInv D st)
    (hd : i = st.default_sfx →
      a.inMemory = true ∧ a.filename ≠ [] ∧ a.buffer = (st.knownSfx.getD i default).buffer)
    (h1 : ¬ (a.inMemory = true ∧ a.isDefault = true))
    (h2 : a.isDefault = true → a.buffer = (st.knownSfx.getD st.default_sfx default).buffer)
    (h4 : D → a.inMemory = true → ∀ j : Nat, j ≠ i →
      (st.knownSfx.getD j default).inMemory = true →
      (st.knownSfx.getD j default).buffer ≠ a.buffer) :
    cacheInv D { st with knownSfx := st.knownSfx.set i a } := by
  by_cases hl : i < st.knownSfx.length
  · obtain ⟨v0, v1, v2, v3, v4⟩ := h
    have hg : ∀ j : Nat, (st.knownSfx.set i a).getD j default =
        if i = j then a else st.knownSfx.getD j default := by
      intro j
      rw [getD_set]
      by_cases hij : i = j
      · rw [if_pos ⟨hij, hl⟩, if_pos hij]
      · rw [if_neg (fun hh => hij hh.1), if_neg hij]
    have hdef : ((st.knownSfx.set i a).getD st.default_sfx default).buffer =
        (st.knownSfx.getD st.default_sfx default).buffer := by
      rw [hg]
      by_cases hid : i = st.default_sfx
      · rw [if_pos hid, (hd hid).2.2, hid]
      · rw [if_neg hid]
    refine ⟨v0, ?_, ?_, ?_, ?_⟩
    · intro j
      simp only
      rw [hg]
      by_cases hij : i = j
      · rw [if_pos hij]; exact h1
      · rw [if_neg hij]; exact v1 j
    · intro j hj
      simp only at hj ⊢
      rw [hdef]
      rw [hg] at hj ⊢
      by_cases hij : i = j
      · rw [if_pos hij] at hj ⊢; exact h2 hj
      · rw [if_neg hij] at hj ⊢; exact v2 j hj
    · simp only
      rw [hg]
      by_cases hid : i = st.default_sfx
      · rw [if_pos hid]; exact ⟨(hd hid).1, (hd hid).2.1⟩
      · rw [if_neg hid]; exact v3
    · intro hD j k hjk hj hk
      simp only at hj hk ⊢
      rw [hg j] at hj ⊢
      rw [hg k] at hk ⊢
      by_cases hij : i = j
      · have hik : ¬ i = k := fun hh => hjk (hij.symm.trans hh)
        rw [if_pos hij] at hj ⊢
        rw [if_neg hik] at hk ⊢
        exact fun hh => h4 hD hj k (fun hki => hik hki.symm) hk hh.symm
      · by_cases hik : i = k
        · rw [if_neg hij] at hj ⊢
          rw [if_pos hik] at hk ⊢
          exact h4 hD hk j (fun hji => hij hji.symm) hj
        · rw [if_neg hij] at hj ⊢
          rw [if_neg hik] at hk ⊢
          exact v4 hD j k hjk hj hk
  · refine cacheInv_congr D st _ ?_ rfl rfl h
    exact List.set_eq_of_length_le (by omega)

/-- Rewriting a slot without touching its path, its buffer name or its two flags. -/
theorem cache_touch (D : Prop) (st : ALState) (i : Nat) (a : alSfx_t) (h : cacheInv D st)
    (hf : a.filename = (st.knownSfx.getD i default).filename)
    (hb : a.buffer = (st.knownSfx.getD i default).buffer)
    (hm : a.inMemory = (st.knownSfx.getD i default).inMemory)
    (hdf : a.isDefault = (st.knownSfx.getD i default).isDefault) :
    cacheInv D { st with knownSfx := st.knownSfx.set i a } := by
  obtain ⟨v0, v1, v2, v3, v4⟩ := h
  refine cache_set D st i a ⟨v0, v1, v2, v3, v4⟩ ?_ ?_ ?_ ?_
  · intro hid
    rw [hm, hf, hid]
    exact ⟨v3.1, v3.2, by rw [hb, hid]⟩
  · rw [hm, hdf]; exact v1 i
  · intro hh
    rw [hb]
    exact v2 i (by rw [← hdf]; exact hh)
  · intro hD hh j hj hjm
    rw [hb]
    exact v4 hD j i hj hjm (by rw [← hm]; exact hh)

theorem fresh_index (st : ALState) (env : LoadEnv) (h : freshName st env) (j : Nat)
    (hj : (st.knownSfx.getD j default).inMemory = true) :
    (st.knownSfx.getD j default).buffer ≠ env.genName := by
  by_cases hl : j < st.knownSfx.length
  · exact h _ (getD_mem _ _ _ hl) hj
  · rw [getD_out_of_range _ _ _ (by omega)] at hj
    exact absurd hj (by decide)

theorem useDefault_inv (D : Prop) (st st1 : ALState) (sfx : sfxHandle_t)
    (h : S_AL_BufferUseDefault st sfx = .ok st1) (hinv : cacheInv D st)
    (hm : (st.knownSfx.getD sfx default).inMemory = false) : cacheInv D st1 := by
  unfold S_AL_BufferUseDefault at h
  split_ifs at h with hs
  simp only [Except.ok.injEq] at h
  subst h
  refine cache_set D st sfx _ hinv (fun hh => absurd hh hs) ?_ (fun _ => rfl) ?_
  · rintro ⟨h1, _⟩
    have : (st.knownSfx.getD sfx default).inMemory = true := h1
    rw [hm] at this
    exact absurd this (by decide)
  · intro _ h1
    have : (st.knownSfx.getD sfx default).inMemory = true := h1
    rw [hm] at this
    exact absurd this (by decide)

/-- The tables once the decoder has run for a slot that is due for a load: the
bookkeeping is in order, and the slot is neither in memory nor on the fallback. -/
theorem loadTouched_inv (D : Prop) (st : ALState) (env : LoadEnv) (sfx : sfxHandle_t)
    (hinv : cacheInv D st) (hdue : ¬ loadSkips (st.knownSfx.getD sfx default)) :
    cacheInv D (loadTouched st env sfx) ∧
    ((loadTouched st env sfx).knownSfx.getD sfx default).inMemory = false ∧
    ((loadTouched st env sfx).knownSfx.getD sfx default).isDefault = false ∧
    (env.codec ≠ none →
      ((loadTouched st env sfx).knownSfx.getD sfx default).buffer = env.genName) ∧
    (∀ j : Nat, j ≠ sfx →
      (loadTouched st env sfx).knownSfx.getD j default = st.knownSfx.getD j default) := by
  have hm : (st.knownSfx.getD sfx default).inMemory = false := by
    by_contra hcon
    exact hdue (Or.inr (Or.inr (Or.inl (by simpa using hcon))))
  have hdf : (st.knownSfx.getD sfx default).isDefault = false := by
    by_contra hcon
    exact hdue (Or.inr (Or.inr (Or.inr (by simpa using hcon))))
  have hf : (st.knownSfx.getD sfx default).filename ≠ [] := fun hcon => hdue (Or.inl hcon)
  have hl : sfx < st.knownSfx.length := by
    by_contra hcon
    rw [getD_out_of_range _ _ _ (Nat.le_of_not_lt hcon)] at hf
    exact hf rfl
  unfold loadTouched
  cases hc : env.codec with
  | none =>
    exact ⟨cacheInv_congr D st _ rfl rfl rfl hinv, hm, hdf, fun hh => absurd rfl hh,
      fun _ _ => rfl⟩
  | some info =>
    simp only
    refine ⟨?_, ?_, ?_, ?_, ?_⟩
    · refine cacheInv_congr D
        { st with knownSfx := st.knownSfx.set sfx
                    { st.knownSfx.getD sfx default with buffer := env.genName } } _ rfl rfl rfl ?_
      refine cache_set D st sfx _ hinv ?_ ?_ ?_ ?_
      · intro hid
        have := hinv.2.2.2.1.1
        rw [← hid, hm] at this
        exact absurd this (by decide)
      · rintro ⟨h1, _⟩
        have : (st.knownSfx.getD sfx default).inMemory = true := h1
        rw [hm] at this
        exact absurd this (by decide)
      · intro h1
        have : (st.knownSfx.getD sfx default).isDefault = true := h1
        rw [hdf] at this
        exact absurd this (by decide)
      · intro _ h1
        have : (st.knownSfx.getD sfx default).inMemory = true := h1
        rw [hm] at this
        exact absurd this (by decide)
    · rw [getD_set_self _ _ _ _ hl]; exact hm
    · rw [getD_set_self _ _ _ _ hl]; exact hdf
    · intro _; rw [getD_set_self _ _ _ _ hl]
    · intro j hj
      exact getD_set_ne _ _ _ _ _ (fun hh => hj hh.symm)

theorem load_inv (D : Prop) (st st1 : ALState) (env : LoadEnv) (sfx : sfxHandle_t)
    (h : S_AL_BufferLoad st env sfx = .ok st1) (hinv : cacheInv D st)
    (hfresh : D → ∀ j : Nat, (st.knownSfx.getD j default).inMemory = true →
      (st.knownSfx.getD j default).buffer ≠ env.genName) :
    cacheInv D st1 := by
  by_cases hs : loadSkips (st.knownSfx.getD sfx default)
  · rw [load_of_skip st env sfx hs] at h
    simp only [Except.ok.injEq] at h
    rw [← h]; exact hinv
  · obtain ⟨t1, t2, t3, t4, t5⟩ := loadTouched_inv D st env sfx hinv hs
    by_cases hf : loadFails env
    · rw [load_of_fail st env sfx hs hf] at h
      exact useDefault_inv D _ st1 sfx h t1 t2
    · rw [load_of_success st env sfx hs hf] at h
      simp only [Except.ok.injEq] at h
      rw [← h]
      have hc : env.codec ≠ none := fun hcon => hf (Or.inl hcon)
      refine cache_set D (loadTouched st env sfx) sfx _ t1 ?_ ?_ ?_ ?_
      · intro hid
        have := t1.2.2.2.1.1
        rw [← hid, t2] at this
        exact absurd this (by decide)
      · rintro ⟨_, h2⟩
        have : ((loadTouched st env sfx).knownSfx.getD sfx default).isDefault = true := h2
        rw [t3] at this
        exact absurd this (by decide)
      · intro h2
        have : ((loadTouched st env sfx).knownSfx.getD sfx default).isDefault = true := h2
        rw [t3] at this
        exact absurd this (by decide)
      · intro hD _ j hj hjm
        rw [t5 j hj] at hjm ⊢
        have hb : ({ (loadTouched st env sfx).knownSfx.getD sfx default with
            inMemory := true } : alSfx_t).buffer = env.genName := t4 hc
        rw [hb]
        exact hfresh hD j hjm

theorem use_inv (D : Prop) (st st1 : ALState) (now : Int) (env : LoadEnv) (sfx : sfxHandle_t)
    (h : S_AL_BufferUse st now env sfx = .ok st1) (hinv : cacheInv D st)
    (hfresh : D → ∀ j : Nat, (st.knownSfx.getD j default).inMemory = true →
      (st.knownSfx.getD j default).buffer ≠ env.genName) :
    cacheInv D st1 := by
  unfold S_AL_BufferUse at h
  simp only at h
  split_ifs at h with h1 h2
  · simp only [Except.ok.injEq] at h
    rw [← h]; exact hinv
  · cases hl : S_AL_BufferLoad st env sfx with
    | error x => rw [hl] at h; simp at h
    | ok st2 =>
      rw [hl] at h
      simp only [Except.ok.injEq] at h
      rw [← h]
      exact cache_touch D st2 sfx _ (load_inv D st st2 env sfx hl hinv hfresh) rfl rfl rfl rfl
  · simp only [Except.ok.injEq] at h
    rw [← h]
    exact cache_touch D st sfx _ hinv rfl rfl rfl rfl

/-- `S_AL_BufferFind` keeps the bookkeeping, and brings no slot into memory. -/
theorem cByte_past_end (P : List Char) (i : Nat) (h : P.length ≤ i) : cByte P i = 0 := by
  unfold cByte
  rw [List.get?_eq_none.mpr h]

/-- A path that fits the array `filename` is copied without touching the other fields. -/
theorem strcpySlot_fits (P : List Char) (h : fitsQPath P) : strcpySlot P = { filename := P } := by
  unfold fitsQPath at h
  have hb : ∀ i, MAX_QPATH ≤ i → cByte P i = 0 := fun i hi => cByte_past_end P i (by omega)
  have hw : ∀ off, MAX_QPATH ≤ off → cWord P off = 0 := by
    intro off ho
    unfold cWord
    rw [hb off ho, hb (off + 1) (by omega), hb (off + 2) (by omega), hb (off + 3) (by omega)]
  unfold strcpySlot
  rw [hw _ (Nat.le_refl _), hw _ (by omega), hw _ (by omega), hw _ (by omega), hw _ (by omega)]
  rfl

theorem find_inv (D : Prop) (cmp : List Char → List Char → Int) (st st1 : ALState)
    (P : List Char) (hP : fitsQPath P) (h : sfxHandle_t)
    (hf : S_AL_BufferFind cmp st P = .ok (h, st1))
    (hinv : cacheInv D st) :
    cacheInv D st1 ∧
    ∀ g : Nat, (∀ j : Nat, (st.knownSfx.getD j default).inMemory = true →
        (st.knownSfx.getD j default).buffer ≠ g) →
      ∀ j : Nat, (st1.knownSfx.getD j default).inMemory = true →
        (st1.knownSfx.getD j default).buffer ≠ g := by
  rcases find_cases cmp st P h st1 hf with ⟨_, h1⟩ | ⟨_, hfree, h1⟩
  · rw [h1]; exact ⟨hinv, fun _ hg => hg⟩
  · obtain ⟨hl, hp, _⟩ := firstIdx_some _ default _ h hfree
    have hemp : (st.knownSfx.getD h default).filename = [] := by simpa using hp
    rw [h1, strcpySlot_fits P hP]
    constructor
    · refine cache_set D st h _ hinv ?_ ?_ ?_ ?_
      · intro hid
        have := hinv.2.2.2.1.2
        rw [← hid] at this
        exact absurd hemp this
      · rintro ⟨h2, _⟩; cases h2
      · intro h2; cases h2
      · intro _ h2; cases h2
    · intro g hg j hj
      simp only at hj ⊢
      rw [getD_set] at hj ⊢
      by_cases hc : h = j ∧ h < st.knownSfx.length
      · rw [if_pos hc] at hj; cases hj
      · rw [if_neg hc] at hj ⊢; exact hg j hj

theorem register_inv (D : Prop) (cmp : List Char → List Char → Int) (st st1 : ALState)
    (precache now : Int) (env : LoadEnv) (sample : List Char) (hP : fitsQPath sample)
    (sfx : sfxHandle_t)
    (h : S_AL_RegisterSound cmp st precache now env sample = .ok (sfx, st1))
    (hinv : cacheInv D st)
    (hfresh : D → ∀ j : Nat, (st.knownSfx.getD j default).inMemory = true →
      (st.knownSfx.getD j default).buffer ≠ env.genName) :
    cacheInv D st1 := by
  unfold S_AL_RegisterSound at h
  cases hf : S_AL_BufferFind cmp st sample with
  | error x => rw [hf] at h; simp at h
  | ok r =>
    obtain ⟨hdl, stA⟩ := r
    rw [hf] at h
    simp only at h
    obtain ⟨hA, hfr⟩ := find_inv D cmp st stA sample hP hdl hf hinv
    split_ifs at h with hc
    · cases hl : S_AL_BufferLoad stA env hdl with
      | error x => rw [hl] at h; simp at h
      | ok st2 =>
        rw [hl] at h
        simp only [Except.ok.injEq, Prod.mk.injEq] at h
        rw [← h.2]
        exact cache_touch D st2 hdl _
          (load_inv D stA st2 env hdl hl hA (fun hD => hfr _ (hfresh hD))) rfl rfl rfl rfl
    · simp only [Except.ok.injEq, Prod.mk.injEq] at h
      rw [← h.2]
      exact cache_touch D stA hdl _ hA rfl rfl rfl rfl

/-- A load of the fallback slot itself that returns has brought it into memory. -/
theorem load_default_entry (st st1 : ALState) (env : LoadEnv) (sfx : sfxHandle_t)
    (h : S_AL_BufferLoad st env sfx = .ok st1)
    (hdue : ¬ loadSkips (st.knownSfx.getD sfx default)) (hd : sfx = st.default_sfx) :
    (st1.knownSfx.getD sfx default).inMemory = true ∧
    (st1.knownSfx.getD sfx default).isDefault = false ∧
    (st1.knownSfx.getD sfx default).filename = (st.knownSfx.getD sfx default).filename ∧
    (∀ j : Nat, j ≠ sfx → st1.knownSfx.getD j default = st.knownSfx.getD j default) := by
  have hdf : (st.knownSfx.getD sfx default).isDefault = false := by
    by_contra hcon
    exact hdue (Or.inr (Or.inr (Or.inr (by simpa using hcon))))
  have hf : (st.knownSfx.getD sfx default).filename ≠ [] := fun hcon => hdue (Or.inl hcon)
  have hl : sfx < st.knownSfx.length := by
    by_contra hcon
    rw [getD_out_of_range _ _ _ (Nat.le_of_not_lt hcon)] at hf
    exact hf rfl
  by_cases hfail : loadFails env
  · rw [load_of_fail st env sfx hdue hfail] at h
    exfalso
    have hsame : (loadTouched st env sfx).default_sfx = st.default_sfx :=
      (loadTouched_samePool st env sfx).2.2.1
    unfold S_AL_BufferUseDefault at h
    rw [if_pos (by rw [hsame]; exact hd)] at h
    simp at h
  · rw [load_of_success st env sfx hdue hfail] at h
    simp only [Except.ok.injEq] at h
    rw [← h]
    have hc : env.codec ≠ none := fun hcon => hfail (Or.inl hcon)
    obtain ⟨info, hinfo⟩ := Option.ne_none_iff_exists'.mp hc
    have hlt : (loadTouched st env sfx).knownSfx =
        st.knownSfx.set sfx { st.knownSfx.getD sfx default with buffer := env.genName } := by
      unfold loadTouched; rw [hinfo]
    simp only [hlt]
    have hl2 : sfx < (st.knownSfx.set sfx
        { st.knownSfx.getD sfx default with buffer := env.genName }).length := by
      rw [List.length_set]; exact hl
    refine ⟨?_, ?_, ?_, ?_⟩
    · rw [getD_set_self _ _ _ _ hl2]
    · rw [getD_set_self _ _ _ _ hl2, getD_set_self _ _ _ _ hl]; exact hdf
    · rw [getD_set_self _ _ _ _ hl2, getD_set_self _ _ _ _ hl]
    · intro j hj
      rw [getD_set_ne _ _ _ _ _ (fun hh => hj hh.symm),
        getD_set_ne _ _ _ _ _ (fun hh => hj hh.symm)]

/-- A cache in which only the fallback slot holds anything, in memory. -/
theorem cacheInv_of_single (D : Prop) (st : ALState) (hi : st.alBuffersInitialised = true)
    (hother : ∀ j : Nat, j ≠ st.default_sfx → st.knownSfx.getD j default = default)
    (hm : (st.knownSfx.getD st.default_sfx default).inMemory = true)
    (hdf : (st.knownSfx.getD st.default_sfx default).isDefault = false)
    (hf : (st.knownSfx.getD st.default_sfx default).filename ≠ []) : cacheInv D st := by
  have hz : ∀ j : Nat, (st.knownSfx.getD j default).inMemory = true → j = st.default_sfx := by
    intro j hj
    by_contra hne
    rw [hother j hne] at hj
    exact absurd hj (by decide)
  refine ⟨hi, ?_, ?_, ⟨hm, hf⟩, ?_⟩
  · rintro j ⟨h1, h2⟩
    rw [hz j h1, hdf] at h2
    exact absurd h2 (by decide)
  · intro j hj
    by_cases hne : j = st.default_sfx
    · rw [hne]
    · rw [hother j hne] at hj
      exact absurd hj (by decide)
  · intro _ i j hij h1 h2
    exact absurd ((hz i h1).trans (hz j h2).symm) hij

theorem getD_set_same_field {β : Type} (f : alSfx_t → β) (l : List alSfx_t) (i : Nat)
    (a : alSfx_t) (h : f a = f (l.getD i default)) :
    f ((l.set i a).getD i default) = f (l.getD i default) := by
  rw [getD_set]
  split_ifs
  · exact h
  · rfl

theorem getD_map_zero (l : List alSfx_t) (j : Nat) :
    (l.map (fun _ => ({} : alSfx_t))).getD j default = default := by
  by_cases hj : j < l.length
  · rw [List.getD_eq_getElem?_getD, List.getElem?_map, List.getElem?_eq_getElem hj]
    rfl
  · exact getD_out_of_range _ _ _ (by rw [List.length_map]; omega)

/-- The cache that `S_AL_BufferInit` returns in, when it found the cache not
initialised: only the fallback slot holds anything, and it is in memory. -/
theorem init_inv (D : Prop) (cmp : List Char → List Char → Int) (st st1 : ALState) (now : Int)
    (env : LoadEnv) (hQ : cmp [] "sound/feedback/hit.wav".toList ≠ 0)
    (hu : st.alBuffersInitialised = false)
    (h : S_AL_BufferInit cmp st now env = .ok st1) : cacheInv D st1 := by
  unfold S_AL_BufferInit at h
  rw [if_neg (by rw [hu]; decide)] at h
  simp only at h
  cases hf : S_AL_BufferFind cmp
      { st with knownSfx := st.knownSfx.map (fun _ => ({} : alSfx_t)) }
      "sound/feedback/hit.wav".toList with
  | error x => rw [hf] at h; simp at h
  | ok r =>
    obtain ⟨d, stA⟩ := r
    rw [hf] at h
    simp only at h
    rcases find_cases cmp _ _ d stA hf with ⟨hm, _⟩ | ⟨_, hfree, hA⟩
    · exfalso
      obtain ⟨_, hp, _⟩ := firstIdx_some _ default _ d hm
      simp only at hp
      rw [getD_map_zero] at hp
      exact hQ (by simpa using hp)
    · obtain ⟨hl, _, _⟩ := firstIdx_some _ default _ d hfree
      simp only at hl
      cases hU : S_AL_BufferUse { stA with default_sfx := d } now env d with
      | error x => rw [hU] at h; simp at h
      | ok st2 =>
        rw [hU] at h
        simp only [Except.ok.injEq] at h
        rw [← h]
        have hentry : ({ stA with default_sfx := d } : ALState).knownSfx.getD d default =
            { filename := "sound/feedback/hit.wav".toList } := by
          rw [hA]
          exact getD_set_self _ _ _ _ hl
        have hothers : ∀ j : Nat, j ≠ d →
            ({ stA with default_sfx := d } : ALState).knownSfx.getD j default = default := by
          intro j hj
          rw [hA]
          simp only
          rw [getD_set_ne _ _ _ _ _ (fun hh => hj hh.symm)]
          exact getD_map_zero _ _
        have hdue : ¬ loadSkips (({ stA with default_sfx := d } : ALState).knownSfx.getD d
            default) := by
          rw [hentry]; decide
        unfold S_AL_BufferUse at hU
        simp only at hU
        rw [if_neg (by rw [hentry]; decide), if_pos (by rw [hentry]; decide)] at hU
        cases hL : S_AL_BufferLoad { stA with default_sfx := d } env d with
        | error x => rw [hL] at hU; simp at hU
        | ok st3 =>
          rw [hL] at hU
          simp only [Except.ok.injEq] at hU
          obtain ⟨e1, e2, e3, e4⟩ := load_default_entry _ st3 env d hL hdue rfl
          have hd3 : st3.default_sfx = d := (load_samePool _ _ _ _ hL).2.2.1
          have hd2 : st2.default_sfx = d := by rw [← hU]; exact hd3
          have hk2 : st2.knownSfx = st3.knownSfx.set d
              { st3.knownSfx.getD d default with used := now } := by rw [← hU]
          have f1 : (st2.knownSfx.getD d default).inMemory = true := by
            rw [hk2]
            exact (getD_set_same_field (fun a => a.inMemory) st3.knownSfx d
              { st3.knownSfx.getD d default with used := now } rfl).trans e1
          have f2 : (st2.knownSfx.getD d default).isDefault = false := by
            rw [hk2]
            exact (getD_set_same_field (fun a => a.isDefault) st3.knownSfx d
              { st3.knownSfx.getD d default with used := now } rfl).trans e2
          have f3 : (st2.knownSfx.getD d default).filename ≠ [] := by
            rw [hk2]
            have := getD_set_same_field (fun a => a.filename) st3.knownSfx d
              { st3.knownSfx.getD d default with used := now } rfl
            simp only at this
            rw [this, e3, hentry]
            decide
          have f4 : ∀ j : Nat, j ≠ d → st2.knownSfx.getD j default = default := by
            intro j hj
            rw [hk2, getD_set_ne _ _ _ _ _ (fun hh => hj hh.symm), e4 j hj]
            exact hothers j hj
          refine cacheInv_of_single D _ rfl ?_ ?_ ?_ ?_
          · intro j hj
            simp only at hj ⊢
            rw [hd2] at hj
            rw [getD_set_ne _ _ _ _ _ (fun hh => hj hh.symm)]
            exact f4 j hj
          · simp only
            rw [hd2]
            exact (getD_set_same_field (fun a => a.inMemory) st2.knownSfx d
              { st2.knownSfx.getD d default with isLocked := true } rfl).trans f1
          · simp only
            rw [hd2]
            exact (getD_set_same_field (fun a => a.isDefault) st2.knownSfx d
              { st2.knownSfx.getD d default with isLocked := true } rfl).trans f2
          · simp only
            rw [hd2]
            have := getD_set_same_field (fun a => a.filename) st2.knownSfx d
              { st2.knownSfx.getD d default with isLocked := true } rfl
            simp only at this
            rw [this]
            exact f3

theorem unload_fold :
    ∀ (suf pre : List alSfx_t) (st : ALState), st.knownSfx = pre ++ suf →
      ((List.range' pre.length suf.length).foldl (fun s i => S_AL_BufferUnload s i) st).log =
        st.log ++ ((suf.filter (fun e => decide (e.filename ≠ []) && e.inMemory)).map
          (·.buffer)).map Event.deleteBuffers := by
  intro suf
  induction suf with
  | nil => intro pre st _; simp
  | cons a rest ih =>
    intro pre st hk
    have hget : st.knownSfx.getD pre.length default = a := by
      rw [hk, List.getD_eq_getElem?_getD, List.getElem?_append_right (le_refl _)]
      simp
    have hstep : ∀ st1 : ALState, st1.knownSfx = (pre ++ [a]) ++ rest ∨
        (∃ a1, st1.knownSfx = (pre ++ [a1]) ++ rest) →
        ((List.range' (pre.length + 1) rest.length).foldl
            (fun s i => S_AL_BufferUnload s i) st1).log =
          st1.log ++ ((rest.filter (fun e => decide (e.filename ≠ []) && e.inMemory)).map
            (·.buffer)).map Event.deleteBuffers := by
      intro st1 h1
      rcases h1 with h1 | ⟨a1, h1⟩
      · have := ih (pre ++ [a]) st1 h1
        simpa using this
      · have := ih (pre ++ [a1]) st1 h1
        simpa using this
    have hU : S_AL_BufferUnload st pre.length =
        if a.filename = [] then st
        else if a.inMemory = false then st
        else
          { st with
            knownSfx := st.knownSfx.set pre.length { a with inMemory := false }
            log := st.log ++ [Event.deleteBuffers a.buffer] } := by
      unfold S_AL_BufferUnload
      simp only [hget]
    simp only [List.length_cons, List.range'_succ, List.foldl_cons]
    rw [hU]
    by_cases hf : a.filename = []
    · rw [if_pos hf, hstep st (Or.inl (by rw [hk]; simp))]
      simp [hf]
    · rw [if_neg hf]
      by_cases hm : a.inMemory = false
      · rw [if_pos hm, hstep st (Or.inl (by rw [hk]; simp))]
        simp [hm]
      · rw [if_neg hm]
        have hm1 : a.inMemory = true := by simpa using hm
        rw [hstep _ (Or.inr ⟨{ a with inMemory := false }, by
          simp only
          rw [hk]
          simp⟩)]
        simp [hf, hm1]

theorem loadedBuffers_set_same (a : alSfx_t) :
    ∀ (l : List alSfx_t) (i : Nat), a.filename = (l.getD i default).filename →
      a.inMemory = (l.getD i default).inMemory → a.buffer = (l.getD i default).buffer →
      ((l.set i a).filter (fun e => decide (e.filename ≠ []) && e.inMemory)).map (·.buffer) =
        (l.filter (fun e => decide (e.filename ≠ []) && e.inMemory)).map (·.buffer) := by
  intro l
  induction l with
  | nil => intro i _ _ _; rfl
  | cons x xs ih =>
    intro i hf hm hb
    cases i with
    | zero =>
      simp only [List.getD_cons_zero] at hf hm hb
      simp only [List.set_cons_zero, List.filter_cons, hf, hm]
      split_ifs
      · simp [hb]
      · rfl
    | succ i =>
      simp only [List.getD_cons_succ] at hf hm hb
      simp only [List.set_cons_succ, List.filter_cons]
      split_ifs
      · simp only [List.map_cons, ih i hf hm hb]
      · exact ih i hf hm hb

/-- `S_AL_BufferShutdown` on an initialised cache deletes the buffers of the
slots that hold a path and are in memory, one call each, in the order of the
table, and nothing else. -/
theorem shutdown_log (st : ALState) (hi : st.alBuffersInitialised = true) :
    (S_AL_BufferShutdown st).log =
      st.log ++ (loadedBuffers st).map Event.deleteBuffers := by
  unfold S_AL_BufferShutdown
  rw [if_neg (by rw [hi]; decide)]
  simp only
  have h := unload_fold
    (st.knownSfx.set st.default_sfx
      { st.knownSfx.getD st.default_sfx default with isLocked := false }) []
    { st with
      knownSfx := st.knownSfx.set st.default_sfx
        { st.knownSfx.getD st.default_sfx default with isLocked := false } } rfl
  rw [List.length_nil, ← List.range_eq_range'] at h
  rw [h]
  unfold loadedBuffers
  have hs := loadedBuffers_set_same
    { st.knownSfx.getD st.default_sfx default with isLocked := false } st.knownSfx
    st.default_sfx rfl rfl rfl
  simp only at hs ⊢
  rw [hs]

theorem mem_getD (l : List alSfx_t) (e : alSfx_t) (h : e ∈ l) :
    ∃ i : Nat, l.getD i default = e := by
  obtain ⟨i, hi, he⟩ := List.getElem_of_mem h
  exact ⟨i, by rw [List.getD_eq_getElem?_getD, List.getElem?_eq_getElem hi, ← he]; rfl⟩

theorem loaded_nodup :
    ∀ l : List alSfx_t,
      (∀ i j : Nat, i ≠ j → (l.getD i default).inMemory = true →
        (l.getD j default).inMemory = true →
        (l.getD i default).buffer ≠ (l.getD j default).buffer) →
      ((l.filter (fun e => decide (e.filename ≠ []) && e.inMemory)).map (·.buffer)).Nodup := by
  intro l
  induction l with
  | nil => intro _; simp
  | cons x xs ih =>
    intro h
    have hxs := ih (fun i j hij hi hj => by
      have := h (i + 1) (j + 1) (by omega) (by simpa using hi) (by simpa using hj)
      simpa using this)
    simp only [List.filter_cons]
    split_ifs with hp
    · simp only [List.map_cons, List.nodup_cons]
      refine ⟨?_, hxs⟩
      intro hmem
      obtain ⟨y, hy, hyb⟩ := List.mem_map.mp hmem
      obtain ⟨hyx, hyp⟩ := List.mem_filter.mp hy
      obtain ⟨k, hk⟩ := mem_getD xs y hyx
      have hxm : x.inMemory = true := by
        simp only [Bool.and_eq_true] at hp; exact hp.2
      have hym : y.inMemory = true := by
        simp only [Bool.and_eq_true] at hyp; exact hyp.2
      have h0 : ((x :: xs).getD 0 default).inMemory = true := hxm
      have h1 : ((x :: xs).getD (k + 1) default).inMemory = true := by
        show (xs.getD k default).inMemory = true
        rw [hk]; exact hym
      have := h 0 (k + 1) (by omega) h0 h1
      have h2 : ((x :: xs).getD (k + 1) default).buffer = y.buffer := by
        show (xs.getD k default).buffer = y.buffer
        rw [hk]
      rw [h2] at this
      exact this hyb.symm
    · exact hxs

/-- In every state of the cache the bookkeeping is in order; slots in memory
hold different buffer names when the answers to the loads bring fresh names. -/
theorem reachable_cacheInv (cmp : List Char → List Char → Int)
    (answers : ALState → LoadEnv → Prop) (st : ALState)
    (hQ : cmp [] "sound/feedback/hit.wav".toList ≠ 0)
    (h : CacheReachable cmp answers fitsQPath st) :
    cacheInv (∀ s env, answers s env → freshName s env) st := by
  induction h with
  | init st st1 now env hu hres => exact init_inv _ cmp st st1 now env hQ hu hres
  | find st st1 filename sfx _ hP hres ih =>
    exact (find_inv _ cmp st st1 filename hP sfx hres ih).1
  | register st st1 precache now env sample sfx _ hans hP hres ih =>
    exact register_inv _ cmp st st1 precache now env sample hP sfx hres ih
      (fun hD => fresh_index st env (hD st env hans))
  | use st st1 now env sfx _ hans _ hres ih =>
    exact use_inv _ st st1 now env sfx hres ih (fun hD => fresh_index st env (hD st env hans))

theorem ok_finalState_id (r : Result ALState) (h : r.isOk = true) :
    r = .ok (finalState id r) := by
  cases r with
  | error x => cases h
  | ok v => rfl

/-- The bookkeeping of the cache for paths that fit a slot.  Let `Q_stricmp`
tell the empty path from the path of the fallback sound.  In every cache state
reachable from `S_AL_BufferInit` (called on a cache not yet initialised) by
`S_AL_BufferFind` and `S_AL_RegisterSound` of paths shorter than `MAX_QPATH`
and by `S_AL_BufferUse`, no entry has both `inMemory` and `isDefault` set, and
every entry with `isDefault` holds the buffer name of the fallback entry.
`S_AL_BufferShutdown` then calls `qalDeleteBuffers` exactly for the entries
that hold a path and have `inMemory` set, once each: every buffer name it
deletes is that of an entry in memory that is not on the fallback, and when the
playback library hands out a buffer name that no entry in memory holds, no
buffer name is deleted twice. -/
theorem cache_bookkeeping_fitting (Q_stricmp : List Char → List Char → Int)
    (answers : ALState → LoadEnv → Prop) (st : ALState)
    (hQ : Q_stricmp [] "sound/feedback/hit.wav".toList ≠ 0)
    (h : CacheReachable Q_stricmp answers fitsQPath st) :
    (∀ e ∈ st.knownSfx, ¬ (e.inMemory = true ∧ e.isDefault = true)) ∧
    (∀ e ∈ st.knownSfx, e.isDefault = true →
      e.buffer = (st.knownSfx.getD st.default_sfx default).buffer) ∧
    (S_AL_BufferShutdown st).log = st.log ++ (loadedBuffers st).map Event.deleteBuffers ∧
    (∀ b ∈ loadedBuffers st,
      ∃ e ∈ st.knownSfx, e.inMemory = true ∧ e.isDefault = false ∧ e.buffer = b) ∧
    ((∀ s env, answers s env → freshName s env) → (loadedBuffers st).Nodup) := by
  obtain ⟨v0, v1, v2, _, v4⟩ := reachable_cacheInv Q_stricmp answers st hQ h
  refine ⟨?_, ?_, shutdown_log st v0, ?_, ?_⟩
  · intro e he
    obtain ⟨i, hi⟩ := mem_getD _ e he
    rw [← hi]; exact v1 i
  · intro e he hd
    obtain ⟨i, hi⟩ := mem_getD _ e he
    rw [← hi] at hd ⊢
    exact v2 i hd
  · intro b hb
    unfold loadedBuffers at hb
    obtain ⟨e, he, heb⟩ := List.mem_map.mp hb
    obtain ⟨hmem, hp⟩ := List.mem_filter.mp he
    have hm : e.inMemory = true := by
      simp only [Bool.and_eq_true] at hp; exact hp.2
    refine ⟨e, hmem, hm, ?_, heb⟩
    obtain ⟨i, hi⟩ := mem_getD _ e hmem
    by_contra hcon
    exact v1 i (by rw [hi]; exact ⟨hm, by simpa using hcon⟩)
  · intro hD
    exact loaded_nodup st.knownSfx (v4 hD)

/-- The bookkeeping on `cacheLoaded`: the fallback sound in slot 0 (buffer 7),
a sound on the fallback in slot 1, a loaded sound in slot 2 (buffer 8); the
shutdown deletes the buffers 7 and 8. -/
theorem cache_bookkeeping_fitting_cacheLoaded :
    loadedBuffers cacheLoaded = [7, 8] ∧
    (cacheLoaded.knownSfx.getD 1 default).isDefault = true ∧
    (∀ e ∈ cacheLoaded.knownSfx, ¬ (e.inMemory = true ∧ e.isDefault = true)) ∧
    (∀ e ∈ cacheLoaded.knownSfx, e.isDefault = true →
      e.buffer = (cacheLoaded.knownSfx.getD cacheLoaded.default_sfx default).buffer) ∧
    (S_AL_BufferShutdown cacheLoaded).log =
      cacheLoaded.log ++ (loadedBuffers cacheLoaded).map Event.deleteBuffers ∧
    (∀ b ∈ loadedBuffers cacheLoaded,
      ∃ e ∈ cacheLoaded.knownSfx, e.inMemory = true ∧ e.isDefault = false ∧ e.buffer = b) ∧
    ((∀ s env, freshName s env → freshName s env) → (loadedBuffers cacheLoaded).Nodup) := by
  have h0 : CacheReachable exactCompare freshName fitsQPath cacheBoot :=
    CacheReachable.init cacheZero cacheBoot 10 envLoads.load (by decide)
      (ok_finalState_id _ (by decide))
  obtain ⟨s1, e1⟩ := ok_finalState
    (S_AL_RegisterSound exactCompare cacheBoot 1 20 envNoFile "sound/misc/menu1.wav".toList)
    (by decide)
  have h1 : CacheReachable exactCompare freshName fitsQPath cacheFallen :=
    CacheReachable.register cacheBoot cacheFallen 1 20 envNoFile _ s1 h0 (by decide) (by decide) e1
  obtain ⟨s2, e2⟩ := ok_finalState
    (S_AL_RegisterSound exactCompare cacheFallen 1 30 { envLoads.load with genName := 8 }
      "sound/misc/menu2.wav".toList) (by decide)
  have h2 : CacheReachable exactCompare freshName fitsQPath cacheLoaded :=
    CacheReachable.register cacheFallen cacheLoaded 1 30 _ _ s2 h1 (by decide) (by decide) e2
  exact ⟨by decide, by decide,
    cache_bookkeeping_fitting exactCompare freshName cacheLoaded (by decide) h2⟩

/-- C22 (the code at the failing input): after `S_AL_BufferInit`, look up
`longPath`, a path of 74 characters, with `S_AL_BufferFind`.  It is copied into
slot 1 with `strcpy`, and its characters from index 64 on run over the fields
behind the array `filename`: the slot is left with `inMemory` and `isDefault`
both set and with a buffer name, 811557998 (the characters `nd_0`), that the
playback library never handed out and that is not the fallback's.
`S_AL_BufferShutdown` then deletes that buffer name along with the fallback's
buffer 7. -/
theorem C22_long_path_overruns_slot :
    CacheReachable exactCompare freshName anyPath cacheLongFound ∧
    longPath.length = 74 ∧
    S_AL_BufferFind exactCompare cacheBoot longPath = .ok (1, cacheLongFound) ∧
    (cacheLongFound.knownSfx.getD 1 default).inMemory = true ∧
    (cacheLongFound.knownSfx.getD 1 default).isDefault = true ∧
    (cacheLongFound.knownSfx.getD 1 default).buffer = 811557998 ∧
    (cacheLongFound.knownSfx.getD cacheLongFound.default_sfx default).buffer = 7 ∧
    (∀ b, Event.deleteBuffers b ∉ cacheLongFound.log) ∧
    (S_AL_BufferShutdown cacheLongFound).log =
      cacheLongFound.log ++ [Event.deleteBuffers 7, Event.deleteBuffers 811557998] := by
  have h0 : CacheReachable exactCompare freshName anyPath cacheBoot :=
    CacheReachable.init cacheZero cacheBoot 10 envLoads.load (by decide)
      (ok_finalState_id _ (by decide))
  have e1 : S_AL_BufferFind exactCompare cacheBoot longPath = .ok (1, cacheLongFound) := by
    cases hr : S_AL_BufferFind exactCompare cacheBoot longPath with
    | error x =>
      have hok : (S_AL_BufferFind exactCompare cacheBoot longPath).isOk = true := by decide
      rw [hr] at hok; cases hok
    | ok v =>
      have h1 : (S_AL_BufferFind exactCompare cacheBoot longPath).toOption.map Prod.fst =
          some 1 := by decide
      have h2 : cacheLongFound = v.2 := by
        unfold cacheLongFound; rw [hr]; rfl
      rw [hr] at h1
      have h3 : v.1 = 1 := by simpa [Except.toOption] using h1
      rw [h2, ← h3]
  refine ⟨CacheReachable.find cacheBoot cacheLongFound longPath 1 h0 trivial e1, by decide,
    e1, by decide, by decide, by decide, by decide, ?_, by decide⟩
  intro b hb
  have hlog : cacheLongFound.log = [Event.codecLoad 0] := by decide
  rw [hlog] at hb
  simp at hb

end SndOpenAL
